import Mathlib

/-!
Shallow embedding of two subsystems of the code_saturne repository:

* the heterogeneous memory pool (`src/base/cs_base_mempool.cxx`,
  class `MemoryPool`), and
* the extended-neighborhood connectivity builder
  (`src/base/cs_ext_neighborhood.c`).

Machine pointers are modelled as natural numbers, with `0` playing the
role of the null pointer.  The backend allocators (CUDA / SYCL / OpenMP
target — exactly one is compiled in; we follow the common shape of the
three `#if` branches) hand out fresh, distinct, non-null pointers; this
is modelled by a monotone counter `next_ptr`.  The BFT bookkeeping layer
(`bft_mem_*`, outside the sources under verification) is modelled from
the spec as an association list `extern_blocks` keyed by host pointer.
-/

/-! ## Memory pool: data model (`cs_base_mempool.h`) -/

inductive cs_alloc_mode_t : Type
  | CS_ALLOC_HOST
  | CS_ALLOC_HOST_DEVICE
  | CS_ALLOC_HOST_DEVICE_PINNED
  | CS_ALLOC_HOST_DEVICE_SHARED
  | CS_ALLOC_DEVICE
deriving DecidableEq

open cs_alloc_mode_t

/-- Numeric value of the allocation-mode enumerator (its declaration
order in `cs_mem.h` / the spec: HOST < HOST_DEVICE < PINNED < SHARED <
DEVICE); the code compares modes with `<` on these values. -/
def cs_alloc_mode_t.val : cs_alloc_mode_t → Nat
  | CS_ALLOC_HOST => 0
  | CS_ALLOC_HOST_DEVICE => 1
  | CS_ALLOC_HOST_DEVICE_PINNED => 2
  | CS_ALLOC_HOST_DEVICE_SHARED => 3
  | CS_ALLOC_DEVICE => 4

/-- One allocation tracked by the pool (`cs_mem_block_t`). -/
structure cs_mem_block_t : Type where
  host_ptr : Nat
  device_ptr : Nat
  size : Nat
  mode : cs_alloc_mode_t
  ttl : Nat
deriving DecidableEq

/-- The zero-initialized block returned by the BFT bookkeeping on a miss. -/
def cs_mem_block_null : cs_mem_block_t :=
  { host_ptr := 0, device_ptr := 0, size := 0, mode := CS_ALLOC_HOST, ttl := 0 }

/-- Lookup in an association list keyed by pointers
(`std::unordered_map::find`). -/
def alist_find {α : Type} : List (Nat × α) → Nat → Option α
  | [], _ => none
  | kv :: rest, k => if kv.1 = k then some kv.2 else alist_find rest k

/-- Removal of a key (`std::unordered_map::erase`). -/
def alist_erase {α : Type} : List (Nat × α) → Nat → List (Nat × α)
  | [], _ => []
  | kv :: rest, k =>
    if kv.1 = k then alist_erase rest k else kv :: alist_erase rest k

/-- Keyed insertion/overwrite (`map[key] = value`). -/
def alist_insert {α : Type} (l : List (Nat × α)) (k : Nat) (v : α) :
    List (Nat × α) :=
  (k, v) :: alist_erase l k

/-- State of the `MemoryPool` singleton, together with the model of its
environment: the BFT bookkeeping (`extern_blocks`), a fresh-pointer
supply (`next_ptr`) and counters of physical backend allocation /
release events. -/
structure MemoryPool : Type where
  allocated_blocks : List (Nat × cs_mem_block_t)
  free_blocks : cs_alloc_mode_t → List cs_mem_block_t
  extern_blocks : List (Nat × cs_mem_block_t)
  next_ptr : Nat
  n_phys_allocs : Nat
  n_host_allocs : Nat
  n_phys_frees : Nat

/-- The pool as lazily constructed on first use: both maps empty.
`next_ptr = 1` makes every pointer handed out by a backend non-null. -/
def MemoryPool.init : MemoryPool :=
  { allocated_blocks := []
    free_blocks := fun _ => []
    extern_blocks := []
    next_ptr := 1
    n_phys_allocs := 0
    n_host_allocs := 0
    n_phys_frees := 0 }

/-- Pointwise update of the per-mode free-list map
(`free_blocks_[mode] = ...`). -/
def set_free (f : cs_alloc_mode_t → List cs_mem_block_t)
    (m : cs_alloc_mode_t) (l : List cs_mem_block_t) :
    cs_alloc_mode_t → List cs_mem_block_t :=
  fun m' => if m' = m then l else f m'

/-- `TTL_MAX` from `MemoryPool::allocate`. -/
def TTL_MAX : Nat := 500

/-- `adjusted_size = ((size + 63) / 64) * 64` from `MemoryPool::allocate`. -/
def adjusted_size (size : Nat) : Nat := ((size + 63) / 64) * 64

/-- Modelled from the spec: `bft_mem_get_block_info_try` (the Block
Allocator's external bookkeeping, file `bft_mem.c` is not among the
sources).  Per the spec it performs a best-effort metadata recovery for
a pointer; on a miss the returned struct is zero-initialized (null
host and device pointers). -/
def MemoryPool.bft_mem_get_block_info_try (st : MemoryPool) (ptr : Nat) :
    cs_mem_block_t :=
  match alist_find st.extern_blocks ptr with
  | some me => me
  | none => cs_mem_block_null

/-- `MemoryPool::free_block`: physical release of the block's host
and/or device side via the backend, plus — when file information is
passed (`file_name != nullptr`) — removal of the block from the BFT
bookkeeping (`bft_mem_update_block_info(..., &me, nullptr)`, keyed by
the block's host pointer). -/
def MemoryPool.free_block (st : MemoryPool) (me : cs_mem_block_t)
    (has_file : Bool) : MemoryPool :=
  { st with
    n_phys_frees := st.n_phys_frees + 1
    extern_blocks :=
      if has_file then alist_erase st.extern_blocks me.host_ptr
      else st.extern_blocks }

/-- `MemoryPool::allocate_new_block`: mode-directed backend allocation.
For modes below `CS_ALLOC_HOST_DEVICE_PINNED` a single host allocation
(`bft_mem_malloc`); for PINNED a pinned host allocation; for SHARED a
unified allocation with `device_ptr = host_ptr`; for DEVICE a
device-only allocation leaving `host_ptr` null.  When file information
is passed, the block is registered with the BFT bookkeeping
(`bft_mem_update_block_info(..., nullptr, &me)`). -/
def MemoryPool.allocate_new_block (st : MemoryPool) (size : Nat)
    (mode : cs_alloc_mode_t) (has_file : Bool) :
    cs_mem_block_t × MemoryPool :=
  let fresh := st.next_ptr
  let me0 : cs_mem_block_t :=
    { host_ptr := 0, device_ptr := 0, size := size, mode := mode, ttl := 0 }
  let me :=
    if mode.val < CS_ALLOC_HOST_DEVICE_PINNED.val then
      { me0 with host_ptr := fresh }
    else if mode = CS_ALLOC_HOST_DEVICE_PINNED then
      { me0 with host_ptr := fresh }
    else if mode = CS_ALLOC_HOST_DEVICE_SHARED then
      { me0 with host_ptr := fresh, device_ptr := fresh }
    else
      { me0 with device_ptr := fresh }
  let st1 :=
    { st with
      next_ptr := fresh + 1
      n_phys_allocs := st.n_phys_allocs + 1
      n_host_allocs :=
        if mode.val < CS_ALLOC_HOST_DEVICE_PINNED.val then
          st.n_host_allocs + 1
        else st.n_host_allocs }
  let st2 :=
    if has_file then
      { st1 with extern_blocks := alist_insert st1.extern_blocks me.host_ptr me }
    else st1
  (me, st2)

/-- The eviction scan of `MemoryPool::allocate`: walk the free-list in
order, increment each entry's `ttl`, and evict (physically release and
erase) every entry whose incremented `ttl` reaches `TTL_MAX`.  Returns
the updated pool state and the surviving list. -/
def MemoryPool.scan_ttl (st : MemoryPool) :
    List cs_mem_block_t → MemoryPool × List cs_mem_block_t
  | [] => (st, [])
  | b :: rest =>
    let b' := { b with ttl := b.ttl + 1 }
    if TTL_MAX ≤ b'.ttl then
      MemoryPool.scan_ttl (st.free_block b' true) rest
    else
      ((MemoryPool.scan_ttl st rest).1, b' :: (MemoryPool.scan_ttl st rest).2)

/-- The surviving list produced by the eviction scan, as a pure function
of the input list (the scan's survivors do not depend on the pool
state). -/
def surv_ttl : List cs_mem_block_t → List cs_mem_block_t
  | [] => []
  | b :: rest =>
    if TTL_MAX ≤ b.ttl + 1 then surv_ttl rest
    else { b with ttl := b.ttl + 1 } :: surv_ttl rest

/-- The exact-size first-fit search of `MemoryPool::allocate`: the first
entry of the (already scanned) free-list whose size equals the adjusted
size, together with the list with that entry removed. -/
def find_match (sz : Nat) :
    List cs_mem_block_t → Option (cs_mem_block_t × List cs_mem_block_t)
  | [] => none
  | b :: rest =>
    if b.size = sz then some (b, rest)
    else
      match find_match sz rest with
      | some (me, rest') => some (me, b :: rest')
      | none => none

/-- `MemoryPool::allocate` (the pool's `acquire`): round the size up,
scan-and-evict the free-list for `mode`, reuse an exact-size match if
one survives, otherwise obtain a fresh block from the Block Allocator;
either way the returned block is recorded in `allocated_blocks` under
its host pointer. -/
def MemoryPool.allocate (st : MemoryPool) (size : Nat)
    (mode : cs_alloc_mode_t) (has_file : Bool) :
    cs_mem_block_t × MemoryPool :=
  let adjusted := adjusted_size size
  let st1 := (st.scan_ttl (st.free_blocks mode)).1
  let scanned := (st.scan_ttl (st.free_blocks mode)).2
  match find_match adjusted scanned with
  | some (me, rest) =>
    (me,
      { st1 with
        free_blocks := set_free st1.free_blocks mode rest
        allocated_blocks := alist_insert st1.allocated_blocks me.host_ptr me })
  | none =>
    let st2 := { st1 with free_blocks := set_free st1.free_blocks mode scanned }
    let me := (st2.allocate_new_block adjusted mode has_file).1
    let st3 := (st2.allocate_new_block adjusted mode has_file).2
    (me,
      { st3 with
        allocated_blocks := alist_insert st3.allocated_blocks me.host_ptr me })

/-- `MemoryPool::get_block_info` (the pool's `lookup`): consult
`allocated_blocks` first; on a miss fall back to the BFT bookkeeping
and, if the recovered block has a non-null host or device pointer,
cache it in `allocated_blocks` under `me.host_ptr`. -/
def MemoryPool.get_block_info (st : MemoryPool) (ptr : Nat) :
    cs_mem_block_t × MemoryPool :=
  match alist_find st.allocated_blocks ptr with
  | some me => (me, st)
  | none =>
    let me := st.bft_mem_get_block_info_try ptr
    if me.host_ptr ≠ 0 ∨ me.device_ptr ≠ 0 then
      (me,
        { st with
          allocated_blocks := alist_insert st.allocated_blocks me.host_ptr me })
    else (me, st)

/-- `MemoryPool::deallocate` (the pool's `release`): a null pointer is
a no-op; a pointer found in `allocated_blocks` is moved, with `ttl`
reset to 0, to the back of the free-list for its mode; an unrecognized
pointer has its metadata recovered from the BFT bookkeeping and is
retired the same way. -/
def MemoryPool.deallocate (st : MemoryPool) (ptr : Nat) : MemoryPool :=
  if ptr = 0 then st
  else
    match alist_find st.allocated_blocks ptr with
    | some me =>
      let me' := { me with ttl := 0 }
      { st with
        allocated_blocks := alist_erase st.allocated_blocks ptr
        free_blocks :=
          set_free st.free_blocks me'.mode (st.free_blocks me'.mode ++ [me']) }
    | none =>
      let me := st.bft_mem_get_block_info_try ptr
      let me' := { me with ttl := 0 }
      { st with
        free_blocks :=
          set_free st.free_blocks me'.mode (st.free_blocks me'.mode ++ [me']) }

/-- `MemoryPool::update_block` (the pool's `update`). -/
def MemoryPool.update_block (st : MemoryPool) (ptr : Nat)
    (me_new : cs_mem_block_t) : MemoryPool :=
  { st with allocated_blocks := alist_insert st.allocated_blocks ptr me_new }

/-- `MemoryPool::insert_block` (the pool's `insert_external`). -/
def MemoryPool.insert_block (st : MemoryPool) (b : cs_mem_block_t) :
    MemoryPool :=
  { st with allocated_blocks := alist_insert st.allocated_blocks b.host_ptr b }

/-- Concrete pool state whose external (BFT) bookkeeping holds a
device-only block under pointer 5, as used for lookups of blocks never
routed through the pool. -/
def mp_ex_device_st : MemoryPool :=
  { MemoryPool.init with
    extern_blocks :=
      [(5, { host_ptr := 0, device_ptr := 5, size := 64,
             mode := CS_ALLOC_DEVICE, ttl := 0 })] }

/-- The pool state reached by `allocate` after the eviction scan of the
free-list for `mode`, before the exact-size match is examined. -/
def MemoryPool.after_scan (st : MemoryPool) (mode : cs_alloc_mode_t) :
    MemoryPool :=
  { (st.scan_ttl (st.free_blocks mode)).1 with
    free_blocks :=
      set_free ((st.scan_ttl (st.free_blocks mode)).1).free_blocks mode
        (surv_ttl (st.free_blocks mode)) }

/-- The HOST block handed out by the very first acquire on a fresh pool
(used by concrete eviction scenarios). -/
def c2cx_B : cs_mem_block_t :=
  { host_ptr := 1, device_ptr := 0, size := 64, mode := CS_ALLOC_HOST,
    ttl := 0 }

/-- Invariant of the eviction counterexample runs: the retired HOST
block `c2cx_B` stays in its free-list (never aged), pointer 1 is not a
live allocation, and the external bookkeeping still reports it; no
physical release has happened. -/
def c2cx_inv (σ : MemoryPool) : Prop :=
  σ.free_blocks CS_ALLOC_HOST = [c2cx_B] ∧
  σ.free_blocks CS_ALLOC_DEVICE = [] ∧
  alist_find σ.allocated_blocks 1 = none ∧
  alist_find σ.extern_blocks 1 = some c2cx_B ∧
  σ.n_phys_frees = 0

/-- Invariant of the eviction run (claim C2), parameterized by the
number `k` of aging scans survived so far: the retired block (sole
entry of its mode's free-list) has `ttl = k`, is not a live allocation,
is still registered with the external bookkeeping, and no physical
release has happened. -/
def c2_inv (st0 : MemoryPool) (B : cs_mem_block_t) (k : Nat)
    (σ : MemoryPool) : Prop :=
  σ.free_blocks B.mode = [{ B with ttl := k }] ∧
  alist_find σ.allocated_blocks B.host_ptr = none ∧
  alist_find σ.extern_blocks B.host_ptr =
    alist_find st0.extern_blocks B.host_ptr ∧
  σ.n_phys_frees = st0.n_phys_frees ∧
  B.host_ptr < σ.next_ptr

/-- Post-eviction state of the eviction run (claim C2): the block is
gone from its free-list, it is not a live allocation, the external
bookkeeping no longer reports it, and exactly one physical release has
happened. -/
def c2_done (st0 : MemoryPool) (B : cs_mem_block_t) (σ : MemoryPool) :
    Prop :=
  σ.free_blocks B.mode = [] ∧
  alist_find σ.allocated_blocks B.host_ptr = none ∧
  alist_find σ.extern_blocks B.host_ptr = none ∧
  σ.n_phys_frees = st0.n_phys_frees + 1 ∧
  B.host_ptr < σ.next_ptr

/-- Host pointers of a list of blocks. -/
def hostsOf (l : List cs_mem_block_t) : List Nat :=
  l.map (fun b => b.host_ptr)

/-- All host pointers currently sitting in any per-mode free-list. -/
def freeHosts (st : MemoryPool) : List Nat :=
  hostsOf (st.free_blocks CS_ALLOC_HOST) ++
    hostsOf (st.free_blocks CS_ALLOC_HOST_DEVICE) ++
    hostsOf (st.free_blocks CS_ALLOC_HOST_DEVICE_PINNED) ++
    hostsOf (st.free_blocks CS_ALLOC_HOST_DEVICE_SHARED) ++
    hostsOf (st.free_blocks CS_ALLOC_DEVICE)

/-- Well-formedness of a pool state: every `allocated_blocks` entry is
keyed by its block's host pointer, retired host pointers are non-null,
pairwise distinct and below the fresh-pointer counter, live keys are
below the counter, and — the disjointness invariant of the spec — no
live key is simultaneously retired. -/
def pool_wf (st : MemoryPool) : Prop :=
  (∀ kb ∈ st.allocated_blocks, (kb.2).host_ptr = kb.1) ∧
  (∀ h ∈ freeHosts st, 0 < h ∧ h < st.next_ptr) ∧
  (freeHosts st).Nodup ∧
  (∀ kb ∈ st.allocated_blocks, kb.1 < st.next_ptr) ∧
  (∀ kb ∈ st.allocated_blocks, kb.1 ∉ freeHosts st)

/-- The pool state with its free-list map replaced (helper for stating
free-list accounting lemmas). -/
def with_free (st : MemoryPool)
    (f : cs_alloc_mode_t → List cs_mem_block_t) : MemoryPool :=
  { st with free_blocks := f }

/-! ## Connectivity builders: data model (`cs_ext_neighborhood.c`)

Arrays are modelled as total functions `Nat → _`; the mesh arrays the
routines read are passed as lists (iterated in the same order as the C
loops).  Cell/vertex/face numbers keep the source's 1-based or 0-based
conventions, noted at each definition. -/

/-- Pointwise array update (all C arrays are modelled as total functions,
so a store `a[k] = v` becomes `updA a k v`). -/
def updA {α : Type} (f : Nat → α) (k : Nat) (v : α) : Nat → α :=
  fun i => if i = k then v else f i

/-- Generic counting pass over a stream of (row, value) write events:
each event for row `r` increments slot `r + 1` of the counter array,
exactly like the per-face / per-vertex `+= 1` counting loops. -/
def countLoop : List (Nat × Int) → (Nat → Nat) → (Nat → Nat)
  | [], arr => arr
  | e :: rest, arr => countLoop rest (updA arr (e.1 + 1) (arr (e.1 + 1) + 1))

/-- Generic prefix-sum pass `for (j = 0; j < n; j++) a[j+1] = a[j] + a[j+1]`
(shared by `_get_cell_i_faces_connectivity` and
`_reverse_connectivity_idx`). -/
def prefixLoop : Nat → (Nat → Nat) → (Nat → Nat)
  | 0, arr => arr
  | n+1, arr =>
    let arr1 := prefixLoop n arr
    updA arr1 (n+1) (arr1 n + arr1 (n+1))

/-- Generic fill pass over a stream of (row, value) events with per-row
write cursors: event (r, x) stores x at `pos r (cursor r)` and bumps the
cursor. -/
def fillLoop (pos : Nat → Nat → Nat) :
    List (Nat × Int) → (Nat → Nat) → (Nat → Int) → ((Nat → Nat) × (Nat → Int))
  | [], cnt, lst => (cnt, lst)
  | e :: rest, cnt, lst =>
    fillLoop pos rest (updA cnt e.1 (cnt e.1 + 1))
      (updA lst (pos e.1 (cnt e.1)) e.2)

/-- Number of events of a stream belonging to a given row. -/
def evCount : List (Nat × Int) → Nat → Nat
  | [], _ => 0
  | e :: rest, r => (if e.1 = r then 1 else 0) + evCount rest r

/-- The values of a row's events, in stream order. -/
def evRow : List (Nat × Int) → Nat → List Int
  | [], _ => []
  | e :: rest, r => if e.1 = r then e.2 :: evRow rest r else evRow rest r

/-- Number of events of a stream belonging to rows strictly below `r`. -/
def sumEv (evs : List (Nat × Int)) : Nat → Nat
  | 0 => 0
  | r+1 => sumEv evs r + evCount evs r

/-- Partial sums `arr 0 + ... + arr r` of an array (value of a prefix-sum
pass). -/
def sumA (arr : Nat → Nat) : Nat → Nat
  | 0 => arr 0
  | r+1 => sumA arr r + arr (r+1)

/-- Row `c` of a CSR structure whose index is 1-based (entries of row `c`
sit at positions `idx c - 1 .. idx (c+1) - 2`). -/
def rowOfCSR1 (idx : Nat → Nat) (lst : Nat → Int) (c : Nat) : List Int :=
  (List.range (idx (c+1) - idx c)).map (fun j => lst (idx c - 1 + j))

/-- Row `v` of a CSR structure whose index is 0-based (entries of row `v`
sit at positions `idx v .. idx (v+1) - 1`). -/
def rowOfCSR0 (idx : Nat → Nat) (lst : Nat → Int) (v : Nat) : List Int :=
  (List.range (idx (v+1) - idx v)).map (fun j => lst (idx v + j))

/-- Counting pass of `_get_cell_i_faces_connectivity`
(cs_ext_neighborhood.c:128-135): for each interior face with 1-based
adjoining cells (fc.1, fc.2), each side whose 0-based cell index is below
`n_cells` increments the slot after that cell. -/
def cell_faces_count_pass (n_cells : Nat) :
    List (Nat × Nat) → (Nat → Nat) → (Nat → Nat)
  | [], arr => arr
  | fc :: rest, arr =>
    let j1 := fc.1 - 1
    let j2 := fc.2 - 1
    let arr1 := if j1 < n_cells then updA arr (j1 + 1) (arr (j1 + 1) + 1) else arr
    let arr2 := if j2 < n_cells then updA arr1 (j2 + 1) (arr1 (j2 + 1) + 1) else arr1
    cell_faces_count_pass n_cells rest arr2

/-- Fill pass of `_get_cell_i_faces_connectivity`
(cs_ext_neighborhood.c:151-162): face `i` stores `+(i+1)` in the row of
its first cell and `-(i+1)` in the row of its second cell, each side
guarded by that side's own cell being local; positions come from the
1-based index and a per-cell counter. -/
def cell_faces_fill_pass (n_cells : Nat) (idx : Nat → Nat) :
    Nat → List (Nat × Nat) → (Nat → Nat) → (Nat → Int) →
      ((Nat → Nat) × (Nat → Int))
  | _, [], cnt, lst => (cnt, lst)
  | i, fc :: rest, cnt, lst =>
    let j1 := fc.1 - 1
    let j2 := fc.2 - 1
    let s1 := if j1 < n_cells then
        (updA cnt j1 (cnt j1 + 1),
         updA lst (idx j1 + cnt j1 - 1) (Int.ofNat (i+1)))
      else (cnt, lst)
    let s2 := if j2 < n_cells then
        (updA s1.1 j2 (s1.1 j2 + 1),
         updA s1.2 (idx j2 + s1.1 j2 - 1) (-(Int.ofNat (i+1))))
      else s1
    cell_faces_fill_pass n_cells idx (i+1) rest s2.1 s2.2

/-- `_get_cell_i_faces_connectivity` (cs_ext_neighborhood.c:102-171):
count faces per cell, set slot 0 to 1 and build the 1-based position
index by prefix sums, then fill the value array.  `i_face_cells` lists
each interior face's two 1-based adjoining cell numbers. -/
def _get_cell_i_faces_connectivity (n_cells : Nat)
    (i_face_cells : List (Nat × Nat)) : (Nat → Nat) × (Nat → Int) :=
  let counted := cell_faces_count_pass n_cells i_face_cells (fun _ => 0)
  let idx := prefixLoop n_cells (updA counted 0 1)
  let lst := (cell_faces_fill_pass n_cells idx 0 i_face_cells
    (fun _ => 0) (fun _ => 0)).2
  (idx, lst)

/-- The write events face `i` (0-based) of the face list contributes in
`_get_cell_i_faces_connectivity`: `+(i+1)` for the first side's 0-based
cell and `-(i+1)` for the second side's, each only when that cell is
local. -/
def cell_faces_events (n_cells : Nat) : Nat → List (Nat × Nat) → List (Nat × Int)
  | _, [] => []
  | i, fc :: rest =>
    ((if fc.1 - 1 < n_cells then [(fc.1 - 1, Int.ofNat (i+1))] else []) ++
     (if fc.2 - 1 < n_cells then [(fc.2 - 1, -(Int.ofNat (i+1)))] else [])) ++
    cell_faces_events n_cells (i+1) rest

/-- Expected contents of local cell `c`'s row (0-based `c`): for each
face in order, `+(i+1)` when `c` is the face's first cell, `-(i+1)` when
`c` is its second cell. -/
def cell_faces_rowSpec (c : Nat) : Nat → List (Nat × Nat) → List Int
  | _, [] => []
  | i, fc :: rest =>
    ((if fc.1 - 1 = c then [Int.ofNat (i+1)] else []) ++
     (if fc.2 - 1 = c then [-(Int.ofNat (i+1))] else [])) ++
    cell_faces_rowSpec c (i+1) rest

/-- Inner loop of `_reverse_connectivity_idx` (cs_ext_neighborhood.c:
419-432) over one ghost cell's vertex row (1-based vertex numbers):
each vertex not yet seen for this ghost cell (checker) counts once. -/
def _reverse_connectivity_idx_row (id : Int) :
    List Nat → (Nat → Int) → (Nat → Nat) → ((Nat → Int) × (Nat → Nat))
  | [], checker, arr => (checker, arr)
  | e :: rest, checker, arr =>
    if checker (e - 1) ≠ id then
      _reverse_connectivity_idx_row id rest (updA checker (e - 1) id)
        (updA arr ((e - 1) + 1) (arr ((e - 1) + 1) + 1))
    else
      _reverse_connectivity_idx_row id rest checker arr

/-- Outer loop of `_reverse_connectivity_idx` over the ghost cells. -/
def _reverse_connectivity_idx_loop :
    Nat → List (List Nat) → (Nat → Int) → (Nat → Nat) →
      ((Nat → Int) × (Nat → Nat))
  | _, [], checker, arr => (checker, arr)
  | id, row :: rest, checker, arr =>
    let p := _reverse_connectivity_idx_row (Int.ofNat id) row checker arr
    _reverse_connectivity_idx_loop (id+1) rest p.1 p.2

/-- `_reverse_connectivity_idx` (cs_ext_neighborhood.c:389-437) for the
whole extended halo (`rank_id = -1`): checker initialised to -1, counts
deduplicated per ghost cell, 0-based prefix-summed index. -/
def _reverse_connectivity_idx (n_vertices : Nat)
    (gcell_vtx : List (List Nat)) : Nat → Nat :=
  prefixLoop n_vertices
    (_reverse_connectivity_idx_loop 0 gcell_vtx (fun _ => -1) (fun _ => 0)).2

/-- Inner loop of `_reverse_connectivity_lst` (cs_ext_neighborhood.c:
487-504) over one ghost cell's vertex row: each vertex not yet seen for
this ghost cell stores the ghost cell id at `idx[vtx] + counter[vtx]`. -/
def _reverse_connectivity_lst_row (id : Int) (idx : Nat → Nat) :
    List Nat → (Nat → Int) → (Nat → Nat) → (Nat → Int) →
      ((Nat → Int) × (Nat → Nat) × (Nat → Int))
  | [], checker, cntr, lst => (checker, cntr, lst)
  | e :: rest, checker, cntr, lst =>
    if checker (e - 1) ≠ id then
      _reverse_connectivity_lst_row id idx rest (updA checker (e - 1) id)
        (updA cntr (e - 1) (cntr (e - 1) + 1))
        (updA lst (idx (e - 1) + cntr (e - 1)) id)
    else
      _reverse_connectivity_lst_row id idx rest checker cntr lst

/-- Outer loop of `_reverse_connectivity_lst` over the ghost cells. -/
def _reverse_connectivity_lst_loop (idx : Nat → Nat) :
    Nat → List (List Nat) → (Nat → Int) → (Nat → Nat) → (Nat → Int) →
      ((Nat → Int) × (Nat → Nat) × (Nat → Int))
  | _, [], checker, cntr, lst => (checker, cntr, lst)
  | id, row :: rest, checker, cntr, lst =>
    let t := _reverse_connectivity_lst_row (Int.ofNat id) idx row checker cntr lst
    _reverse_connectivity_lst_loop idx (id+1) rest t.1 t.2.1 t.2.2

/-- `_reverse_connectivity_lst` (cs_ext_neighborhood.c:456-506) for the
whole extended halo: counter 0, checker -1, fill the reversed list. -/
def _reverse_connectivity_lst (gcell_vtx : List (List Nat))
    (idx : Nat → Nat) : Nat → Int :=
  (_reverse_connectivity_lst_loop idx 0 gcell_vtx (fun _ => -1) (fun _ => 0)
    (fun _ => 0)).2.2

/-- `_create_vtx_gcells_connect` (cs_ext_neighborhood.c:522-568): build
the reversed ("vertex → ghost cells") index, then the reversed list. -/
def _create_vtx_gcells_connect (n_vertices : Nat)
    (gcell_vtx : List (List Nat)) : (Nat → Nat) × (Nat → Int) :=
  let idx := _reverse_connectivity_idx n_vertices gcell_vtx
  (idx, _reverse_connectivity_lst gcell_vtx idx)

/-- First occurrences of a forward row's 0-based vertex ids, skipping
ids already in `seen` (dedup order of the checker mechanism). -/
def rowDedup (seen : List Nat) : List Nat → List Nat
  | [] => []
  | e :: rest =>
    if (e - 1) ∈ seen then rowDedup seen rest
    else (e - 1) :: rowDedup ((e - 1) :: seen) rest

/-- Deduplicated (vertex, ghost cell) event stream of the reversal. -/
def dedupEvents : Nat → List (List Nat) → List (Nat × Int)
  | _, [] => []
  | id, row :: rest =>
    (rowDedup [] row).map (fun v => (v, Int.ofNat id)) ++
      dedupEvents (id+1) rest

/-- Expected reversed row of 0-based vertex `v`: the ascending list of
ghost cell ids whose forward row mentions vertex number `v + 1`. -/
def revRowSpec (v : Nat) : Nat → List (List Nat) → List Int
  | _, [] => []
  | id, row :: rest =>
    (if (v+1) ∈ row then [Int.ofNat id] else []) ++ revRowSpec v (id+1) rest

/-- Innermost loop of `_tag_cells` (cs_ext_neighborhood.c:353-363): walk
the cells adjacent to one vertex; whenever one equals the extended
neighbour under scrutiny and the list entry is still positive it is
negated in place. -/
def tag_entry_vtx_cells (ext : Int) (i : Nat) :
    List Int → (Nat → Int) → (Nat → Int)
  | [], lst => lst
  | c :: rest, lst =>
    tag_entry_vtx_cells ext i rest
      (if c = ext ∧ 0 < lst i then updA lst i (-(lst i)) else lst)

/-- Middle loop of `_tag_cells` (cs_ext_neighborhood.c:348-365): walk
the face's vertices (1-based numbers); `vtx_cells` gives each 0-based
vertex's adjacent-cell row. -/
def tag_entry_vertices (vtx_cells : Nat → List Int) (ext : Int) (i : Nat) :
    List Nat → (Nat → Int) → (Nat → Int)
  | [], lst => lst
  | vn :: rest, lst =>
    tag_entry_vertices vtx_cells ext i rest
      (tag_entry_vtx_cells ext i (vtx_cells (vn - 1)) lst)

/-- Outer loop of `_tag_cells` (cs_ext_neighborhood.c:337-369) over the
positions of one cell's extended-neighbour row: an entry still positive
is compared against the cells sharing a vertex with the face. -/
def tag_cells_positions (vtx_cells : Nat → List Int) (fvtx : List Nat) :
    List Nat → (Nat → Int) → (Nat → Int)
  | [], lst => lst
  | i :: rest, lst =>
    tag_cells_positions vtx_cells fvtx rest
      (if 0 < lst i then tag_entry_vertices vtx_cells (lst i) i fvtx lst
       else lst)

/-- `_tag_cells` (cs_ext_neighborhood.c:318-373): guarded by the cell
being local, tag (negate) the entries of its extended-neighbour row that
name a cell adjacent to one of the face's vertices.  `idx` is the
1-based `cell_cells_idx`, `fvtx` the face's 1-based vertex numbers. -/
def _tag_cells (n_cells : Nat) (idx : Nat → Nat)
    (vtx_cells : Nat → List Int) (fvtx : List Nat) (cell_id : Nat)
    (lst : Nat → Int) : Nat → Int :=
  if cell_id < n_cells then
    tag_cells_positions vtx_cells fvtx
      (List.range' (idx cell_id - 1) ((idx (cell_id + 1) - 1) - (idx cell_id - 1)))
      lst
  else lst

/-- Face loop of `redvse` (cs_ext_neighborhood.c:1004-1050): each face
is a pair of 1-based adjoining cell numbers plus its 1-based vertex
list; `admissible f` abstracts the floating-point non-orthogonality test
`cos_ij_fn <= cos_ij_fn_min` for face `f`.  An admissible face tags the
rows of both its adjoining cells. -/
def redvse_tag_faces (n_cells : Nat) (idx : Nat → Nat)
    (vtx_cells : Nat → List Int) (admissible : Nat → Bool) :
    Nat → List ((Nat × Nat) × List Nat) → (Nat → Int) → (Nat → Int)
  | _, [], lst => lst
  | f, face :: rest, lst =>
    redvse_tag_faces n_cells idx vtx_cells admissible (f+1) rest
      (if admissible f then
        _tag_cells n_cells idx vtx_cells face.2 (face.1.2 - 1)
          (_tag_cells n_cells idx vtx_cells face.2 (face.1.1 - 1) lst)
       else lst)

/-- Global sign flip of `redvse` (cs_ext_neighborhood.c:1060-1061):
negate the first `total` entries so the cells to eliminate are the
negative ones. -/
def flip_all (total : Nat) (lst : Nat → Int) : Nat → Int :=
  fun i => if i < total then -(lst i) else lst i

/-- One row of the in-place compaction of `redvse`
(cs_ext_neighborhood.c:1069-1078): scan the given positions; positive
entries are moved to the write cursor `w`, others bump the deleted
counter. -/
def compact_row : List Nat → (Nat → Int) → Nat → Nat → ((Nat → Int) × Nat × Nat)
  | [], lst, w, del => (lst, w, del)
  | i :: rest, lst, w, del =>
    if 0 < lst i then compact_row rest (updA lst w (lst i)) (w+1) del
    else compact_row rest lst w (del+1)

/-- Cell loop of the compaction of `redvse` (cs_ext_neighborhood.c:
1067-1083): after each row the slot `idx[c+1]` drops by the cumulative
number of deleted entries, and the previous-bound cursor advances to the
old `idx[c+1] - 1`. -/
def compact_loop :
    List Nat → (Nat → Int) → (Nat → Nat) → Nat → Nat → Nat →
      ((Nat → Int) × (Nat → Nat))
  | [], lst, idx, _, _, _ => (lst, idx)
  | c :: cs, lst, idx, prev, w, del =>
    let hi := idx (c+1) - 1
    let t := compact_row (List.range' prev (hi - prev)) lst w del
    compact_loop cs t.1 (updA idx (c+1) (idx (c+1) - t.2.2)) hi t.2.1 t.2.2

/-- The filtering phases of `redvse` (cs_ext_neighborhood.c:1004-1087)
on the extended-neighbour connectivity (1-based index `idx`, value array
`lst`): tag admissible faces' confirmations, flip all signs, compact
rows and index in place. -/
def redvse_filter (n_cells : Nat) (faces : List ((Nat × Nat) × List Nat))
    (vtx_cells : Nat → List Int) (admissible : Nat → Bool)
    (idx : Nat → Nat) (lst : Nat → Int) : (Nat → Nat) × (Nat → Int) :=
  let lst1 := redvse_tag_faces n_cells idx vtx_cells admissible 0 faces lst
  let lst2 := flip_all (idx n_cells - 1) lst1
  let t := compact_loop (List.range n_cells) lst2 idx 0 0 0
  (t.2, t.1)

/-- Whether one of the face's vertices has the cell value `e` in its
vertex→cells adjacency row. -/
def matchVtxB (vtx_cells : Nat → List Int) (fvtx : List Nat) (e : Int) : Bool :=
  fvtx.any (fun vn => decide (e ∈ vtx_cells (vn - 1)))

/-- One application of the tagging filter to a single entry value. -/
def tagStep (vtx_cells : Nat → List Int) (fvtx : List Nat) (v : Int) : Int :=
  if 0 < v ∧ matchVtxB vtx_cells fvtx v = true then -v else v

/-- Whether a single face would tag position `j` holding value `v`: one
of the face's sides is a local cell whose row contains `j`, `v` is
positive and some vertex of the face is adjacent to cell `v`. -/
def face_confirms (n_cells : Nat) (idx : Nat → Nat)
    (vtx_cells : Nat → List Int) (face : (Nat × Nat) × List Nat)
    (j : Nat) (v : Int) : Bool :=
  ((decide (face.1.1 - 1 < n_cells) && decide (idx (face.1.1 - 1) - 1 ≤ j) &&
      decide (j < idx (face.1.1 - 1 + 1) - 1)) ||
   (decide (face.1.2 - 1 < n_cells) && decide (idx (face.1.2 - 1) - 1 ≤ j) &&
      decide (j < idx (face.1.2 - 1 + 1) - 1))) &&
  decide (0 < v) && matchVtxB vtx_cells face.2 v

/-- Whether some admissible face of the face stream (starting at face
index `f`) tags position `j` holding value `v`. -/
def tagged_upto (n_cells : Nat) (idx : Nat → Nat)
    (vtx_cells : Nat → List Int) (admissible : Nat → Bool) :
    Nat → List ((Nat × Nat) × List Nat) → Nat → Int → Bool
  | _, [], _, _ => false
  | f, face :: rest, j, v =>
    (admissible f && face_confirms n_cells idx vtx_cells face j v) ||
    tagged_upto n_cells idx vtx_cells admissible (f+1) rest j v

/-- The claim-level admissibility of an entry `e` of cell `c`'s row:
some admissible face has `c` as one of its two adjoining cells and a
vertex whose vertex→cells adjacency contains `e`. -/
def confirmsB (vtx_cells : Nat → List Int) (admissible : Nat → Bool)
    (c : Nat) (e : Int) : Nat → List ((Nat × Nat) × List Nat) → Bool
  | _, [] => false
  | f, face :: rest =>
    (admissible f && (decide (face.1.1 - 1 = c) || decide (face.1.2 - 1 = c)) &&
      matchVtxB vtx_cells face.2 e) ||
    confirmsB vtx_cells admissible c e (f+1) rest

/-! ## Memory pool: association-list and scan lemmas -/

theorem alist_find_erase_ne {α : Type} (l : List (Nat × α)) (k k' : Nat)
    (h : k' ≠ k) : alist_find (alist_erase l k) k' = alist_find l k' := by
  induction l with
  | nil => rfl
  | cons kv rest ih =>
    by_cases hk : kv.1 = k
    · simp [alist_erase, alist_find, hk, Ne.symm h, ih]
    · by_cases hk2 : kv.1 = k'
      · simp [alist_erase, alist_find, hk, hk2, h]
      · simp [alist_erase, alist_find, hk, hk2, ih]

theorem alist_find_erase_self {α : Type} (l : List (Nat × α)) (k : Nat) :
    alist_find (alist_erase l k) k = none := by
  induction l with
  | nil => rfl
  | cons kv rest ih =>
    by_cases hk : kv.1 = k
    · simp [alist_erase, hk, ih]
    · simp [alist_erase, alist_find, hk, ih]

theorem alist_find_insert_self {α : Type} (l : List (Nat × α)) (k : Nat)
    (v : α) : alist_find (alist_insert l k v) k = some v := by
  simp [alist_insert, alist_find]

theorem alist_find_insert_ne {α : Type} (l : List (Nat × α)) (k k' : Nat)
    (v : α) (h : k' ≠ k) :
    alist_find (alist_insert l k v) k' = alist_find l k' := by
  simp [alist_insert, alist_find, Ne.symm h]
  exact alist_find_erase_ne l k k' h

theorem set_free_same (f : cs_alloc_mode_t → List cs_mem_block_t)
    (m : cs_alloc_mode_t) (l : List cs_mem_block_t) : set_free f m l m = l := by
  simp [set_free]

theorem set_free_other (f : cs_alloc_mode_t → List cs_mem_block_t)
    (m m' : cs_alloc_mode_t) (l : List cs_mem_block_t) (h : m' ≠ m) :
    set_free f m l m' = f m' := by
  simp [set_free, h]

theorem scan_ttl_snd (st : MemoryPool) (l : List cs_mem_block_t) :
    (st.scan_ttl l).2 = surv_ttl l := by
  induction l generalizing st with
  | nil => rfl
  | cons b rest ih =>
    rw [MemoryPool.scan_ttl, surv_ttl]
    split
    · exact ih _
    · rw [ih]

theorem scan_ttl_allocated (st : MemoryPool) (l : List cs_mem_block_t) :
    (st.scan_ttl l).1.allocated_blocks = st.allocated_blocks := by
  induction l generalizing st with
  | nil => rfl
  | cons b rest ih =>
    rw [MemoryPool.scan_ttl]
    split
    · rw [ih]; rfl
    · exact ih st

theorem scan_ttl_free_blocks (st : MemoryPool) (l : List cs_mem_block_t) :
    (st.scan_ttl l).1.free_blocks = st.free_blocks := by
  induction l generalizing st with
  | nil => rfl
  | cons b rest ih =>
    rw [MemoryPool.scan_ttl]
    split
    · rw [ih]; rfl
    · exact ih st

theorem scan_ttl_next_ptr (st : MemoryPool) (l : List cs_mem_block_t) :
    (st.scan_ttl l).1.next_ptr = st.next_ptr := by
  induction l generalizing st with
  | nil => rfl
  | cons b rest ih =>
    rw [MemoryPool.scan_ttl]
    split
    · rw [ih]; rfl
    · exact ih st

theorem scan_ttl_n_phys_allocs (st : MemoryPool) (l : List cs_mem_block_t) :
    (st.scan_ttl l).1.n_phys_allocs = st.n_phys_allocs := by
  induction l generalizing st with
  | nil => rfl
  | cons b rest ih =>
    rw [MemoryPool.scan_ttl]
    split
    · rw [ih]; rfl
    · exact ih st

theorem scan_ttl_n_host_allocs (st : MemoryPool) (l : List cs_mem_block_t) :
    (st.scan_ttl l).1.n_host_allocs = st.n_host_allocs := by
  induction l generalizing st with
  | nil => rfl
  | cons b rest ih =>
    rw [MemoryPool.scan_ttl]
    split
    · rw [ih]; rfl
    · exact ih st

theorem scan_ttl_no_evict (st : MemoryPool) (l : List cs_mem_block_t)
    (h : ∀ b ∈ l, b.ttl + 1 < TTL_MAX) : (st.scan_ttl l).1 = st := by
  induction l generalizing st with
  | nil => rfl
  | cons b rest ih =>
    rw [MemoryPool.scan_ttl]
    have hb := h b (by simp)
    rw [if_neg (by simpa using Nat.not_le.mpr hb)]
    exact ih st (fun b' hb' => h b' (by simp [hb']))

theorem surv_ttl_mem (l : List cs_mem_block_t) (b' : cs_mem_block_t)
    (h : b' ∈ surv_ttl l) :
    ∃ b ∈ l, b' = { b with ttl := b.ttl + 1 } ∧ b.ttl + 1 < TTL_MAX := by
  induction l with
  | nil => simp [surv_ttl] at h
  | cons b rest ih =>
    rw [surv_ttl] at h
    by_cases hc : TTL_MAX ≤ b.ttl + 1
    · rw [if_pos hc] at h
      obtain ⟨b0, hb0, he⟩ := ih h
      exact ⟨b0, by simp [hb0], he⟩
    · rw [if_neg hc] at h
      rcases List.mem_cons.mp h with he | hm
      · exact ⟨b, by simp, he, Nat.not_le.mp hc⟩
      · obtain ⟨b0, hb0, he⟩ := ih hm
        exact ⟨b0, by simp [hb0], he⟩

theorem surv_ttl_append (l1 l2 : List cs_mem_block_t) :
    surv_ttl (l1 ++ l2) = surv_ttl l1 ++ surv_ttl l2 := by
  induction l1 with
  | nil => rfl
  | cons b rest ih =>
    rw [List.cons_append, surv_ttl, surv_ttl]
    split
    · exact ih
    · rw [ih, List.cons_append]

theorem find_match_none_iff (sz : Nat) (l : List cs_mem_block_t) :
    find_match sz l = none ↔ ∀ b ∈ l, b.size ≠ sz := by
  induction l with
  | nil => simp [find_match]
  | cons b rest ih =>
    by_cases h : b.size = sz
    · simp [find_match, h]
    · rw [find_match, if_neg h]
      cases hm : find_match sz rest with
      | none =>
        simp only [List.mem_cons]
        constructor
        · intro _ b' hb'
          rcases hb' with he | hm'
          · exact he ▸ h
          · exact (ih.mp hm) b' hm'
        · intro _
          trivial
      | some p =>
        simp only [List.mem_cons]
        constructor
        · intro hfalse
          exact absurd hfalse (by simp)
        · intro hall
          have hnone : find_match sz rest = none :=
            ih.mpr (fun b' hb' => hall b' (Or.inr hb'))
          rw [hm] at hnone
          exact absurd hnone (by simp)

theorem find_match_eq_some (sz : Nat) (l : List cs_mem_block_t)
    (me : cs_mem_block_t) (rest : List cs_mem_block_t)
    (h : find_match sz l = some (me, rest)) :
    ∃ pre post, l = pre ++ me :: post ∧ rest = pre ++ post ∧
      me.size = sz ∧ ∀ b ∈ pre, b.size ≠ sz := by
  induction l generalizing rest with
  | nil => exact absurd h (by simp [find_match])
  | cons b l' ih =>
    rw [find_match] at h
    by_cases hb : b.size = sz
    · rw [if_pos hb] at h
      obtain ⟨h1, h2⟩ := Prod.mk.injEq .. ▸ Option.some.injEq .. ▸ h
      exact ⟨[], l', by simp [← h1, ← h2, hb]⟩
    · rw [if_neg hb] at h
      cases hm : find_match sz l' with
      | none => rw [hm] at h; exact absurd h (by simp)
      | some p =>
        obtain ⟨me', rest'⟩ := p
        rw [hm] at h
        have h1 : me' = me ∧ b :: rest' = rest := by
          constructor
          · exact congrArg Prod.fst (Option.some.inj h)
          · exact congrArg Prod.snd (Option.some.inj h)
        obtain ⟨pre, post, hl, hr, hsz, hpre⟩ := ih rest' (h1.1 ▸ hm)
        refine ⟨b :: pre, post, ?_, ?_, hsz, ?_⟩
        · simp [hl]
        · simp [← h1.2, hr]
        · intro b' hb'
          rcases List.mem_cons.mp hb' with he | hm'
          · exact he ▸ hb
          · exact hpre b' hm'

theorem allocate_new_block_me (st : MemoryPool) (size : Nat)
    (mode : cs_alloc_mode_t) (hf : Bool) :
    (st.allocate_new_block size mode hf).1 =
      if mode.val < CS_ALLOC_HOST_DEVICE_PINNED.val then
        { host_ptr := st.next_ptr, device_ptr := 0, size := size,
          mode := mode, ttl := 0 }
      else if mode = CS_ALLOC_HOST_DEVICE_PINNED then
        { host_ptr := st.next_ptr, device_ptr := 0, size := size,
          mode := mode, ttl := 0 }
      else if mode = CS_ALLOC_HOST_DEVICE_SHARED then
        { host_ptr := st.next_ptr, device_ptr := st.next_ptr, size := size,
          mode := mode, ttl := 0 }
      else
        { host_ptr := 0, device_ptr := st.next_ptr, size := size,
          mode := mode, ttl := 0 } := rfl

theorem allocate_new_block_next_ptr (st : MemoryPool) (size : Nat)
    (mode : cs_alloc_mode_t) (hf : Bool) :
    (st.allocate_new_block size mode hf).2.next_ptr = st.next_ptr + 1 := by
  cases hf <;> rfl

theorem allocate_new_block_n_phys (st : MemoryPool) (size : Nat)
    (mode : cs_alloc_mode_t) (hf : Bool) :
    (st.allocate_new_block size mode hf).2.n_phys_allocs =
      st.n_phys_allocs + 1 := by
  cases hf <;> rfl

theorem allocate_new_block_n_host (st : MemoryPool) (size : Nat)
    (mode : cs_alloc_mode_t) (hf : Bool) :
    (st.allocate_new_block size mode hf).2.n_host_allocs =
      if mode.val < CS_ALLOC_HOST_DEVICE_PINNED.val then st.n_host_allocs + 1
      else st.n_host_allocs := by
  cases hf <;> rfl

theorem allocate_new_block_allocated (st : MemoryPool) (size : Nat)
    (mode : cs_alloc_mode_t) (hf : Bool) :
    (st.allocate_new_block size mode hf).2.allocated_blocks =
      st.allocated_blocks := by
  cases hf <;> rfl

theorem allocate_new_block_free (st : MemoryPool) (size : Nat)
    (mode : cs_alloc_mode_t) (hf : Bool) :
    (st.allocate_new_block size mode hf).2.free_blocks = st.free_blocks := by
  cases hf <;> rfl

theorem allocate_new_block_ebk (st : MemoryPool) (size : Nat)
    (mode : cs_alloc_mode_t) (hf : Bool) :
    (st.allocate_new_block size mode hf).2.extern_blocks =
      if hf then
        alist_insert st.extern_blocks
          (st.allocate_new_block size mode hf).1.host_ptr
          (st.allocate_new_block size mode hf).1
      else st.extern_blocks := by
  cases hf <;> rfl

/-! ## Claim C10 -/

/-- C10: calling `deallocate` (release) with a non-null pointer that is
not a live allocation reports no error and is not a no-op: the pool
recovers the metadata from the Block Allocator's bookkeeping
(`bft_mem_get_block_info_try` — possibly a block with null host and
device pointers) and unconditionally appends it, with `time_to_live`
reset to 0, to the free-list for its reported mode, leaving every other
free-list unchanged; the appended entry is then aged by a subsequent
eviction scan like any retired block. -/
theorem c10_release_unknown (st : MemoryPool) (p : Nat) (hp : p ≠ 0)
    (h : alist_find st.allocated_blocks p = none) :
    (st.deallocate p).free_blocks (st.bft_mem_get_block_info_try p).mode =
        st.free_blocks (st.bft_mem_get_block_info_try p).mode ++
          [{ st.bft_mem_get_block_info_try p with ttl := 0 }] ∧
    (∀ m, m ≠ (st.bft_mem_get_block_info_try p).mode →
        (st.deallocate p).free_blocks m = st.free_blocks m) ∧
    { st.bft_mem_get_block_info_try p with ttl := 1 } ∈
        surv_ttl ((st.deallocate p).free_blocks
          (st.bft_mem_get_block_info_try p).mode) := by
  have hd : st.deallocate p =
      { st with
        free_blocks :=
          set_free st.free_blocks (st.bft_mem_get_block_info_try p).mode
            (st.free_blocks (st.bft_mem_get_block_info_try p).mode ++
              [{ st.bft_mem_get_block_info_try p with ttl := 0 }]) } := by
    rw [MemoryPool.deallocate, if_neg hp, h]
  refine ⟨?_, ?_, ?_⟩
  · rw [hd]
    exact set_free_same ..
  · intro m hm
    rw [hd]
    exact set_free_other _ _ _ _ hm
  · rw [hd]
    show _ ∈ surv_ttl (set_free _ _ _ _)
    rw [set_free_same, surv_ttl_append]
    apply List.mem_append_right
    simp [surv_ttl, TTL_MAX]

/-- Witness for C10 at a concrete input: the empty pool and pointer 7
(unknown everywhere, so the recovered block has null pointers). -/
theorem c10_release_unknown_witness :
    ((7 : Nat) ≠ 0 ∧ alist_find MemoryPool.init.allocated_blocks 7 = none) ∧
      (MemoryPool.init.deallocate 7).free_blocks CS_ALLOC_HOST =
        [{ cs_mem_block_null with ttl := 0 }] := by
  refine ⟨⟨by decide, rfl⟩, ?_⟩
  have h := (c10_release_unknown MemoryPool.init 7 (by decide) rfl).1
  simpa using h

/-! ## Claim C8 -/

/-- C8 (amended): `get_block_info` (lookup) consults `allocated_blocks`
first; on a miss it falls back to the Block Allocator's bookkeeping and,
when a block with a non-null host or device pointer is recovered, caches
it in `allocated_blocks` under a key equal to the recovered block's
HOST pointer — so an immediately repeated lookup of `p` is answered from
`allocated_blocks` only when the recovered host pointer equals `p`
(in particular not for device-only blocks, which are cached under the
null key). -/
theorem c8_lookup_fallback (st : MemoryPool) (p : Nat)
    (h1 : alist_find st.allocated_blocks p = none) :
    (st.get_block_info p).1 = st.bft_mem_get_block_info_try p ∧
    (((st.bft_mem_get_block_info_try p).host_ptr ≠ 0 ∨
        (st.bft_mem_get_block_info_try p).device_ptr ≠ 0) →
      (st.get_block_info p).2.allocated_blocks =
          alist_insert st.allocated_blocks
            (st.bft_mem_get_block_info_try p).host_ptr
            (st.bft_mem_get_block_info_try p) ∧
      ((st.bft_mem_get_block_info_try p).host_ptr = p →
        alist_find (st.get_block_info p).2.allocated_blocks p =
          some (st.bft_mem_get_block_info_try p))) := by
  by_cases hnz : (st.bft_mem_get_block_info_try p).host_ptr ≠ 0 ∨
      (st.bft_mem_get_block_info_try p).device_ptr ≠ 0
  · have hg : st.get_block_info p =
        (st.bft_mem_get_block_info_try p,
          { st with
            allocated_blocks :=
              alist_insert st.allocated_blocks
                (st.bft_mem_get_block_info_try p).host_ptr
                (st.bft_mem_get_block_info_try p) }) := by
      rw [MemoryPool.get_block_info, h1]
      exact if_pos hnz
    refine ⟨by rw [hg], fun _ => ⟨by rw [hg], fun hh => ?_⟩⟩
    rw [hg]
    show alist_find
        (alist_insert st.allocated_blocks
          (st.bft_mem_get_block_info_try p).host_ptr
          (st.bft_mem_get_block_info_try p)) p = _
    generalize hB : st.bft_mem_get_block_info_try p = b at hh ⊢
    rw [← hh]
    exact alist_find_insert_self ..
  · have hg : st.get_block_info p = (st.bft_mem_get_block_info_try p, st) := by
      rw [MemoryPool.get_block_info, h1]
      exact if_neg hnz
    exact ⟨by rw [hg], fun hc => absurd hc hnz⟩

/-- Witness for C8 at a concrete input: lookup of pointer 5 in a pool
whose external bookkeeping holds a device-only block under 5. -/
theorem c8_lookup_fallback_witness :
    (alist_find mp_ex_device_st.allocated_blocks 5 = none ∧
      ((mp_ex_device_st.bft_mem_get_block_info_try 5).host_ptr ≠ 0 ∨
        (mp_ex_device_st.bft_mem_get_block_info_try 5).device_ptr ≠ 0)) ∧
    (mp_ex_device_st.get_block_info 5).2.allocated_blocks =
      alist_insert mp_ex_device_st.allocated_blocks
        (mp_ex_device_st.bft_mem_get_block_info_try 5).host_ptr
        (mp_ex_device_st.bft_mem_get_block_info_try 5) := by
  refine ⟨⟨rfl, by decide⟩, ?_⟩
  exact ((c8_lookup_fallback mp_ex_device_st 5 rfl).2 (by decide)).1

/-- Counterexample to C8 as stated: after a fallback lookup of the
device-only pointer 5, the block is cached under the null key, not
under 5, so an immediately repeated `lookup(5)` still misses
`allocated_blocks`. -/
theorem c8_lookup_counterexample :
    alist_find mp_ex_device_st.allocated_blocks 5 = none ∧
    (mp_ex_device_st.get_block_info 5).1.device_ptr = 5 ∧
    (mp_ex_device_st.get_block_info 5).1.host_ptr = 0 ∧
    alist_find (mp_ex_device_st.get_block_info 5).2.allocated_blocks 5 =
      none ∧
    alist_find (mp_ex_device_st.get_block_info 5).2.allocated_blocks 0 =
      some (mp_ex_device_st.get_block_info 5).1 := by
  decide

/-! ## Claim C7 -/

theorem find_match_of_no_size (st : MemoryPool) (size : Nat)
    (mode : cs_alloc_mode_t)
    (hno : ∀ b ∈ st.free_blocks mode, b.size ≠ adjusted_size size) :
    find_match (adjusted_size size) (surv_ttl (st.free_blocks mode)) =
      none := by
  rw [find_match_none_iff]
  intro b hb
  obtain ⟨b0, hb0, he, _⟩ := surv_ttl_mem _ _ hb
  rw [he]
  exact hno b0 hb0

/-- C7: a block returned by a fresh allocation through `allocate`
(no exact-size match in the mode's free-list) satisfies the
mode/pointer invariant: for HOST_DEVICE_SHARED both pointers are
non-null and equal; for DEVICE the host pointer is null and the device
pointer non-null; for every mode strictly below HOST_DEVICE_PINNED
exactly one host allocation is performed and the host pointer is
non-null (with no device pointer attached yet). -/
theorem c7_fresh_block_invariant (st : MemoryPool) (size : Nat)
    (mode : cs_alloc_mode_t) (h0 : 0 < st.next_ptr)
    (hno : ∀ b ∈ st.free_blocks mode, b.size ≠ adjusted_size size) :
    (mode = CS_ALLOC_HOST_DEVICE_SHARED →
      (st.allocate size mode true).1.host_ptr =
          (st.allocate size mode true).1.device_ptr ∧
      (st.allocate size mode true).1.host_ptr ≠ 0) ∧
    (mode = CS_ALLOC_DEVICE →
      (st.allocate size mode true).1.host_ptr = 0 ∧
      (st.allocate size mode true).1.device_ptr ≠ 0) ∧
    (mode.val < CS_ALLOC_HOST_DEVICE_PINNED.val →
      (st.allocate size mode true).1.host_ptr ≠ 0 ∧
      (st.allocate size mode true).1.device_ptr = 0 ∧
      (st.allocate size mode true).2.n_host_allocs = st.n_host_allocs + 1) := by
  have hnomatch := find_match_of_no_size st size mode hno
  have hme : (st.allocate size mode true).1 =
      ((({ (st.scan_ttl (st.free_blocks mode)).1 with
            free_blocks :=
              set_free ((st.scan_ttl (st.free_blocks mode)).1).free_blocks
                mode
                (surv_ttl (st.free_blocks mode)) } :
          MemoryPool).allocate_new_block (adjusted_size size) mode true)).1 := by
    simp only [MemoryPool.allocate, scan_ttl_snd, hnomatch]
  have hst : (st.allocate size mode true).2.n_host_allocs =
      if mode.val < CS_ALLOC_HOST_DEVICE_PINNED.val then st.n_host_allocs + 1
      else st.n_host_allocs := by
    simp only [MemoryPool.allocate, scan_ttl_snd, hnomatch]
    show ((_ : MemoryPool).allocate_new_block _ _ _).2.n_host_allocs = _
    rw [allocate_new_block_n_host]
    show (if _ then (st.scan_ttl (st.free_blocks mode)).1.n_host_allocs + 1
          else (st.scan_ttl (st.free_blocks mode)).1.n_host_allocs) = _
    rw [scan_ttl_n_host_allocs]
  rw [hme, allocate_new_block_me]
  refine ⟨?_, ?_, ?_⟩
  · intro hm
    subst hm
    refine ⟨rfl, ?_⟩
    show ¬ ((st.scan_ttl
        (st.free_blocks CS_ALLOC_HOST_DEVICE_SHARED)).1).next_ptr = 0
    rw [scan_ttl_next_ptr]
    omega
  · intro hm
    subst hm
    refine ⟨rfl, ?_⟩
    show ¬ ((st.scan_ttl (st.free_blocks CS_ALLOC_DEVICE)).1).next_ptr = 0
    rw [scan_ttl_next_ptr]
    omega
  · intro hm
    rw [if_pos hm]
    refine ⟨?_, rfl, ?_⟩
    · show ¬ ((st.scan_ttl (st.free_blocks mode)).1).next_ptr = 0
      rw [scan_ttl_next_ptr]
      omega
    · rw [hst, if_pos hm]

/-- Witness for C7 at a concrete input: a HOST_DEVICE_SHARED acquire on
the empty pool. -/
theorem c7_fresh_block_invariant_witness :
    (0 < MemoryPool.init.next_ptr ∧
      ∀ b ∈ MemoryPool.init.free_blocks CS_ALLOC_HOST_DEVICE_SHARED,
        b.size ≠ adjusted_size 100) ∧
    (MemoryPool.init.allocate 100 CS_ALLOC_HOST_DEVICE_SHARED true).1.host_ptr =
      (MemoryPool.init.allocate 100 CS_ALLOC_HOST_DEVICE_SHARED
        true).1.device_ptr := by
  refine ⟨⟨by decide, by intro b hb; exact absurd hb (by simp [MemoryPool.init])⟩, ?_⟩
  exact ((c7_fresh_block_invariant MemoryPool.init 100 CS_ALLOC_HOST_DEVICE_SHARED
    (by decide)
    (by intro b hb; exact absurd hb (by simp [MemoryPool.init]))).1 rfl).1

/-! ## Claim C9 -/

/-- C9 (amended): `time_to_live` counts eviction-scan cycles since the
block was retired and is reset to 0 when the block is retired
(`deallocate` appends only ttl-0 entries) and 0 on a freshly allocated
block; but a block obtained by REUSE from a free-list is recorded and
returned with the incremented counter (at least 1), not 0: every
`allocate` either performs a new physical allocation and returns a
ttl-0 block, or performs none and returns a block with ttl ≥ 1. -/
theorem c9_ttl_amended (st : MemoryPool) (size : Nat)
    (mode : cs_alloc_mode_t) (hf : Bool) (p : Nat) :
    (((st.allocate size mode hf).2.n_phys_allocs = st.n_phys_allocs + 1 ∧
        (st.allocate size mode hf).1.ttl = 0) ∨
      ((st.allocate size mode hf).2.n_phys_allocs = st.n_phys_allocs ∧
        1 ≤ (st.allocate size mode hf).1.ttl)) ∧
    (∀ m b, b ∈ (st.deallocate p).free_blocks m →
      b ∈ st.free_blocks m ∨ b.ttl = 0) := by
  constructor
  · cases hm : find_match (adjusted_size size)
        (surv_ttl (st.free_blocks mode)) with
    | some pr =>
      right
      obtain ⟨me, rest⟩ := pr
      have h1 : st.allocate size mode hf =
          (me,
            { (st.scan_ttl (st.free_blocks mode)).1 with
              free_blocks :=
                set_free ((st.scan_ttl (st.free_blocks mode)).1).free_blocks
                  mode rest
              allocated_blocks :=
                alist_insert
                  ((st.scan_ttl (st.free_blocks mode)).1).allocated_blocks
                  me.host_ptr me }) := by
        simp only [MemoryPool.allocate, scan_ttl_snd, hm]
      rw [h1]
      refine ⟨scan_ttl_n_phys_allocs st _, ?_⟩
      obtain ⟨pre, post, hl, _, _, _⟩ := find_match_eq_some _ _ _ _ hm
      have hmem : me ∈ surv_ttl (st.free_blocks mode) := by
        rw [hl]
        simp
      obtain ⟨b0, _, he, _⟩ := surv_ttl_mem _ _ hmem
      rw [he]
      exact Nat.succ_le_succ (Nat.zero_le _)
    | none =>
      left
      have h1 : st.allocate size mode hf =
          ((({ (st.scan_ttl (st.free_blocks mode)).1 with
                free_blocks :=
                  set_free
                    ((st.scan_ttl (st.free_blocks mode)).1).free_blocks mode
                    (surv_ttl (st.free_blocks mode)) } :
              MemoryPool).allocate_new_block (adjusted_size size) mode hf).1,
            { ((({ (st.scan_ttl (st.free_blocks mode)).1 with
                    free_blocks :=
                      set_free
                        ((st.scan_ttl (st.free_blocks mode)).1).free_blocks
                        mode
                        (surv_ttl (st.free_blocks mode)) } :
                  MemoryPool).allocate_new_block (adjusted_size size) mode
                    hf)).2 with
              allocated_blocks :=
                alist_insert
                  ((({ (st.scan_ttl (st.free_blocks mode)).1 with
                        free_blocks :=
                          set_free
                            ((st.scan_ttl
                              (st.free_blocks mode)).1).free_blocks mode
                            (surv_ttl (st.free_blocks mode)) } :
                      MemoryPool).allocate_new_block (adjusted_size size)
                        mode hf)).2.allocated_blocks
                  ((({ (st.scan_ttl (st.free_blocks mode)).1 with
                        free_blocks :=
                          set_free
                            ((st.scan_ttl
                              (st.free_blocks mode)).1).free_blocks mode
                            (surv_ttl (st.free_blocks mode)) } :
                      MemoryPool).allocate_new_block (adjusted_size size)
                        mode hf)).1.host_ptr
                  ((({ (st.scan_ttl (st.free_blocks mode)).1 with
                        free_blocks :=
                          set_free
                            ((st.scan_ttl
                              (st.free_blocks mode)).1).free_blocks mode
                            (surv_ttl (st.free_blocks mode)) } :
                      MemoryPool).allocate_new_block (adjusted_size size)
                        mode hf)).1 }) := by
        simp only [MemoryPool.allocate, scan_ttl_snd, hm]
      rw [h1]
      constructor
      · show ((_ : MemoryPool).allocate_new_block _ _ _).2.n_phys_allocs = _
        rw [allocate_new_block_n_phys]
        show (st.scan_ttl (st.free_blocks mode)).1.n_phys_allocs + 1 = _
        rw [scan_ttl_n_phys_allocs]
      · rw [allocate_new_block_me]
        cases mode <;> simp [cs_alloc_mode_t.val]
  · intro m b hb
    by_cases hp0 : p = 0
    · rw [MemoryPool.deallocate, if_pos hp0] at hb
      exact Or.inl hb
    · cases hfind : alist_find st.allocated_blocks p with
      | some me =>
        have hd : st.deallocate p =
            { st with
              allocated_blocks := alist_erase st.allocated_blocks p
              free_blocks := set_free st.free_blocks me.mode
                (st.free_blocks me.mode ++ [{ me with ttl := 0 }]) } := by
          rw [MemoryPool.deallocate, if_neg hp0, hfind]
        rw [hd] at hb
        have hb2 : b ∈ set_free st.free_blocks me.mode
            (st.free_blocks me.mode ++ [{ me with ttl := 0 }]) m := hb
        simp only [set_free] at hb2
        by_cases hmm : m = me.mode
        · rw [if_pos hmm] at hb2
          rcases List.mem_append.mp hb2 with h1 | h2
          · left
            rw [hmm]
            exact h1
          · right
            rw [List.mem_singleton.mp h2]
        · rw [if_neg hmm] at hb2
          exact Or.inl hb2
      | none =>
        have hd : st.deallocate p =
            { st with
              free_blocks := set_free st.free_blocks
                (st.bft_mem_get_block_info_try p).mode
                (st.free_blocks (st.bft_mem_get_block_info_try p).mode ++
                  [{ st.bft_mem_get_block_info_try p with ttl := 0 }]) } := by
          rw [MemoryPool.deallocate, if_neg hp0, hfind]
        rw [hd] at hb
        have hb2 : b ∈ set_free st.free_blocks
            (st.bft_mem_get_block_info_try p).mode
            (st.free_blocks (st.bft_mem_get_block_info_try p).mode ++
              [{ st.bft_mem_get_block_info_try p with ttl := 0 }]) m := hb
        simp only [set_free] at hb2
        by_cases hmm : m = (st.bft_mem_get_block_info_try p).mode
        · rw [if_pos hmm] at hb2
          rcases List.mem_append.mp hb2 with h1 | h2
          · left
            rw [hmm]
            exact h1
          · right
            rw [List.mem_singleton.mp h2]
        · rw [if_neg hmm] at hb2
          exact Or.inl hb2

/-- Witness for C9 at a concrete input: a HOST acquire on the empty
pool and a release of pointer 3. -/
theorem c9_ttl_amended_witness :
    ((MemoryPool.init.allocate 64 CS_ALLOC_HOST true).2.n_phys_allocs =
        MemoryPool.init.n_phys_allocs + 1 ∧
      (MemoryPool.init.allocate 64 CS_ALLOC_HOST true).1.ttl = 0) ∨
    ((MemoryPool.init.allocate 64 CS_ALLOC_HOST true).2.n_phys_allocs =
        MemoryPool.init.n_phys_allocs ∧
      1 ≤ (MemoryPool.init.allocate 64 CS_ALLOC_HOST true).1.ttl) :=
  (c9_ttl_amended MemoryPool.init 64 CS_ALLOC_HOST true 3).1

/-- Counterexample to C9 as stated: after acquire–release–acquire of
the same (size, mode), the checked-out block sits in
`allocated_blocks` with `time_to_live` 1 (the counter is incremented by
the reuse scan and never reset on reactivation), observable through
`get_block_info`. -/
theorem c9_ttl_counterexample :
    (((MemoryPool.init.allocate 64 CS_ALLOC_HOST true).2.deallocate
        1).allocate 64 CS_ALLOC_HOST true).1.ttl = 1 ∧
    (((((MemoryPool.init.allocate 64 CS_ALLOC_HOST true).2.deallocate
        1).allocate 64 CS_ALLOC_HOST true).2.get_block_info 1)).1.ttl = 1 := by
  decide

/-! ## Claim C1 -/

theorem allocate_new_block_size_out (st : MemoryPool) (sz : Nat)
    (mode : cs_alloc_mode_t) (hf : Bool) :
    (st.allocate_new_block sz mode hf).1.size = sz := by
  cases mode <;> rfl

theorem allocate_new_block_mode_out (st : MemoryPool) (sz : Nat)
    (mode : cs_alloc_mode_t) (hf : Bool) :
    (st.allocate_new_block sz mode hf).1.mode = mode := by
  cases mode <;> rfl

theorem allocate_new_block_ttl_out (st : MemoryPool) (sz : Nat)
    (mode : cs_alloc_mode_t) (hf : Bool) :
    (st.allocate_new_block sz mode hf).1.ttl = 0 := by
  cases mode <;> rfl

theorem allocate_new_block_host_ne_device (st : MemoryPool) (sz : Nat)
    (mode : cs_alloc_mode_t) (hf : Bool) (h : mode ≠ CS_ALLOC_DEVICE) :
    (st.allocate_new_block sz mode hf).1.host_ptr = st.next_ptr := by
  cases mode
  case CS_ALLOC_DEVICE => exact absurd rfl h
  all_goals rfl

theorem allocate_new_block_host_cases (st : MemoryPool) (sz : Nat)
    (mode : cs_alloc_mode_t) (hf : Bool) :
    (st.allocate_new_block sz mode hf).1.host_ptr = 0 ∨
    (st.allocate_new_block sz mode hf).1.host_ptr = st.next_ptr := by
  cases mode <;> first | exact Or.inl rfl | exact Or.inr rfl

theorem after_scan_next_ptr (st : MemoryPool) (mode : cs_alloc_mode_t) :
    (st.after_scan mode).next_ptr = st.next_ptr := by
  show ((st.scan_ttl (st.free_blocks mode)).1).next_ptr = st.next_ptr
  exact scan_ttl_next_ptr st _

theorem after_scan_allocated (st : MemoryPool) (mode : cs_alloc_mode_t) :
    (st.after_scan mode).allocated_blocks = st.allocated_blocks := by
  show ((st.scan_ttl (st.free_blocks mode)).1).allocated_blocks =
    st.allocated_blocks
  exact scan_ttl_allocated st _

theorem after_scan_n_phys (st : MemoryPool) (mode : cs_alloc_mode_t) :
    (st.after_scan mode).n_phys_allocs = st.n_phys_allocs := by
  show ((st.scan_ttl (st.free_blocks mode)).1).n_phys_allocs =
    st.n_phys_allocs
  exact scan_ttl_n_phys_allocs st _

theorem after_scan_free_mode (st : MemoryPool) (mode : cs_alloc_mode_t) :
    (st.after_scan mode).free_blocks mode = surv_ttl (st.free_blocks mode) := by
  show set_free ((st.scan_ttl (st.free_blocks mode)).1).free_blocks mode
      (surv_ttl (st.free_blocks mode)) mode = _
  exact set_free_same ..

theorem after_scan_free_other (st : MemoryPool) (mode m' : cs_alloc_mode_t)
    (h : m' ≠ mode) :
    (st.after_scan mode).free_blocks m' = st.free_blocks m' := by
  show set_free ((st.scan_ttl (st.free_blocks mode)).1).free_blocks mode
      (surv_ttl (st.free_blocks mode)) m' = _
  rw [set_free_other _ _ _ _ h]
  exact congrFun (scan_ttl_free_blocks st _) m'

theorem allocate_none_eq (st : MemoryPool) (size : Nat)
    (mode : cs_alloc_mode_t) (hf : Bool)
    (h : find_match (adjusted_size size) (surv_ttl (st.free_blocks mode)) =
      none) :
    st.allocate size mode hf =
      (((st.after_scan mode).allocate_new_block (adjusted_size size) mode
          hf).1,
        { ((st.after_scan mode).allocate_new_block (adjusted_size size) mode
            hf).2 with
          allocated_blocks :=
            alist_insert
              ((st.after_scan mode).allocate_new_block (adjusted_size size)
                mode hf).2.allocated_blocks
              ((st.after_scan mode).allocate_new_block (adjusted_size size)
                mode hf).1.host_ptr
              ((st.after_scan mode).allocate_new_block (adjusted_size size)
                mode hf).1 }) := by
  simp only [MemoryPool.allocate, scan_ttl_snd, h, MemoryPool.after_scan]

theorem allocate_some_eq (st : MemoryPool) (size : Nat)
    (mode : cs_alloc_mode_t) (hf : Bool) (me : cs_mem_block_t)
    (rest : List cs_mem_block_t)
    (h : find_match (adjusted_size size) (surv_ttl (st.free_blocks mode)) =
      some (me, rest)) :
    st.allocate size mode hf =
      (me,
        { (st.scan_ttl (st.free_blocks mode)).1 with
          free_blocks :=
            set_free ((st.scan_ttl (st.free_blocks mode)).1).free_blocks mode
              rest
          allocated_blocks :=
            alist_insert
              ((st.scan_ttl (st.free_blocks mode)).1).allocated_blocks
              me.host_ptr me }) := by
  simp only [MemoryPool.allocate, scan_ttl_snd, h]

theorem find_match_append_last (sz : Nat) (A : List cs_mem_block_t)
    (b1 : cs_mem_block_t) (hA : ∀ b ∈ A, b.size ≠ sz) (hb : b1.size = sz) :
    find_match sz (A ++ [b1]) = some (b1, A) := by
  induction A with
  | nil => simp [find_match, hb]
  | cons a A' ih =>
    rw [List.cons_append, find_match, if_neg (hA a (by simp))]
    rw [ih (fun b hbm => hA b (by simp [hbm]))]

/-- C1 (amended): for every size and every mode other than DEVICE, from
a pool state whose free-list for that mode holds no block of the
requested adjusted size, an acquire followed by a release of the
returned block's host pointer followed by another acquire of the same
size and mode returns a block with the same host and device pointers,
and the second acquire performs no new physical allocation.  (For
DEVICE mode the returned host pointer is null, so the release is a
no-op and the block is never reused — see the counterexample.) -/
theorem c1_pool_reuse_amended (st : MemoryPool) (s : Nat)
    (mode : cs_alloc_mode_t) (hmode : mode ≠ CS_ALLOC_DEVICE)
    (h0 : 0 < st.next_ptr)
    (hno : ∀ b ∈ st.free_blocks mode, b.size ≠ adjusted_size s) :
    ((((st.allocate s mode true).2.deallocate
          (st.allocate s mode true).1.host_ptr).allocate s mode
        true).1.host_ptr = (st.allocate s mode true).1.host_ptr) ∧
    ((((st.allocate s mode true).2.deallocate
          (st.allocate s mode true).1.host_ptr).allocate s mode
        true).1.device_ptr = (st.allocate s mode true).1.device_ptr) ∧
    ((((st.allocate s mode true).2.deallocate
          (st.allocate s mode true).1.host_ptr).allocate s mode
        true).2.n_phys_allocs =
      ((st.allocate s mode true).2.deallocate
          (st.allocate s mode true).1.host_ptr).n_phys_allocs) := by
  have hnomatch := find_match_of_no_size st s mode hno
  have h1 := allocate_none_eq st s mode true hnomatch
  set me1 : cs_mem_block_t :=
    ((st.after_scan mode).allocate_new_block (adjusted_size s) mode true).1
    with hme1
  have hBfst : (st.allocate s mode true).1 = me1 := by rw [h1]
  have hhost : me1.host_ptr = st.next_ptr := by
    rw [hme1, allocate_new_block_host_ne_device _ _ _ _ hmode,
      after_scan_next_ptr]
  have hhost0 : me1.host_ptr ≠ 0 := by omega
  have hsize : me1.size = adjusted_size s := by
    rw [hme1, allocate_new_block_size_out]
  have hmodeB : me1.mode = mode := by
    rw [hme1, allocate_new_block_mode_out]
  have httl : me1.ttl = 0 := by
    rw [hme1, allocate_new_block_ttl_out]
  have httl_eta : { me1 with ttl := 0 } = me1 := by rw [← httl]
  -- the state after the first allocate
  set sigma1 : MemoryPool := (st.allocate s mode true).2 with hsig
  have hsig_alloc : alist_find sigma1.allocated_blocks me1.host_ptr =
      some me1 := by
    rw [hsig, h1]
    show alist_find (alist_insert _ me1.host_ptr me1) me1.host_ptr = some me1
    exact alist_find_insert_self ..
  have hsig_free_mode : sigma1.free_blocks mode =
      surv_ttl (st.free_blocks mode) := by
    rw [hsig, h1]
    show ((st.after_scan mode).allocate_new_block (adjusted_size s) mode
        true).2.free_blocks mode = _
    rw [allocate_new_block_free]
    exact after_scan_free_mode st mode
  -- the state after the release of me1.host_ptr
  have h2 : sigma1.deallocate me1.host_ptr =
      { sigma1 with
        allocated_blocks := alist_erase sigma1.allocated_blocks me1.host_ptr
        free_blocks := set_free sigma1.free_blocks me1.mode
          (sigma1.free_blocks me1.mode ++ [{ me1 with ttl := 0 }]) } := by
    rw [MemoryPool.deallocate, if_neg hhost0, hsig_alloc]
  have h2free : (sigma1.deallocate me1.host_ptr).free_blocks mode =
      surv_ttl (st.free_blocks mode) ++ [me1] := by
    rw [h2]
    show set_free sigma1.free_blocks me1.mode
      (sigma1.free_blocks me1.mode ++ [{ me1 with ttl := 0 }]) mode = _
    rw [hmodeB, set_free_same, hsig_free_mode]
    have hlit : ({ me1 with mode := mode, ttl := 0 } : cs_mem_block_t) =
        me1 := by
      rw [← hmodeB, ← httl]
    rw [hlit]
  -- the second allocate: exact-size reuse of me1
  have hsizes2 : ∀ b ∈ surv_ttl (surv_ttl (st.free_blocks mode)),
      b.size ≠ adjusted_size s := by
    intro b hb
    obtain ⟨b1, hb1, he1, _⟩ := surv_ttl_mem _ _ hb
    obtain ⟨b0, hb0, he0, _⟩ := surv_ttl_mem _ _ hb1
    rw [he1, he0]
    exact hno b0 hb0
  have hscan2 : surv_ttl ((sigma1.deallocate me1.host_ptr).free_blocks mode) =
      surv_ttl (surv_ttl (st.free_blocks mode)) ++ [{ me1 with ttl := 1 }] := by
    rw [h2free, surv_ttl_append]
    have : surv_ttl [me1] = [{ me1 with ttl := 1 }] := by
      rw [surv_ttl, httl, surv_ttl]
      rw [if_neg (by rw [TTL_MAX]; omega)]
    rw [this]
  have hfind2 : find_match (adjusted_size s)
      (surv_ttl ((sigma1.deallocate me1.host_ptr).free_blocks mode)) =
      some ({ me1 with ttl := 1 }, surv_ttl (surv_ttl (st.free_blocks mode))) := by
    rw [hscan2]
    exact find_match_append_last _ _ _ hsizes2 hsize
  have h3 := allocate_some_eq (sigma1.deallocate me1.host_ptr) s mode true
    { me1 with ttl := 1 } (surv_ttl (surv_ttl (st.free_blocks mode))) hfind2
  refine ⟨?_, ?_, ?_⟩
  · rw [hBfst, h3]
  · rw [hBfst, h3]
  · rw [hBfst, h3]
    show ((sigma1.deallocate me1.host_ptr).scan_ttl _).1.n_phys_allocs = _
    exact scan_ttl_n_phys_allocs _ _

/-- Witness for C1 at a concrete input: size 10, HOST mode, empty pool. -/
theorem c1_pool_reuse_amended_witness :
    (CS_ALLOC_HOST ≠ CS_ALLOC_DEVICE ∧ 0 < MemoryPool.init.next_ptr ∧
      ∀ b ∈ MemoryPool.init.free_blocks CS_ALLOC_HOST,
        b.size ≠ adjusted_size 10) ∧
    (((MemoryPool.init.allocate 10 CS_ALLOC_HOST true).2.deallocate
          (MemoryPool.init.allocate 10 CS_ALLOC_HOST true).1.host_ptr).allocate
        10 CS_ALLOC_HOST true).1.host_ptr =
      (MemoryPool.init.allocate 10 CS_ALLOC_HOST true).1.host_ptr := by
  refine ⟨⟨by decide, by decide,
    by intro b hb; exact absurd hb (by simp [MemoryPool.init])⟩, ?_⟩
  exact (c1_pool_reuse_amended MemoryPool.init 10 CS_ALLOC_HOST (by decide)
    (by decide)
    (by intro b hb; exact absurd hb (by simp [MemoryPool.init]))).1

/-- Counterexample to C1 as stated: for DEVICE mode the acquired block's
host pointer is null, so `release(B.host_pointer)` is a no-op, and the
immediately following acquire of the same size and mode returns a block
with a different device pointer after one more physical allocation. -/
theorem c1_pool_reuse_counterexample :
    (((MemoryPool.init.allocate 64 CS_ALLOC_DEVICE true).2.deallocate
          (MemoryPool.init.allocate 64 CS_ALLOC_DEVICE
            true).1.host_ptr).allocate 64 CS_ALLOC_DEVICE
        true).1.device_ptr ≠
      (MemoryPool.init.allocate 64 CS_ALLOC_DEVICE true).1.device_ptr ∧
    (((MemoryPool.init.allocate 64 CS_ALLOC_DEVICE true).2.deallocate
          (MemoryPool.init.allocate 64 CS_ALLOC_DEVICE
            true).1.host_ptr).allocate 64 CS_ALLOC_DEVICE
        true).2.n_phys_allocs =
      ((MemoryPool.init.allocate 64 CS_ALLOC_DEVICE true).2.deallocate
          (MemoryPool.init.allocate 64 CS_ALLOC_DEVICE
            true).1.host_ptr).n_phys_allocs + 1 := by
  decide

/-! ## Claim C2 -/

theorem allocate_new_block_n_frees (st : MemoryPool) (sz : Nat)
    (mode : cs_alloc_mode_t) (hf : Bool) :
    (st.allocate_new_block sz mode hf).2.n_phys_frees = st.n_phys_frees := by
  cases hf <;> rfl

theorem after_scan_ebk (st : MemoryPool) (mode : cs_alloc_mode_t) :
    (st.after_scan mode).extern_blocks =
      ((st.scan_ttl (st.free_blocks mode)).1).extern_blocks := rfl

theorem after_scan_n_frees (st : MemoryPool) (mode : cs_alloc_mode_t) :
    (st.after_scan mode).n_phys_frees =
      ((st.scan_ttl (st.free_blocks mode)).1).n_phys_frees := rfl

theorem scan_ttl_single_evict (σ : MemoryPool) (b : cs_mem_block_t)
    (h : TTL_MAX ≤ b.ttl + 1) :
    σ.scan_ttl [b] = (σ.free_block { b with ttl := b.ttl + 1 } true, []) := by
  rw [MemoryPool.scan_ttl, if_pos h]
  rfl

/-- One aging step of the C2 eviction run: an acquire of the block's
mode with a different adjusted size increments the retired block's ttl
and changes nothing else relevant. -/
theorem c2_step_live (st0 : MemoryPool) (B : cs_mem_block_t) (k : Nat)
    (σ : MemoryPool) (s : Nat) (hpos : 0 < B.host_ptr)
    (hk : k + 1 < TTL_MAX) (hs : adjusted_size s ≠ B.size)
    (h : c2_inv st0 B k σ) :
    c2_inv st0 B (k + 1) ((σ.allocate s B.mode true).2) := by
  obtain ⟨hf, ha, he, hn, hlt⟩ := h
  have hsurv : surv_ttl (σ.free_blocks B.mode) = [{ B with ttl := k + 1 }] := by
    rw [hf, surv_ttl, if_neg (by show ¬ TTL_MAX ≤ k + 1; omega), surv_ttl]
  have hnomatch : find_match (adjusted_size s)
      (surv_ttl (σ.free_blocks B.mode)) = none := by
    rw [hsurv, find_match_none_iff]
    intro b hb
    rw [List.mem_singleton.mp hb]
    show B.size ≠ adjusted_size s
    exact Ne.symm hs
  have hscan : (σ.scan_ttl (σ.free_blocks B.mode)).1 = σ := by
    apply scan_ttl_no_evict
    rw [hf]
    intro b hb
    rw [List.mem_singleton.mp hb]
    show k + 1 < TTL_MAX
    exact hk
  have h1 := allocate_none_eq σ s B.mode true hnomatch
  have hkey : ((σ.after_scan B.mode).allocate_new_block (adjusted_size s)
      B.mode true).1.host_ptr ≠ B.host_ptr := by
    rcases allocate_new_block_host_cases (σ.after_scan B.mode)
        (adjusted_size s) B.mode true with h0 | hn'
    · rw [h0]; omega
    · rw [hn', after_scan_next_ptr]; omega
  refine ⟨?_, ?_, ?_, ?_, ?_⟩
  · rw [h1]
    show ((σ.after_scan B.mode).allocate_new_block (adjusted_size s) B.mode
        true).2.free_blocks B.mode = _
    rw [allocate_new_block_free, after_scan_free_mode, hsurv]
  · rw [h1]
    show alist_find (alist_insert _ _ _) B.host_ptr = none
    rw [alist_find_insert_ne _ _ _ _ (Ne.symm hkey)]
    rw [allocate_new_block_allocated, after_scan_allocated]
    exact ha
  · rw [h1]
    show alist_find ((σ.after_scan B.mode).allocate_new_block
        (adjusted_size s) B.mode true).2.extern_blocks B.host_ptr = _
    rw [allocate_new_block_ebk]
    rw [if_pos rfl]
    rw [alist_find_insert_ne _ _ _ _ (Ne.symm hkey)]
    rw [after_scan_ebk, hscan]
    exact he
  · rw [h1]
    show ((σ.after_scan B.mode).allocate_new_block (adjusted_size s) B.mode
        true).2.n_phys_frees = _
    rw [allocate_new_block_n_frees, after_scan_n_frees, hscan]
    exact hn
  · rw [h1]
    show B.host_ptr < ((σ.after_scan B.mode).allocate_new_block
        (adjusted_size s) B.mode true).2.next_ptr
    rw [allocate_new_block_next_ptr, after_scan_next_ptr]
    omega

/-- The 500th aging step of the C2 eviction run: the scan evicts the
block (physical release and removal from the bookkeeping). -/
theorem c2_step_evict (st0 : MemoryPool) (B : cs_mem_block_t)
    (σ : MemoryPool) (s : Nat) (hpos : 0 < B.host_ptr)
    (h : c2_inv st0 B (TTL_MAX - 1) σ) :
    c2_done st0 B ((σ.allocate s B.mode true).2) := by
  obtain ⟨hf, ha, he, hn, hlt⟩ := h
  have hsurv : surv_ttl (σ.free_blocks B.mode) = [] := by
    rw [hf, surv_ttl,
      if_pos (by decide : TTL_MAX ≤ (TTL_MAX - 1) + 1), surv_ttl]
  have hnomatch : find_match (adjusted_size s)
      (surv_ttl (σ.free_blocks B.mode)) = none := by
    rw [hsurv]
    rfl
  have hscan : (σ.scan_ttl (σ.free_blocks B.mode)).1 =
      σ.free_block { B with ttl := (TTL_MAX - 1) + 1 } true := by
    rw [hf]
    rw [scan_ttl_single_evict σ _ (by decide : TTL_MAX ≤ (TTL_MAX - 1) + 1)]
  have h1 := allocate_none_eq σ s B.mode true hnomatch
  have hkey : ((σ.after_scan B.mode).allocate_new_block (adjusted_size s)
      B.mode true).1.host_ptr ≠ B.host_ptr := by
    rcases allocate_new_block_host_cases (σ.after_scan B.mode)
        (adjusted_size s) B.mode true with h0 | hn'
    · rw [h0]; omega
    · rw [hn', after_scan_next_ptr]
      omega
  refine ⟨?_, ?_, ?_, ?_, ?_⟩
  · rw [h1]
    show ((σ.after_scan B.mode).allocate_new_block (adjusted_size s) B.mode
        true).2.free_blocks B.mode = _
    rw [allocate_new_block_free, after_scan_free_mode, hsurv]
  · rw [h1]
    show alist_find (alist_insert _ _ _) B.host_ptr = none
    rw [alist_find_insert_ne _ _ _ _ (Ne.symm hkey)]
    rw [allocate_new_block_allocated, after_scan_allocated]
    exact ha
  · rw [h1]
    show alist_find ((σ.after_scan B.mode).allocate_new_block
        (adjusted_size s) B.mode true).2.extern_blocks B.host_ptr = _
    rw [allocate_new_block_ebk, if_pos rfl]
    rw [alist_find_insert_ne _ _ _ _ (Ne.symm hkey)]
    rw [after_scan_ebk, hscan]
    show alist_find (alist_erase σ.extern_blocks _) B.host_ptr = none
    exact alist_find_erase_self ..
  · rw [h1]
    show ((σ.after_scan B.mode).allocate_new_block (adjusted_size s) B.mode
        true).2.n_phys_frees = _
    rw [allocate_new_block_n_frees, after_scan_n_frees, hscan]
    show σ.n_phys_frees + 1 = _
    omega
  · rw [h1]
    show B.host_ptr < ((σ.after_scan B.mode).allocate_new_block
        (adjusted_size s) B.mode true).2.next_ptr
    rw [allocate_new_block_next_ptr, after_scan_next_ptr]
    omega

/-- After eviction further acquires of the block's mode change nothing
relevant: the free-list stays empty and the block stays unreported. -/
theorem c2_step_done (st0 : MemoryPool) (B : cs_mem_block_t)
    (σ : MemoryPool) (s : Nat) (hpos : 0 < B.host_ptr)
    (h : c2_done st0 B σ) : c2_done st0 B ((σ.allocate s B.mode true).2) := by
  obtain ⟨hf, ha, he, hn, hlt⟩ := h
  have hsurv : surv_ttl (σ.free_blocks B.mode) = [] := by rw [hf]; rfl
  have hnomatch : find_match (adjusted_size s)
      (surv_ttl (σ.free_blocks B.mode)) = none := by rw [hsurv]; rfl
  have hscan : (σ.scan_ttl (σ.free_blocks B.mode)).1 = σ := by
    rw [hf]
    rfl
  have h1 := allocate_none_eq σ s B.mode true hnomatch
  have hkey : ((σ.after_scan B.mode).allocate_new_block (adjusted_size s)
      B.mode true).1.host_ptr ≠ B.host_ptr := by
    rcases allocate_new_block_host_cases (σ.after_scan B.mode)
        (adjusted_size s) B.mode true with h0 | hn'
    · rw [h0]; omega
    · rw [hn', after_scan_next_ptr]; omega
  refine ⟨?_, ?_, ?_, ?_, ?_⟩
  · rw [h1]
    show ((σ.after_scan B.mode).allocate_new_block (adjusted_size s) B.mode
        true).2.free_blocks B.mode = _
    rw [allocate_new_block_free, after_scan_free_mode, hsurv]
  · rw [h1]
    show alist_find (alist_insert _ _ _) B.host_ptr = none
    rw [alist_find_insert_ne _ _ _ _ (Ne.symm hkey)]
    rw [allocate_new_block_allocated, after_scan_allocated]
    exact ha
  · rw [h1]
    show alist_find ((σ.after_scan B.mode).allocate_new_block
        (adjusted_size s) B.mode true).2.extern_blocks B.host_ptr = _
    rw [allocate_new_block_ebk, if_pos rfl]
    rw [alist_find_insert_ne _ _ _ _ (Ne.symm hkey)]
    rw [after_scan_ebk, hscan]
    exact he
  · rw [h1]
    show ((σ.after_scan B.mode).allocate_new_block (adjusted_size s) B.mode
        true).2.n_phys_frees = _
    rw [allocate_new_block_n_frees, after_scan_n_frees, hscan]
    exact hn
  · rw [h1]
    show B.host_ptr < ((σ.after_scan B.mode).allocate_new_block
        (adjusted_size s) B.mode true).2.next_ptr
    rw [allocate_new_block_next_ptr, after_scan_next_ptr]
    omega

theorem c2_fold_done (st0 : MemoryPool) (B : cs_mem_block_t)
    (hpos : 0 < B.host_ptr) :
    ∀ (L : List Nat) (σ : MemoryPool), c2_done st0 B σ →
      c2_done st0 B
        (L.foldl (fun σ' s => (σ'.allocate s B.mode true).2) σ) := by
  intro L
  induction L with
  | nil => intro σ h; exact h
  | cons s L' ih =>
    intro σ h
    rw [List.foldl_cons]
    exact ih _ (c2_step_done st0 B σ s hpos h)

theorem c2_fold (st0 : MemoryPool) (B : cs_mem_block_t)
    (hpos : 0 < B.host_ptr) :
    ∀ (L : List Nat) (k : Nat) (σ : MemoryPool), k < TTL_MAX →
      c2_inv st0 B k σ → TTL_MAX ≤ k + L.length →
      (∀ s ∈ L, adjusted_size s ≠ B.size) →
      c2_done st0 B
        (L.foldl (fun σ' s => (σ'.allocate s B.mode true).2) σ) := by
  intro L
  induction L with
  | nil =>
    intro k σ hk h hlen _
    simp only [List.length_nil, Nat.add_zero] at hlen
    exact absurd hlen (by omega)
  | cons s L' ih =>
    intro k σ hk h hlen hsz
    rw [List.foldl_cons]
    by_cases hk2 : k + 1 < TTL_MAX
    · refine ih (k + 1) _ hk2
        (c2_step_live st0 B k σ s hpos hk2 (hsz s (by simp)) h) ?_
        (fun s' hs' => hsz s' (by simp [hs']))
      simp only [List.length_cons] at hlen
      omega
    · have hk3 : k = TTL_MAX - 1 := by rw [TTL_MAX] at *; omega
      have hd := c2_step_evict st0 B σ s hpos (hk3 ▸ h)
      exact c2_fold_done st0 B hpos L' _ hd

/-- C2 (amended): a retired block ages only with acquire calls of ITS
OWN mode.  If block `B` is retired (sole entry of its mode's
free-list, `ttl = 0`) and at least `TTL_MAX = 500` subsequent acquires
of `B`'s mode occur, none of them matching `B`'s size, then `B` is
physically released via the Block Allocator, removed from the
free-list, and a subsequent lookup of `B`'s pointer reports the
null block (not found).  Acquires of other modes do not age `B`
(see the counterexample for the claim as stated). -/
theorem c2_eviction_amended (st : MemoryPool) (B : cs_mem_block_t)
    (L : List Nat) (hfree : st.free_blocks B.mode = [B]) (httl : B.ttl = 0)
    (hpos : 0 < B.host_ptr) (hlt : B.host_ptr < st.next_ptr)
    (halloc : alist_find st.allocated_blocks B.host_ptr = none)
    (hlen : TTL_MAX ≤ L.length)
    (hsizes : ∀ s ∈ L, adjusted_size s ≠ B.size) :
    (L.foldl (fun σ s => (σ.allocate s B.mode true).2) st).free_blocks
        B.mode = [] ∧
    alist_find (L.foldl (fun σ s => (σ.allocate s B.mode true).2)
        st).allocated_blocks B.host_ptr = none ∧
    ((L.foldl (fun σ s => (σ.allocate s B.mode true).2)
        st).get_block_info B.host_ptr).1 = cs_mem_block_null ∧
    (L.foldl (fun σ s => (σ.allocate s B.mode true).2) st).n_phys_frees =
      st.n_phys_frees + 1 := by
  have hinv0 : c2_inv st B 0 st := by
    refine ⟨?_, halloc, rfl, rfl, hlt⟩
    rw [hfree]
    have : ({ B with ttl := 0 } : cs_mem_block_t) = B := by rw [← httl]
    rw [this]
  have hdone := c2_fold st B hpos L 0 st (by rw [TTL_MAX]; omega) hinv0
    (by simpa using hlen) hsizes
  obtain ⟨hf, ha, he, hn, _⟩ := hdone
  refine ⟨hf, ha, ?_, hn⟩
  rw [MemoryPool.get_block_info, ha]
  have hb : (L.foldl (fun σ s => (σ.allocate s B.mode true).2)
      st).bft_mem_get_block_info_try B.host_ptr = cs_mem_block_null := by
    rw [MemoryPool.bft_mem_get_block_info_try, he]
  rw [hb, if_neg (by decide)]

/-- Witness for C2 at a concrete input: the HOST block of the first
acquire on a fresh pool, retired, then 500 HOST acquires of a
different size. -/
theorem c2_eviction_amended_witness :
    (((MemoryPool.init.allocate 64 CS_ALLOC_HOST true).2.deallocate
          1).free_blocks c2cx_B.mode = [c2cx_B] ∧
      c2cx_B.ttl = 0 ∧ 0 < c2cx_B.host_ptr ∧
      c2cx_B.host_ptr <
        ((MemoryPool.init.allocate 64 CS_ALLOC_HOST true).2.deallocate
          1).next_ptr ∧
      alist_find ((MemoryPool.init.allocate 64 CS_ALLOC_HOST
          true).2.deallocate 1).allocated_blocks c2cx_B.host_ptr = none ∧
      TTL_MAX ≤ (List.replicate 500 (128 : Nat)).length ∧
      ∀ s ∈ List.replicate 500 (128 : Nat),
        adjusted_size s ≠ c2cx_B.size) ∧
    ((List.replicate 500 (128 : Nat)).foldl
        (fun σ s => (σ.allocate s c2cx_B.mode true).2)
        ((MemoryPool.init.allocate 64 CS_ALLOC_HOST true).2.deallocate
          1)).free_blocks c2cx_B.mode = [] := by
  have hsz : ∀ s ∈ List.replicate 500 (128 : Nat),
      adjusted_size s ≠ c2cx_B.size := by
    intro s hs
    rw [List.eq_of_mem_replicate hs]
    decide
  refine ⟨⟨by decide, by decide, by decide, by decide, by decide,
    by rw [List.length_replicate]; decide, hsz⟩, ?_⟩
  exact (c2_eviction_amended
    ((MemoryPool.init.allocate 64 CS_ALLOC_HOST true).2.deallocate 1)
    c2cx_B (List.replicate 500 128) (by decide) (by decide) (by decide)
    (by decide) (by decide) (by rw [List.length_replicate]; decide) hsz).1

/-- One DEVICE-mode acquire neither touches the HOST free-list nor the
bookkeeping entries for pointer 1: the eviction scan of `allocate` is
per-mode. -/
theorem c2cx_step (σ : MemoryPool) (s : Nat) (h : c2cx_inv σ) :
    c2cx_inv ((σ.allocate s CS_ALLOC_DEVICE true).2) := by
  obtain ⟨hH, hD, ha, he, hn⟩ := h
  have hsurv : surv_ttl (σ.free_blocks CS_ALLOC_DEVICE) = [] := by
    rw [hD]
    rfl
  have hnomatch : find_match (adjusted_size s)
      (surv_ttl (σ.free_blocks CS_ALLOC_DEVICE)) = none := by
    rw [hsurv]
    rfl
  have hscan : (σ.scan_ttl (σ.free_blocks CS_ALLOC_DEVICE)).1 = σ := by
    rw [hD]
    rfl
  have h1 := allocate_none_eq σ s CS_ALLOC_DEVICE true hnomatch
  have hkey : ((σ.after_scan CS_ALLOC_DEVICE).allocate_new_block
      (adjusted_size s) CS_ALLOC_DEVICE true).1.host_ptr = 0 := rfl
  refine ⟨?_, ?_, ?_, ?_, ?_⟩
  · rw [h1]
    show ((σ.after_scan CS_ALLOC_DEVICE).allocate_new_block (adjusted_size s)
        CS_ALLOC_DEVICE true).2.free_blocks CS_ALLOC_HOST = _
    rw [allocate_new_block_free,
      after_scan_free_other σ CS_ALLOC_DEVICE CS_ALLOC_HOST (by decide)]
    exact hH
  · rw [h1]
    show ((σ.after_scan CS_ALLOC_DEVICE).allocate_new_block (adjusted_size s)
        CS_ALLOC_DEVICE true).2.free_blocks CS_ALLOC_DEVICE = _
    rw [allocate_new_block_free, after_scan_free_mode, hsurv]
  · rw [h1]
    show alist_find (alist_insert _ _ _) 1 = none
    rw [hkey, alist_find_insert_ne _ _ _ _ (by decide)]
    rw [allocate_new_block_allocated, after_scan_allocated]
    exact ha
  · rw [h1]
    show alist_find ((σ.after_scan CS_ALLOC_DEVICE).allocate_new_block
        (adjusted_size s) CS_ALLOC_DEVICE true).2.extern_blocks 1 = _
    rw [allocate_new_block_ebk, if_pos rfl, hkey,
      alist_find_insert_ne _ _ _ _ (by decide)]
    rw [after_scan_ebk, hscan]
    exact he
  · rw [h1]
    show ((σ.after_scan CS_ALLOC_DEVICE).allocate_new_block (adjusted_size s)
        CS_ALLOC_DEVICE true).2.n_phys_frees = _
    rw [allocate_new_block_n_frees, after_scan_n_frees, hscan]
    exact hn

theorem c2cx_fold (L : List Nat) :
    ∀ σ : MemoryPool, c2cx_inv σ →
      c2cx_inv (L.foldl (fun σ' s => (σ'.allocate s CS_ALLOC_DEVICE true).2)
        σ) := by
  induction L with
  | nil => intro σ h; exact h
  | cons s L' ih =>
    intro σ h
    rw [List.foldl_cons]
    exact ih _ (c2cx_step σ s h)

/-- Counterexample to C2 as stated: the retired HOST block `c2cx_B` is
left unmatched for 500 subsequent acquire calls of DEVICE mode, yet it
is NOT physically released (no free event), it is still in the HOST
free-list with ttl 0, and lookup of its pointer still reports it —
the eviction scan only ages blocks of the mode being acquired. -/
theorem c2_eviction_counterexample :
    c2cx_inv ((MemoryPool.init.allocate 64 CS_ALLOC_HOST true).2.deallocate
      1) ∧
    ((List.replicate 500 (64 : Nat)).foldl
        (fun σ s => (σ.allocate s CS_ALLOC_DEVICE true).2)
        ((MemoryPool.init.allocate 64 CS_ALLOC_HOST
          true).2.deallocate 1)).free_blocks CS_ALLOC_HOST = [c2cx_B] ∧
    (((List.replicate 500 (64 : Nat)).foldl
        (fun σ s => (σ.allocate s CS_ALLOC_DEVICE true).2)
        ((MemoryPool.init.allocate 64 CS_ALLOC_HOST
          true).2.deallocate 1)).get_block_info 1).1 = c2cx_B ∧
    ((List.replicate 500 (64 : Nat)).foldl
        (fun σ s => (σ.allocate s CS_ALLOC_DEVICE true).2)
        ((MemoryPool.init.allocate 64 CS_ALLOC_HOST
          true).2.deallocate 1)).n_phys_frees = 0 := by
  have h0 : c2cx_inv ((MemoryPool.init.allocate 64 CS_ALLOC_HOST
      true).2.deallocate 1) :=
    ⟨by decide, by decide, by decide, by decide, by decide⟩
  have hF := c2cx_fold (List.replicate 500 64) _ h0
  obtain ⟨hH, hD, ha, he, hn⟩ := hF
  refine ⟨h0, hH, ?_, hn⟩
  rw [MemoryPool.get_block_info, ha]
  have hb : ((List.replicate 500 (64 : Nat)).foldl
      (fun σ s => (σ.allocate s CS_ALLOC_DEVICE true).2)
      ((MemoryPool.init.allocate 64 CS_ALLOC_HOST
        true).2.deallocate 1)).bft_mem_get_block_info_try 1 = c2cx_B := by
    rw [MemoryPool.bft_mem_get_block_info_try, he]
  rw [hb, if_pos (Or.inl (by decide))]

/-! ## Claim C3 -/

theorem alist_find_mem {α : Type} (l : List (Nat × α)) (k : Nat) (v : α)
    (h : alist_find l k = some v) : (k, v) ∈ l := by
  induction l with
  | nil => exact absurd h (by simp [alist_find])
  | cons kv rest ih =>
    rw [alist_find] at h
    by_cases hk : kv.1 = k
    · rw [if_pos hk] at h
      simp only [List.mem_cons]
      left
      have hv := Option.some.inj h
      rw [← hk, ← hv]
    · rw [if_neg hk] at h
      exact List.mem_cons_of_mem _ (ih h)

theorem alist_mem_erase {α : Type} (l : List (Nat × α)) (k : Nat)
    (kb : Nat × α) (h : kb ∈ alist_erase l k) : kb ∈ l ∧ kb.1 ≠ k := by
  induction l with
  | nil => exact absurd h (by simp [alist_erase])
  | cons kv rest ih =>
    rw [alist_erase] at h
    by_cases hk : kv.1 = k
    · rw [if_pos hk] at h
      obtain ⟨h1, h2⟩ := ih h
      exact ⟨List.mem_cons_of_mem _ h1, h2⟩
    · rw [if_neg hk] at h
      rcases List.mem_cons.mp h with he | hm
      · exact ⟨by simp [he], by rw [he]; exact hk⟩
      · obtain ⟨h1, h2⟩ := ih hm
        exact ⟨List.mem_cons_of_mem _ h1, h2⟩

theorem alist_mem_insert {α : Type} (l : List (Nat × α)) (k : Nat) (v : α)
    (kb : Nat × α) (h : kb ∈ alist_insert l k v) :
    kb = (k, v) ∨ (kb ∈ l ∧ kb.1 ≠ k) := by
  rw [alist_insert] at h
  rcases List.mem_cons.mp h with he | hm
  · exact Or.inl he
  · exact Or.inr (alist_mem_erase _ _ _ hm)

theorem hostsOf_append (l1 l2 : List cs_mem_block_t) :
    hostsOf (l1 ++ l2) = hostsOf l1 ++ hostsOf l2 := by
  simp [hostsOf]

theorem hostsOf_surv_sublist (l : List cs_mem_block_t) :
    List.Sublist (hostsOf (surv_ttl l)) (hostsOf l) := by
  induction l with
  | nil => simp [surv_ttl, hostsOf]
  | cons b rest ih =>
    rw [surv_ttl]
    by_cases hc : TTL_MAX ≤ b.ttl + 1
    · rw [if_pos hc]
      show List.Sublist (hostsOf (surv_ttl rest)) (hostsOf (b :: rest))
      simp only [hostsOf, List.map_cons]
      exact List.Sublist.cons _ ih
    · rw [if_neg hc]
      show List.Sublist
        (hostsOf ({ b with ttl := b.ttl + 1 } :: surv_ttl rest))
        (hostsOf (b :: rest))
      simp only [hostsOf, List.map_cons]
      exact List.Sublist.cons₂ _ ih

theorem freeHosts_congr (st1 st2 : MemoryPool)
    (h : st1.free_blocks = st2.free_blocks) :
    freeHosts st1 = freeHosts st2 := by
  rw [freeHosts, freeHosts, h]

theorem freeHosts_count (st : MemoryPool) (m : cs_alloc_mode_t)
    (l : List cs_mem_block_t) (a : Nat) :
    List.count a (freeHosts (with_free st (set_free st.free_blocks m l))) +
      List.count a (hostsOf (st.free_blocks m)) =
    List.count a (freeHosts st) + List.count a (hostsOf l) := by
  cases m <;> simp [freeHosts, with_free, set_free, List.count_append] <;>
    omega

theorem freeHosts_seg_count_le (st : MemoryPool) (m : cs_alloc_mode_t)
    (a : Nat) :
    List.count a (hostsOf (st.free_blocks m)) ≤
      List.count a (freeHosts st) := by
  have h := freeHosts_count st m [] a
  have h0 : List.count a (hostsOf ([] : List cs_mem_block_t)) = 0 := rfl
  omega

theorem after_scan_free_fun (st : MemoryPool) (mode : cs_alloc_mode_t) :
    (st.after_scan mode).free_blocks =
      set_free st.free_blocks mode (surv_ttl (st.free_blocks mode)) := by
  show set_free ((st.scan_ttl (st.free_blocks mode)).1).free_blocks mode
      (surv_ttl (st.free_blocks mode)) = _
  rw [scan_ttl_free_blocks]

/-- C3 (amended): the pool's well-formedness — in particular the
disjointness of `allocated_blocks` keys and the free-lists' host
pointers — is preserved by `allocate` (any size/mode) and by
`deallocate` of a null or currently live pointer.  It is NOT an
invariant of all reachable states: `get_block_info` of a pointer whose
block sits in a free-list re-caches the block into `allocated_blocks`
while it stays retired (see the counterexample). -/
theorem c3_disjointness_amended (st : MemoryPool) (s : Nat)
    (mode : cs_alloc_mode_t) (hf : Bool) (p : Nat) (hwf : pool_wf st) :
    pool_wf (st.allocate s mode hf).2 ∧
    ((p = 0 ∨ alist_find st.allocated_blocks p ≠ none) →
      pool_wf (st.deallocate p)) := by
  obtain ⟨hw1, hw2, hw3, hw4, hw5⟩ := hwf
  constructor
  · cases hm : find_match (adjusted_size s) (surv_ttl (st.free_blocks mode))
      with
    | none =>
      have h1 := allocate_none_eq st s mode hf hm
      have hfree' : (st.allocate s mode hf).2.free_blocks =
          set_free st.free_blocks mode (surv_ttl (st.free_blocks mode)) := by
        rw [h1]
        show ((st.after_scan mode).allocate_new_block (adjusted_size s) mode
            hf).2.free_blocks = _
        rw [allocate_new_block_free, after_scan_free_fun]
      have halloc' : (st.allocate s mode hf).2.allocated_blocks =
          alist_insert st.allocated_blocks
            ((st.after_scan mode).allocate_new_block (adjusted_size s) mode
              hf).1.host_ptr
            ((st.after_scan mode).allocate_new_block (adjusted_size s) mode
              hf).1 := by
        rw [h1]
        show alist_insert ((st.after_scan mode).allocate_new_block
            (adjusted_size s) mode hf).2.allocated_blocks _ _ = _
        rw [allocate_new_block_allocated, after_scan_allocated]
      have hnext' : (st.allocate s mode hf).2.next_ptr = st.next_ptr + 1 := by
        rw [h1]
        show ((st.after_scan mode).allocate_new_block (adjusted_size s) mode
            hf).2.next_ptr = _
        rw [allocate_new_block_next_ptr, after_scan_next_ptr]
      have hfh : freeHosts (st.allocate s mode hf).2 =
          freeHosts (with_free st
            (set_free st.free_blocks mode
              (surv_ttl (st.free_blocks mode)))) := by
        apply freeHosts_congr
        rw [hfree']
        rfl
      have hcnt : ∀ a, List.count a (freeHosts (st.allocate s mode hf).2) ≤
          List.count a (freeHosts st) := by
        intro a
        rw [hfh]
        have he := freeHosts_count st mode (surv_ttl (st.free_blocks mode)) a
        have hle := (hostsOf_surv_sublist (st.free_blocks mode)).count_le a
        omega
      have hfh_mem : ∀ a, a ∈ freeHosts (st.allocate s mode hf).2 →
          a ∈ freeHosts st := by
        intro a ha'
        have h2 := hcnt a
        have h3 := List.count_pos_iff.mpr ha'
        exact List.count_pos_iff.mp (by omega)
      have hkey : ((st.after_scan mode).allocate_new_block (adjusted_size s)
          mode hf).1.host_ptr = 0 ∨
          ((st.after_scan mode).allocate_new_block (adjusted_size s) mode
            hf).1.host_ptr = st.next_ptr := by
        rcases allocate_new_block_host_cases (st.after_scan mode)
            (adjusted_size s) mode hf with h0 | hn
        · exact Or.inl h0
        · right
          rw [hn, after_scan_next_ptr]
      refine ⟨?_, ?_, ?_, ?_, ?_⟩
      · intro kb hkb
        rw [halloc'] at hkb
        rcases alist_mem_insert _ _ _ _ hkb with he | ⟨hm', _⟩
        · rw [he]
        · exact hw1 kb hm'
      · intro h ha
        obtain ⟨hp1, hp2⟩ := hw2 h (hfh_mem h ha)
        refine ⟨hp1, ?_⟩
        rw [hnext']
        omega
      · rw [List.nodup_iff_count_le_one]
        intro a
        have h2 := List.nodup_iff_count_le_one.mp hw3 a
        have h3 := hcnt a
        omega
      · intro kb hkb
        rw [halloc'] at hkb
        rw [hnext']
        rcases alist_mem_insert _ _ _ _ hkb with he | ⟨hm', _⟩
        · have h2 : kb.1 = ((st.after_scan mode).allocate_new_block
              (adjusted_size s) mode hf).1.host_ptr := by rw [he]
          rcases hkey with h0 | hn <;> omega
        · have := hw4 kb hm'
          omega
      · intro kb hkb hmem
        rw [halloc'] at hkb
        have hmem' := hfh_mem kb.1 hmem
        obtain ⟨hp1, hp2⟩ := hw2 kb.1 hmem'
        rcases alist_mem_insert _ _ _ _ hkb with he | ⟨hm', _⟩
        · have h2 : kb.1 = ((st.after_scan mode).allocate_new_block
              (adjusted_size s) mode hf).1.host_ptr := by rw [he]
          rcases hkey with h0 | hn <;> omega
        · exact hw5 kb hm' hmem'
    | some pr =>
      obtain ⟨me, rest⟩ := pr
      have h1 := allocate_some_eq st s mode hf me rest hm
      obtain ⟨pre, post, hl, hr, hsz, hpre⟩ := find_match_eq_some _ _ _ _ hm
      have hfree' : (st.allocate s mode hf).2.free_blocks =
          set_free st.free_blocks mode rest := by
        rw [h1]
        show set_free ((st.scan_ttl (st.free_blocks mode)).1).free_blocks mode
            rest = _
        rw [scan_ttl_free_blocks]
      have halloc' : (st.allocate s mode hf).2.allocated_blocks =
          alist_insert st.allocated_blocks me.host_ptr me := by
        rw [h1]
        show alist_insert ((st.scan_ttl
            (st.free_blocks mode)).1).allocated_blocks me.host_ptr me = _
        rw [scan_ttl_allocated]
      have hnext' : (st.allocate s mode hf).2.next_ptr = st.next_ptr := by
        rw [h1]
        show ((st.scan_ttl (st.free_blocks mode)).1).next_ptr = _
        rw [scan_ttl_next_ptr]
      have hfh : freeHosts (st.allocate s mode hf).2 =
          freeHosts (with_free st (set_free st.free_blocks mode rest)) := by
        apply freeHosts_congr
        rw [hfree']
        rfl
      have hcnt_me : List.count me.host_ptr (hostsOf rest) + 1 =
          List.count me.host_ptr
            (hostsOf (surv_ttl (st.free_blocks mode))) := by
        rw [hl, hr, hostsOf_append, hostsOf_append]
        show List.count me.host_ptr (hostsOf pre ++ hostsOf post) + 1 =
          List.count me.host_ptr (hostsOf pre ++ hostsOf (me :: post))
        simp [hostsOf, List.count_append, List.count_cons]
        omega
      have hcnt_rest_le : ∀ a, List.count a (hostsOf rest) ≤
          List.count a (hostsOf (surv_ttl (st.free_blocks mode))) := by
        intro a
        have hsub : List.Sublist rest (surv_ttl (st.free_blocks mode)) := by
          rw [hl, hr]
          exact (List.Sublist.refl pre).append (List.sublist_cons_self me post)
        exact (hsub.map (fun b => b.host_ptr)).count_le a
      have hsurv_le := fun a =>
        (hostsOf_surv_sublist (st.free_blocks mode)).count_le a
      have hme_fh : me.host_ptr ∈ freeHosts st := by
        have h2 : me.host_ptr ∈ hostsOf (surv_ttl (st.free_blocks mode)) := by
          rw [hl]
          simp [hostsOf]
        have h3 := List.count_pos_iff.mpr h2
        have h4 := hsurv_le me.host_ptr
        have h5 := freeHosts_seg_count_le st mode me.host_ptr
        exact List.count_pos_iff.mp (by omega)
      obtain ⟨hmepos, hmelt⟩ := hw2 me.host_ptr hme_fh
      have hcnt : ∀ a, List.count a (freeHosts (st.allocate s mode hf).2) ≤
          List.count a (freeHosts st) := by
        intro a
        rw [hfh]
        have he := freeHosts_count st mode rest a
        have h2 := hcnt_rest_le a
        have h3 := hsurv_le a
        omega
      have hcnt0 : List.count me.host_ptr
          (freeHosts (st.allocate s mode hf).2) = 0 := by
        rw [hfh]
        have he := freeHosts_count st mode rest me.host_ptr
        have h3 := hsurv_le me.host_ptr
        have h4 := List.nodup_iff_count_le_one.mp hw3 me.host_ptr
        omega
      have hfh_mem : ∀ a, a ∈ freeHosts (st.allocate s mode hf).2 →
          a ∈ freeHosts st := by
        intro a ha'
        have h2 := hcnt a
        have h3 := List.count_pos_iff.mpr ha'
        exact List.count_pos_iff.mp (by omega)
      refine ⟨?_, ?_, ?_, ?_, ?_⟩
      · intro kb hkb
        rw [halloc'] at hkb
        rcases alist_mem_insert _ _ _ _ hkb with he | ⟨hm', _⟩
        · rw [he]
        · exact hw1 kb hm'
      · intro h ha
        obtain ⟨hp1, hp2⟩ := hw2 h (hfh_mem h ha)
        refine ⟨hp1, ?_⟩
        rw [hnext']
        exact hp2
      · rw [List.nodup_iff_count_le_one]
        intro a
        have h2 := List.nodup_iff_count_le_one.mp hw3 a
        have h3 := hcnt a
        omega
      · intro kb hkb
        rw [halloc'] at hkb
        rw [hnext']
        rcases alist_mem_insert _ _ _ _ hkb with he | ⟨hm', _⟩
        · have h2 : kb.1 = me.host_ptr := by rw [he]
          omega
        · exact hw4 kb hm'
      · intro kb hkb hmem
        rw [halloc'] at hkb
        rcases alist_mem_insert _ _ _ _ hkb with he | ⟨hm', _⟩
        · have h2 : kb.1 = me.host_ptr := by rw [he]
          have h3 := List.count_pos_iff.mpr hmem
          rw [h2] at h3
          omega
        · exact hw5 kb hm' (hfh_mem kb.1 hmem)
  · intro hp
    by_cases hp0 : p = 0
    · rw [MemoryPool.deallocate, if_pos hp0]
      exact ⟨hw1, hw2, hw3, hw4, hw5⟩
    · cases hfind : alist_find st.allocated_blocks p with
      | none =>
        rcases hp with hp1 | hp2
        · exact absurd hp1 hp0
        · exact absurd hfind hp2
      | some me =>
        have hd : st.deallocate p =
            { st with
              allocated_blocks := alist_erase st.allocated_blocks p
              free_blocks := set_free st.free_blocks me.mode
                (st.free_blocks me.mode ++ [{ me with ttl := 0 }]) } := by
          rw [MemoryPool.deallocate, if_neg hp0, hfind]
        have hpm : (p, me) ∈ st.allocated_blocks := alist_find_mem _ _ _ hfind
        have hpkey : me.host_ptr = p := hw1 _ hpm
        have hplt : p < st.next_ptr := hw4 _ hpm
        have hpnotfh : p ∉ freeHosts st := hw5 _ hpm
        have hppos : 0 < p := Nat.pos_of_ne_zero hp0
        have hfree' : (st.deallocate p).free_blocks =
            set_free st.free_blocks me.mode
              (st.free_blocks me.mode ++ [{ me with ttl := 0 }]) := by
          rw [hd]
        have halloc' : (st.deallocate p).allocated_blocks =
            alist_erase st.allocated_blocks p := by rw [hd]
        have hnext' : (st.deallocate p).next_ptr = st.next_ptr := by rw [hd]
        have hfh : freeHosts (st.deallocate p) =
            freeHosts (with_free st (set_free st.free_blocks me.mode
              (st.free_blocks me.mode ++ [{ me with ttl := 0 }]))) := by
          apply freeHosts_congr
          rw [hfree']
          rfl
        have happ : ∀ a, List.count a
            (hostsOf (st.free_blocks me.mode ++ [{ me with ttl := 0 }])) =
            List.count a (hostsOf (st.free_blocks me.mode)) +
              List.count a [p] := by
          intro a
          rw [hostsOf_append, List.count_append]
          have h2 : hostsOf [{ me with ttl := 0 }] = [p] := by
            simp [hostsOf, hpkey]
          rw [h2]
        have hcnt : ∀ a, List.count a (freeHosts (st.deallocate p)) =
            List.count a (freeHosts st) + List.count a [p] := by
          intro a
          rw [hfh]
          have he := freeHosts_count st me.mode
            (st.free_blocks me.mode ++ [{ me with ttl := 0 }]) a
          have h2 := happ a
          omega
        have hcntp : List.count p (freeHosts st) = 0 :=
          List.count_eq_zero.mpr hpnotfh
        refine ⟨?_, ?_, ?_, ?_, ?_⟩
        · intro kb hkb
          rw [halloc'] at hkb
          exact hw1 kb (alist_mem_erase _ _ _ hkb).1
        · intro h ha
          have h2 := List.count_pos_iff.mpr ha
          rw [hcnt h] at h2
          by_cases hhp : h = p
          · refine ⟨by omega, ?_⟩
            rw [hnext', hhp]
            exact hplt
          · have h3 : List.count h [p] = 0 := by
              rw [List.count_eq_zero]
              simp [hhp]
            rw [h3] at h2
            obtain ⟨hp1, hp2⟩ := hw2 h (List.count_pos_iff.mp (by omega))
            refine ⟨hp1, ?_⟩
            rw [hnext']
            exact hp2
        · rw [List.nodup_iff_count_le_one]
          intro a
          rw [hcnt a]
          by_cases hhp : a = p
          · rw [hhp, hcntp]
            simp
          · have h3 : List.count a [p] = 0 := by
              rw [List.count_eq_zero]
              simp [hhp]
            rw [h3]
            have := List.nodup_iff_count_le_one.mp hw3 a
            omega
        · intro kb hkb
          rw [halloc'] at hkb
          rw [hnext']
          exact hw4 kb (alist_mem_erase _ _ _ hkb).1
        · intro kb hkb hmem
          rw [halloc'] at hkb
          obtain ⟨hkb1, hkb2⟩ := alist_mem_erase _ _ _ hkb
          have h2 := List.count_pos_iff.mpr hmem
          rw [hcnt kb.1] at h2
          have h3 : List.count kb.1 [p] = 0 := by
            rw [List.count_eq_zero]
            simp [hkb2]
          rw [h3] at h2
          exact hw5 kb hkb1 (List.count_pos_iff.mp (by omega))

/-- Witness for C3 at a concrete input: the empty pool is well-formed
and stays so after an acquire. -/
theorem c3_disjointness_amended_witness :
    pool_wf MemoryPool.init ∧
      pool_wf (MemoryPool.init.allocate 64 CS_ALLOC_HOST true).2 := by
  have h0 : pool_wf MemoryPool.init := by
    refine ⟨?_, ?_, ?_, ?_, ?_⟩ <;> decide
  exact ⟨h0,
    (c3_disjointness_amended MemoryPool.init 64 CS_ALLOC_HOST true 0 h0).1⟩

/-- Counterexample to C3 as stated: acquire(64, HOST), release(1),
lookup(1) — the reached state has pointer 1 both keyed in
`allocated_blocks` (re-cached by the lookup fallback) and present in
the HOST free-list. -/
theorem c3_disjointness_counterexample :
    alist_find (((MemoryPool.init.allocate 64 CS_ALLOC_HOST
        true).2.deallocate 1).get_block_info 1).2.allocated_blocks 1 ≠
      none ∧
    1 ∈ freeHosts (((MemoryPool.init.allocate 64 CS_ALLOC_HOST
        true).2.deallocate 1).get_block_info 1).2 := by
  decide

/-! ## Connectivity: generic two-pass machinery lemmas -/

theorem updA_same {α : Type} (f : Nat → α) (k : Nat) (v : α) :
    updA f k v k = v := by
  simp [updA]

theorem updA_ne {α : Type} (f : Nat → α) (k : Nat) (v : α) (i : Nat)
    (h : i ≠ k) : updA f k v i = f i := by
  simp [updA, h]

theorem countLoop_append (a b : List (Nat × Int)) :
    ∀ arr : Nat → Nat, countLoop (a ++ b) arr = countLoop b (countLoop a arr) := by
  induction a with
  | nil => intro arr; rfl
  | cons e rest ih =>
    intro arr
    rw [List.cons_append, countLoop, countLoop, ih]

theorem countLoop_succ (evs : List (Nat × Int)) :
    ∀ (arr : Nat → Nat) (r : Nat),
      countLoop evs arr (r+1) = arr (r+1) + evCount evs r := by
  induction evs with
  | nil => intro arr r; simp [countLoop, evCount]
  | cons e rest ih =>
    intro arr r
    rw [countLoop, ih, evCount]
    by_cases h : e.1 = r
    · rw [h, updA_same, if_pos rfl]; omega
    · rw [updA_ne arr (e.1 + 1) (arr (e.1 + 1) + 1) (r+1) (by omega)]
      simp [h]

theorem countLoop_zero (evs : List (Nat × Int)) :
    ∀ arr : Nat → Nat, countLoop evs arr 0 = arr 0 := by
  induction evs with
  | nil => intro arr; rfl
  | cons e rest ih =>
    intro arr
    rw [countLoop, ih, updA_ne arr (e.1 + 1) (arr (e.1 + 1) + 1) 0 (by omega)]

theorem prefixLoop_gt (n : Nat) :
    ∀ (arr : Nat → Nat) (r : Nat), n < r → prefixLoop n arr r = arr r := by
  induction n with
  | zero => intro arr r _; rfl
  | succ n ih =>
    intro arr r h
    show updA (prefixLoop n arr) (n+1)
      (prefixLoop n arr n + prefixLoop n arr (n+1)) r = arr r
    rw [updA_ne _ _ _ _ (by omega), ih arr r (by omega)]

theorem prefixLoop_le (n : Nat) :
    ∀ (arr : Nat → Nat) (r : Nat), r ≤ n → prefixLoop n arr r = sumA arr r := by
  induction n with
  | zero =>
    intro arr r h
    have hr : r = 0 := by omega
    subst hr; rfl
  | succ n ih =>
    intro arr r h
    show updA (prefixLoop n arr) (n+1)
      (prefixLoop n arr n + prefixLoop n arr (n+1)) r = sumA arr r
    by_cases hr : r = n + 1
    · subst hr
      rw [updA_same, ih arr n (Nat.le_refl n), prefixLoop_gt n arr (n+1) (by omega)]
      rfl
    · rw [updA_ne _ _ _ _ hr, ih arr r (by omega)]

theorem evRow_append (a b : List (Nat × Int)) (r : Nat) :
    evRow (a ++ b) r = evRow a r ++ evRow b r := by
  induction a with
  | nil => rfl
  | cons e rest ih =>
    by_cases h : e.1 = r <;> simp [evRow, h, ih]

theorem evRow_length (evs : List (Nat × Int)) (r : Nat) :
    (evRow evs r).length = evCount evs r := by
  induction evs with
  | nil => rfl
  | cons e rest ih =>
    by_cases h : e.1 = r <;> simp [evRow, evCount, h, ih] <;> omega

theorem evCount_append (a b : List (Nat × Int)) (r : Nat) :
    evCount (a ++ b) r = evCount a r + evCount b r := by
  induction a with
  | nil => simp [evCount]
  | cons e rest ih => simp [evCount, ih]; omega

theorem sumEv_succ (evs : List (Nat × Int)) (r : Nat) :
    sumEv evs (r+1) = sumEv evs r + evCount evs r := rfl

theorem sumEv_mono (evs : List (Nat × Int)) (r r' : Nat) (h : r ≤ r') :
    sumEv evs r ≤ sumEv evs r' := by
  obtain ⟨d, rfl⟩ := Nat.exists_eq_add_of_le h
  clear h
  induction d with
  | zero => exact Nat.le_refl _
  | succ d ih =>
    show sumEv evs r ≤ sumEv evs (r + d + 1)
    rw [sumEv_succ]
    exact Nat.le_trans ih (Nat.le_add_right _ _)

theorem sumEv_inj (evs : List (Nat × Int)) (r j r' j' : Nat)
    (hj : j < evCount evs r) (hj' : j' < evCount evs r')
    (h : sumEv evs r + j = sumEv evs r' + j') : r = r' ∧ j = j' := by
  rcases Nat.lt_trichotomy r r' with hlt | heq | hgt
  · exfalso
    have h1 : sumEv evs r + j < sumEv evs (r+1) := by rw [sumEv_succ]; omega
    have h2 := sumEv_mono evs (r+1) r' hlt
    omega
  · subst heq; exact ⟨rfl, by omega⟩
  · exfalso
    have h1 : sumEv evs r' + j' < sumEv evs (r'+1) := by rw [sumEv_succ]; omega
    have h2 := sumEv_mono evs (r'+1) r hgt
    omega

theorem map_getD_range (l : List Int) :
    (List.range l.length).map (fun j => l.getD j 0) = l := by
  induction l with
  | nil => rfl
  | cons a t ih =>
    rw [List.length_cons, List.range_succ_eq_map, List.map_cons, List.map_map]
    have hfun : ((fun j => (a :: t).getD j 0) ∘ Nat.succ) =
        (fun j => t.getD j 0) := by
      funext j
      simp [List.getD_cons_succ]
    rw [hfun, ih]
    simp

theorem fillLoop_append (pos : Nat → Nat → Nat) (a b : List (Nat × Int)) :
    ∀ (cnt : Nat → Nat) (lst : Nat → Int),
      fillLoop pos (a ++ b) cnt lst =
        fillLoop pos b (fillLoop pos a cnt lst).1 (fillLoop pos a cnt lst).2 := by
  induction a with
  | nil => intro cnt lst; rfl
  | cons e rest ih =>
    intro cnt lst
    rw [List.cons_append, fillLoop, fillLoop, ih]

theorem fillLoop_spec (pos : Nat → Nat → Nat) (B : Nat → Nat)
    (hinj : ∀ r j r' j', j < B r → j' < B r' → pos r j = pos r' j' →
      r = r' ∧ j = j') :
    ∀ (evs : List (Nat × Int)) (cnt : Nat → Nat) (lst : Nat → Int),
      (∀ r, cnt r + evCount evs r ≤ B r) →
      (∀ r, (fillLoop pos evs cnt lst).1 r = cnt r + evCount evs r) ∧
      (∀ r j, j < evCount evs r →
        (fillLoop pos evs cnt lst).2 (pos r (cnt r + j)) =
          (evRow evs r).getD j 0) ∧
      (∀ p, (∀ r j, cnt r ≤ j → j < cnt r + evCount evs r → p ≠ pos r j) →
        (fillLoop pos evs cnt lst).2 p = lst p) := by
  intro evs
  induction evs with
  | nil =>
    intro cnt lst _
    refine ⟨fun r => rfl, fun r j hj => ?_, fun p _ => rfl⟩
    simp [evCount] at hj
  | cons e rest ih =>
    intro cnt lst hB
    have hBe : cnt e.1 + evCount (e :: rest) e.1 ≤ B e.1 := hB e.1
    have hcnt1 : evCount (e :: rest) e.1 = 1 + evCount rest e.1 := by
      rw [evCount]; simp
    have hB' : ∀ r, updA cnt e.1 (cnt e.1 + 1) r + evCount rest r ≤ B r := by
      intro r
      by_cases hr : r = e.1
      · subst hr; rw [updA_same]; omega
      · rw [updA_ne _ _ _ _ hr]
        have := hB r
        have hcr : evCount (e :: rest) r = 0 + evCount rest r := by
          rw [evCount]; simp [Ne.symm hr]
        have hcr2 : evCount (e :: rest) r = evCount rest r := by omega
        omega
    obtain ⟨IH1, IH2, IH3⟩ :=
      ih (updA cnt e.1 (cnt e.1 + 1)) (updA lst (pos e.1 (cnt e.1)) e.2) hB'
    have hstep : fillLoop pos (e :: rest) cnt lst =
        fillLoop pos rest (updA cnt e.1 (cnt e.1 + 1))
          (updA lst (pos e.1 (cnt e.1)) e.2) := rfl
    refine ⟨?_, ?_, ?_⟩
    · intro r
      rw [hstep, IH1 r]
      by_cases hr : r = e.1
      · subst hr; rw [updA_same, hcnt1]; omega
      · rw [updA_ne _ _ _ _ hr]
        have hcr : evCount (e :: rest) r = evCount rest r := by
          rw [evCount]; simp [Ne.symm hr]
        omega
    · intro r j hj
      rw [hstep]
      by_cases hr : r = e.1
      · subst hr
        match j with
        | 0 =>
          have hx : (evRow (e :: rest) e.1).getD 0 0 = e.2 := by
            rw [evRow]; simp
          rw [hx]
          have hne : ∀ r' j', updA cnt e.1 (cnt e.1 + 1) r' ≤ j' →
              j' < updA cnt e.1 (cnt e.1 + 1) r' + evCount rest r' →
              pos e.1 (cnt e.1 + 0) ≠ pos r' j' := by
            intro r' j' hlo hhi heqp
            have hb1 : cnt e.1 + 0 < B e.1 := by omega
            have hb2 : j' < B r' := by
              have := hB' r'; omega
            obtain ⟨hre, hje⟩ := hinj e.1 (cnt e.1 + 0) r' j' hb1 hb2 heqp
            subst hre
            rw [updA_same] at hlo
            omega
          rw [IH3 (pos e.1 (cnt e.1 + 0)) hne]
          have : cnt e.1 + 0 = cnt e.1 := by omega
          rw [this, updA_same]
        | Nat.succ j' =>
          have hj2 : j' < evCount rest e.1 := by omega
          have := IH2 e.1 j' hj2
          rw [updA_same] at this
          have harg : cnt e.1 + (j' + 1) = cnt e.1 + 1 + j' := by omega
          rw [harg, this]
          rw [evRow]; simp
      · have hcr : evCount (e :: rest) r = evCount rest r := by
          rw [evCount]; simp [Ne.symm hr]
        have hrow : evRow (e :: rest) r = evRow rest r := by
          rw [evRow]; simp [Ne.symm hr]
        rw [hrow]
        have := IH2 r j (by omega)
        rw [updA_ne _ _ _ _ hr] at this
        exact this
    · intro p hp
      rw [hstep]
      have hp' : ∀ r j, updA cnt e.1 (cnt e.1 + 1) r ≤ j →
          j < updA cnt e.1 (cnt e.1 + 1) r + evCount rest r → p ≠ pos r j := by
        intro r j hlo hhi
        by_cases hr : r = e.1
        · subst hr
          rw [updA_same] at hlo hhi
          exact hp e.1 j (by omega) (by omega)
        · rw [updA_ne _ _ _ _ hr] at hlo hhi
          have hcr : evCount (e :: rest) r = evCount rest r := by
            rw [evCount]; simp [Ne.symm hr]
          exact hp r j hlo (by omega)
      rw [IH3 p hp']
      have hpe : p ≠ pos e.1 (cnt e.1) := by
        have h0 : evCount (e :: rest) e.1 ≥ 1 := by omega
        exact hp e.1 (cnt e.1) (Nat.le_refl _) (by omega)
      rw [updA_ne _ _ _ _ hpe]

/-! ## Claim C6: cell → internal-faces connectivity -/

theorem cell_faces_count_pass_eq (n : Nat) :
    ∀ (faces : List (Nat × Nat)) (i : Nat) (arr : Nat → Nat),
      cell_faces_count_pass n faces arr =
        countLoop (cell_faces_events n i faces) arr := by
  intro faces
  induction faces with
  | nil => intro i arr; rfl
  | cons fc rest ih =>
    intro i arr
    by_cases h1 : fc.1 - 1 < n <;> by_cases h2 : fc.2 - 1 < n <;>
      simp only [cell_faces_count_pass, cell_faces_events, h1, h2, if_true,
        if_false, List.cons_append, List.nil_append, List.append_assoc,
        countLoop_append, countLoop, ih (i+1)]

theorem cell_faces_events_row_lt (n : Nat) :
    ∀ (faces : List (Nat × Nat)) (i : Nat),
      ∀ e ∈ cell_faces_events n i faces, e.1 < n := by
  intro faces
  induction faces with
  | nil => intro i e he; simp [cell_faces_events] at he
  | cons fc rest ih =>
    intro i e he
    rw [cell_faces_events] at he
    rcases List.mem_append.mp he with hl | hr
    · rcases List.mem_append.mp hl with ha | hb
      · by_cases h1 : fc.1 - 1 < n
        · rw [if_pos h1] at ha
          rcases List.mem_singleton.mp ha with rfl
          exact h1
        · rw [if_neg h1] at ha
          exact absurd ha (List.not_mem_nil _)
      · by_cases h2 : fc.2 - 1 < n
        · rw [if_pos h2] at hb
          rcases List.mem_singleton.mp hb with rfl
          exact h2
        · rw [if_neg h2] at hb
          exact absurd hb (List.not_mem_nil _)
    · exact ih (i+1) e hr

theorem evCount_zero_of_rows_lt (n : Nat) (evs : List (Nat × Int))
    (hlt : ∀ e ∈ evs, e.1 < n) (r : Nat) (hr : n ≤ r) :
    evCount evs r = 0 := by
  induction evs with
  | nil => rfl
  | cons e rest ih =>
    rw [evCount]
    have he : e.1 < n := hlt e (List.mem_cons_self e rest)
    have hne : ¬ (e.1 = r) := by omega
    rw [if_neg hne]
    have := ih (fun x hx => hlt x (List.mem_cons_of_mem e hx))
    omega

theorem cell_faces_evRow (n : Nat) (c : Nat) (hc : c < n) :
    ∀ (faces : List (Nat × Nat)) (i : Nat),
      evRow (cell_faces_events n i faces) c = cell_faces_rowSpec c i faces := by
  intro faces
  induction faces with
  | nil => intro i; rfl
  | cons fc rest ih =>
    intro i
    rw [cell_faces_events, cell_faces_rowSpec, evRow_append, evRow_append,
      ih (i+1)]
    congr 1
    congr 1
    · by_cases e1 : fc.1 - 1 = c
      · rw [if_pos e1, if_pos (e1 ▸ hc)]
        simp [evRow, e1]
      · by_cases g1 : fc.1 - 1 < n
        · rw [if_pos g1, if_neg e1]
          simp [evRow, e1]
        · rw [if_neg g1, if_neg e1]
          rfl
    · by_cases e2 : fc.2 - 1 = c
      · rw [if_pos e2, if_pos (e2 ▸ hc)]
        simp [evRow, e2]
      · by_cases g2 : fc.2 - 1 < n
        · rw [if_pos g2, if_neg e2]
          simp [evRow, e2]
        · rw [if_neg g2, if_neg e2]
          rfl

theorem cell_faces_fill_pass_eq (n : Nat) (idx : Nat → Nat) :
    ∀ (faces : List (Nat × Nat)) (i : Nat) (cnt : Nat → Nat) (lst : Nat → Int),
      cell_faces_fill_pass n idx i faces cnt lst =
        fillLoop (fun r k => idx r + k - 1) (cell_faces_events n i faces)
          cnt lst := by
  intro faces
  induction faces with
  | nil => intro i cnt lst; rfl
  | cons fc rest ih =>
    intro i cnt lst
    by_cases h1 : fc.1 - 1 < n <;> by_cases h2 : fc.2 - 1 < n <;>
      simp only [cell_faces_fill_pass, cell_faces_events, h1, h2, if_true,
        if_false, List.cons_append, List.nil_append, List.append_assoc,
        fillLoop_append, fillLoop, ih (i+1)]

/-- C6 (corrected): in `_get_cell_i_faces_connectivity`, a face
contributes an entry to a cell's row exactly when THAT cell — the row
cell itself — is local (its 0-based index below `n_cells`), not when the
opposing cell is: each local cell c's row lists, in face order, +(i+1)
for every face i whose first adjoining cell is c and -(i+1) for every
face whose second adjoining cell is c, regardless of the opposing
side's locality, and the 1-based index brackets exactly those
entries. -/
theorem c6_cell_faces_amended (n_cells : Nat) (i_face_cells : List (Nat × Nat))
    (c : Nat) (hc : c < n_cells) :
    rowOfCSR1 (_get_cell_i_faces_connectivity n_cells i_face_cells).1
        (_get_cell_i_faces_connectivity n_cells i_face_cells).2 c =
      cell_faces_rowSpec c 0 i_face_cells ∧
    (_get_cell_i_faces_connectivity n_cells i_face_cells).1 (c+1) =
      (_get_cell_i_faces_connectivity n_cells i_face_cells).1 c +
        (cell_faces_rowSpec c 0 i_face_cells).length := by
  have hrowlt := cell_faces_events_row_lt n_cells i_face_cells 0
  set evs := cell_faces_events n_cells 0 i_face_cells with hevs
  set A := updA (countLoop evs (fun _ => 0)) 0 1 with hAdef
  set idx := prefixLoop n_cells A with hidxdef
  have hcnt0 : ∀ r, n_cells ≤ r → evCount evs r = 0 :=
    fun r hr => evCount_zero_of_rows_lt n_cells evs hrowlt r hr
  have hfst : (_get_cell_i_faces_connectivity n_cells i_face_cells).1 = idx := by
    rw [hidxdef, hAdef, hevs]
    show prefixLoop n_cells
      (updA (cell_faces_count_pass n_cells i_face_cells (fun _ => 0)) 0 1) = _
    rw [cell_faces_count_pass_eq n_cells i_face_cells 0]
  have hA0 : A 0 = 1 := by rw [hAdef]; exact updA_same _ _ _
  have hAs : ∀ r : Nat, A (r+1) = evCount evs r := by
    intro r
    rw [hAdef, updA_ne _ _ _ _ (by omega), countLoop_succ]
    show 0 + evCount evs r = evCount evs r
    omega
  have hsum : ∀ r : Nat, sumA A r = 1 + sumEv evs r := by
    intro r
    induction r with
    | zero =>
      show A 0 = 1 + sumEv evs 0
      rw [hA0]
      rfl
    | succ r ih =>
      show sumA A r + A (r+1) = 1 + sumEv evs (r+1)
      rw [ih, hAs r, sumEv_succ]
      omega
  have hidx : ∀ r, r ≤ n_cells → idx r = 1 + sumEv evs r := by
    intro r hr
    rw [hidxdef, prefixLoop_le n_cells A r hr, hsum r]
  have hsnd : (_get_cell_i_faces_connectivity n_cells i_face_cells).2 =
      (fillLoop (fun r k => idx r + k - 1) evs (fun _ => 0) (fun _ => 0)).2 := by
    rw [hevs, hidxdef, hAdef]
    show (cell_faces_fill_pass n_cells
      (prefixLoop n_cells
        (updA (cell_faces_count_pass n_cells i_face_cells (fun _ => 0)) 0 1))
      0 i_face_cells (fun _ => 0) (fun _ => 0)).2 = _
    rw [cell_faces_fill_pass_eq, cell_faces_count_pass_eq n_cells i_face_cells 0]
  have hinj : ∀ r j r' j', j < evCount evs r → j' < evCount evs r' →
      (fun r k => idx r + k - 1) r j = (fun r k => idx r + k - 1) r' j' →
      r = r' ∧ j = j' := by
    intro r j r' j' hj hj' heq
    have hrn : r < n_cells := by
      by_contra hh
      rw [hcnt0 r (by omega)] at hj
      omega
    have hr'n : r' < n_cells := by
      by_contra hh
      rw [hcnt0 r' (by omega)] at hj'
      omega
    have h1 := hidx r (by omega)
    have h2 := hidx r' (by omega)
    have heq2 : idx r + j - 1 = idx r' + j' - 1 := heq
    apply sumEv_inj evs r j r' j' hj hj'
    omega
  obtain ⟨F1, F2, F3⟩ := fillLoop_spec (fun r k => idx r + k - 1)
    (evCount evs) hinj evs (fun _ => 0) (fun _ => 0)
    (fun r => by show 0 + evCount evs r ≤ evCount evs r; omega)
  have hrow := cell_faces_evRow n_cells c hc i_face_cells 0
  rw [← hevs] at hrow
  have hlen : idx (c+1) - idx c = evCount evs c := by
    rw [hidx c (by omega), hidx (c+1) (by omega), sumEv_succ]
    omega
  constructor
  · rw [hfst, hsnd, rowOfCSR1, hlen]
    have hpt : ∀ j ∈ List.range (evCount evs c),
        (fillLoop (fun r k => idx r + k - 1) evs (fun _ => 0) (fun _ => 0)).2
          (idx c - 1 + j) = (evRow evs c).getD j 0 := by
      intro j hj
      rw [List.mem_range] at hj
      have hf := F2 c j hj
      have harg : idx c - 1 + j = idx c + (0 + j) - 1 := by
        have := hidx c (by omega)
        omega
      rw [harg]
      exact hf
    rw [List.map_congr_left hpt, ← evRow_length evs c, map_getD_range]
    exact hrow
  · have hl : (cell_faces_rowSpec c 0 i_face_cells).length = evCount evs c := by
      rw [← hrow, evRow_length]
    rw [hfst, hidx c (by omega), hidx (c+1) (by omega), sumEv_succ, hl]
    omega

/-- C6 witness: two local cells, faces (1,2) and (3,1); cell 0's row is
[+1, -2] as specified. -/
theorem c6_cell_faces_amended_witness :
    0 < 2 ∧
    (rowOfCSR1 (_get_cell_i_faces_connectivity 2 [(1, 2), (3, 1)]).1
        (_get_cell_i_faces_connectivity 2 [(1, 2), (3, 1)]).2 0 =
      cell_faces_rowSpec 0 0 [(1, 2), (3, 1)] ∧
    (_get_cell_i_faces_connectivity 2 [(1, 2), (3, 1)]).1 1 =
      (_get_cell_i_faces_connectivity 2 [(1, 2), (3, 1)]).1 0 +
        (cell_faces_rowSpec 0 0 [(1, 2), (3, 1)]).length) :=
  ⟨by decide, c6_cell_faces_amended 2 [(1, 2), (3, 1)] 0 (by decide)⟩

/-- C6 counterexample to the literal claim: with a single local cell and
one face adjoining cells (1, 2), the opposing cell index 1 is NOT
strictly below n_cells = 1, yet the face still contributes the entry +1
to local cell 0's row — the guard tests the row cell, not the opposing
cell. -/
theorem c6_cell_faces_counterexample :
    rowOfCSR1 (_get_cell_i_faces_connectivity 1 [(1, 2)]).1
        (_get_cell_i_faces_connectivity 1 [(1, 2)]).2 0 = [(1 : Int)] ∧
    ¬((2 : Nat) - 1 < 1) := by
  decide

/-! ## Claim C4: connectivity reversal -/

theorem rowDedup_mem_iff (row : List Nat) :
    ∀ (seen : List Nat) (v : Nat),
      v ∈ rowDedup seen row ↔ (v ∉ seen ∧ ∃ e ∈ row, e - 1 = v) := by
  induction row with
  | nil =>
    intro seen v
    simp [rowDedup]
  | cons e rest ih =>
    intro seen v
    by_cases hm : (e - 1) ∈ seen
    · rw [rowDedup, if_pos hm, ih seen v]
      constructor
      · rintro ⟨hns, x, hx, hxv⟩
        exact ⟨hns, x, List.mem_cons_of_mem e hx, hxv⟩
      · rintro ⟨hns, x, hx, hxv⟩
        rcases List.mem_cons.mp hx with rfl | hx'
        · exact absurd (hxv ▸ hm) hns
        · exact ⟨hns, x, hx', hxv⟩
    · rw [rowDedup, if_neg hm]
      constructor
      · intro hmem
        rcases List.mem_cons.mp hmem with rfl | h2
        · exact ⟨hm, e, List.mem_cons_self e rest, rfl⟩
        · rcases (ih ((e-1) :: seen) v).mp h2 with ⟨hns, x, hx, hxv⟩
          exact ⟨fun hs => hns (List.mem_cons_of_mem _ hs), x,
            List.mem_cons_of_mem e hx, hxv⟩
      · rintro ⟨hns, x, hx, hxv⟩
        by_cases hve : v = e - 1
        · exact hve ▸ List.mem_cons_self _ _
        · rcases List.mem_cons.mp hx with rfl | hx'
          · exact absurd hxv (fun h => hve h.symm)
          · exact List.mem_cons_of_mem _ ((ih ((e-1) :: seen) v).mpr
              ⟨fun hs => (List.mem_cons.mp hs).elim (fun h => hve h) hns,
                x, hx', hxv⟩)

theorem rowDedup_nodup (row : List Nat) :
    ∀ seen : List Nat, (rowDedup seen row).Nodup := by
  induction row with
  | nil => intro seen; exact List.nodup_nil
  | cons e rest ih =>
    intro seen
    by_cases hm : (e - 1) ∈ seen
    · rw [rowDedup, if_pos hm]; exact ih seen
    · rw [rowDedup, if_neg hm]
      refine List.nodup_cons.mpr ⟨?_, ih _⟩
      intro hmem
      rcases (rowDedup_mem_iff rest ((e-1) :: seen) (e-1)).mp hmem with ⟨hns, _⟩
      exact hns (List.mem_cons_self _ _)

theorem dedupEvents_row_lt (n : Nat) (rows : List (List Nat))
    (hrows : ∀ row ∈ rows, ∀ e ∈ row, 1 ≤ e ∧ e ≤ n) :
    ∀ (id : Nat), ∀ ev ∈ dedupEvents id rows, ev.1 < n := by
  induction rows with
  | nil => intro id ev hev; simp [dedupEvents] at hev
  | cons row rest ih =>
    intro id ev hev
    rw [dedupEvents] at hev
    rcases List.mem_append.mp hev with hl | hr
    · rcases List.mem_map.mp hl with ⟨u, hu, rfl⟩
      rcases (rowDedup_mem_iff row [] u).mp hu with ⟨_, x, hx, hxv⟩
      have := hrows row (List.mem_cons_self _ _) x hx
      show u < n
      omega
    · exact ih (fun r hr2 => hrows r (List.mem_cons_of_mem _ hr2)) (id+1) ev hr

theorem evRow_map_single (v : Nat) (x : Int) (vs : List Nat) (hnd : vs.Nodup) :
    evRow (vs.map (fun u => (u, x))) v = if v ∈ vs then [x] else [] := by
  induction vs with
  | nil => simp [evRow]
  | cons u rest ih =>
    rcases List.nodup_cons.mp hnd with ⟨hu, hnd'⟩
    by_cases hv : u = v
    · subst hv
      rw [List.map_cons, evRow, if_pos rfl, ih hnd', if_pos (List.mem_cons_self _ _),
        if_neg hu]
    · rw [List.map_cons, evRow, if_neg hv, ih hnd']
      by_cases hvr : v ∈ rest
      · rw [if_pos hvr, if_pos (List.mem_cons_of_mem _ hvr)]
      · rw [if_neg hvr, if_neg (fun hm => (List.mem_cons.mp hm).elim
          (fun h => hv h.symm) hvr)]

theorem rev_idx_row_spec (id : Int) (row : List Nat) :
    ∀ (seen : List Nat) (checker : Nat → Int) (arr : Nat → Nat),
      (∀ v, checker v = id ↔ v ∈ seen) →
      (_reverse_connectivity_idx_row id row checker arr).2 =
        countLoop ((rowDedup seen row).map (fun v => (v, id))) arr ∧
      (∀ v, ((_reverse_connectivity_idx_row id row checker arr).1 v = id ↔
        (v ∈ seen ∨ v ∈ rowDedup seen row))) ∧
      (∀ v, (_reverse_connectivity_idx_row id row checker arr).1 v = id ∨
        (_reverse_connectivity_idx_row id row checker arr).1 v = checker v) := by
  induction row with
  | nil =>
    intro seen checker arr h
    refine ⟨rfl, fun v => ?_, fun v => Or.inr rfl⟩
    rw [rowDedup]
    simp only [List.not_mem_nil, or_false]
    exact h v
  | cons e rest ih =>
    intro seen checker arr h
    by_cases hc : checker (e - 1) ≠ id
    · have hns : (e - 1) ∉ seen := fun hmem => hc ((h (e-1)).mpr hmem)
      have h' : ∀ v, updA checker (e-1) id v = id ↔ v ∈ (e-1) :: seen := by
        intro v
        by_cases hv : v = e - 1
        · subst hv
          rw [updA_same]
          simp
        · rw [updA_ne _ _ _ _ hv, h v]
          constructor
          · exact fun hs => List.mem_cons_of_mem _ hs
          · intro hs
            rcases List.mem_cons.mp hs with h2 | h2
            · exact absurd h2 hv
            · exact h2
      obtain ⟨IH1, IH2, IH3⟩ := ih ((e-1) :: seen) (updA checker (e-1) id)
        (updA arr ((e-1)+1) (arr ((e-1)+1) + 1)) h'
      have hstep : _reverse_connectivity_idx_row id (e :: rest) checker arr =
          _reverse_connectivity_idx_row id rest (updA checker (e-1) id)
            (updA arr ((e-1)+1) (arr ((e-1)+1) + 1)) := by
        rw [_reverse_connectivity_idx_row, if_pos hc]
      have hded : rowDedup seen (e :: rest) =
          (e-1) :: rowDedup ((e-1) :: seen) rest := by
        rw [rowDedup, if_neg hns]
      refine ⟨?_, ?_, ?_⟩
      · rw [hstep, IH1, hded]
        rfl
      · intro v
        rw [hstep, IH2 v, hded]
        simp only [List.mem_cons]
        tauto
      · intro v
        rw [hstep]
        rcases IH3 v with h2 | h2
        · exact Or.inl h2
        · by_cases hv : v = e - 1
          · subst hv
            rw [h2, updA_same]
            exact Or.inl rfl
          · rw [h2, updA_ne _ _ _ _ hv]
            exact Or.inr rfl
    · have hcm : checker (e - 1) = id := by
        by_contra h2
        exact hc h2
      have hmem : (e - 1) ∈ seen := (h (e-1)).mp hcm
      have hstep : _reverse_connectivity_idx_row id (e :: rest) checker arr =
          _reverse_connectivity_idx_row id rest checker arr := by
        rw [_reverse_connectivity_idx_row, if_neg hc]
      have hded : rowDedup seen (e :: rest) = rowDedup seen rest := by
        rw [rowDedup, if_pos hmem]
      obtain ⟨IH1, IH2, IH3⟩ := ih seen checker arr h
      exact ⟨by rw [hstep, IH1, hded], fun v => by rw [hstep, IH2 v, hded],
        fun v => by rw [hstep]; exact IH3 v⟩

theorem rev_idx_loop_spec :
    ∀ (rows : List (List Nat)) (id : Nat) (checker : Nat → Int) (arr : Nat → Nat),
      (∀ v, checker v < Int.ofNat id) →
      (_reverse_connectivity_idx_loop id rows checker arr).2 =
        countLoop (dedupEvents id rows) arr := by
  intro rows
  induction rows with
  | nil => intro id checker arr _; rfl
  | cons row rest ih =>
    intro id checker arr h
    have hiff : ∀ v, checker v = Int.ofNat id ↔ v ∈ ([] : List Nat) := by
      intro v
      constructor
      · intro he
        have := h v
        omega
      · intro hm
        exact absurd hm (List.not_mem_nil v)
    obtain ⟨H1, H2, H3⟩ := rev_idx_row_spec (Int.ofNat id) row [] checker arr hiff
    have hbound : ∀ v,
        (_reverse_connectivity_idx_row (Int.ofNat id) row checker arr).1 v <
          Int.ofNat (id+1) := by
      intro v
      rcases H3 v with he | he
      · rw [he]
        exact Int.ofNat_lt.mpr (Nat.lt_succ_self id)
      · rw [he]
        exact lt_trans (h v) (by exact Int.ofNat_lt.mpr (Nat.lt_succ_self id))
    show (_reverse_connectivity_idx_loop (id+1) rest
      (_reverse_connectivity_idx_row (Int.ofNat id) row checker arr).1
      (_reverse_connectivity_idx_row (Int.ofNat id) row checker arr).2).2 = _
    rw [ih (id+1) _ _ hbound, H1, dedupEvents, countLoop_append]

theorem rev_lst_row_spec (id : Int) (idxa : Nat → Nat) (row : List Nat) :
    ∀ (seen : List Nat) (checker : Nat → Int) (cntr : Nat → Nat) (lst : Nat → Int),
      (∀ v, checker v = id ↔ v ∈ seen) →
      ((_reverse_connectivity_lst_row id idxa row checker cntr lst).2.1 =
          (fillLoop (fun r k => idxa r + k)
            ((rowDedup seen row).map (fun v => (v, id))) cntr lst).1 ∧
       (_reverse_connectivity_lst_row id idxa row checker cntr lst).2.2 =
          (fillLoop (fun r k => idxa r + k)
            ((rowDedup seen row).map (fun v => (v, id))) cntr lst).2) ∧
      (∀ v, (_reverse_connectivity_lst_row id idxa row checker cntr lst).1 v = id ∨
        (_reverse_connectivity_lst_row id idxa row checker cntr lst).1 v =
          checker v) := by
  induction row with
  | nil =>
    intro seen checker cntr lst h
    exact ⟨⟨rfl, rfl⟩, fun v => Or.inr rfl⟩
  | cons e rest ih =>
    intro seen checker cntr lst h
    by_cases hc : checker (e - 1) ≠ id
    · have hns : (e - 1) ∉ seen := fun hmem => hc ((h (e-1)).mpr hmem)
      have h' : ∀ v, updA checker (e-1) id v = id ↔ v ∈ (e-1) :: seen := by
        intro v
        by_cases hv : v = e - 1
        · subst hv
          rw [updA_same]
          simp
        · rw [updA_ne _ _ _ _ hv, h v]
          constructor
          · exact fun hs => List.mem_cons_of_mem _ hs
          · intro hs
            rcases List.mem_cons.mp hs with h2 | h2
            · exact absurd h2 hv
            · exact h2
      obtain ⟨⟨IH1, IH2⟩, IH3⟩ := ih ((e-1) :: seen) (updA checker (e-1) id)
        (updA cntr (e-1) (cntr (e-1) + 1))
        (updA lst (idxa (e-1) + cntr (e-1)) id) h'
      have hstep : _reverse_connectivity_lst_row id idxa (e :: rest) checker cntr lst =
          _reverse_connectivity_lst_row id idxa rest (updA checker (e-1) id)
            (updA cntr (e-1) (cntr (e-1) + 1))
            (updA lst (idxa (e-1) + cntr (e-1)) id) := by
        rw [_reverse_connectivity_lst_row, if_pos hc]
      have hded : rowDedup seen (e :: rest) =
          (e-1) :: rowDedup ((e-1) :: seen) rest := by
        rw [rowDedup, if_neg hns]
      refine ⟨⟨?_, ?_⟩, ?_⟩
      · rw [hstep, IH1, hded]
        rfl
      · rw [hstep, IH2, hded]
        rfl
      · intro v
        rw [hstep]
        rcases IH3 v with h2 | h2
        · exact Or.inl h2
        · by_cases hv : v = e - 1
          · subst hv
            rw [h2, updA_same]
            exact Or.inl rfl
          · rw [h2, updA_ne _ _ _ _ hv]
            exact Or.inr rfl
    · have hcm : checker (e - 1) = id := by
        by_contra h2
        exact hc h2
      have hmem : (e - 1) ∈ seen := (h (e-1)).mp hcm
      have hstep : _reverse_connectivity_lst_row id idxa (e :: rest) checker cntr lst =
          _reverse_connectivity_lst_row id idxa rest checker cntr lst := by
        rw [_reverse_connectivity_lst_row, if_neg hc]
      have hded : rowDedup seen (e :: rest) = rowDedup seen rest := by
        rw [rowDedup, if_pos hmem]
      obtain ⟨⟨IH1, IH2⟩, IH3⟩ := ih seen checker cntr lst h
      exact ⟨⟨by rw [hstep, IH1, hded], by rw [hstep, IH2, hded]⟩,
        fun v => by rw [hstep]; exact IH3 v⟩

theorem rev_lst_loop_spec (idxa : Nat → Nat) :
    ∀ (rows : List (List Nat)) (id : Nat) (checker : Nat → Int)
      (cntr : Nat → Nat) (lst : Nat → Int),
      (∀ v, checker v < Int.ofNat id) →
      (_reverse_connectivity_lst_loop idxa id rows checker cntr lst).2.2 =
        (fillLoop (fun r k => idxa r + k) (dedupEvents id rows) cntr lst).2 := by
  intro rows
  induction rows with
  | nil => intro id checker cntr lst _; rfl
  | cons row rest ih =>
    intro id checker cntr lst h
    have hiff : ∀ v, checker v = Int.ofNat id ↔ v ∈ ([] : List Nat) := by
      intro v
      constructor
      · intro he
        have := h v
        omega
      · intro hm
        exact absurd hm (List.not_mem_nil v)
    obtain ⟨⟨H1, H2⟩, H3⟩ :=
      rev_lst_row_spec (Int.ofNat id) idxa row [] checker cntr lst hiff
    have hbound : ∀ v,
        (_reverse_connectivity_lst_row (Int.ofNat id) idxa row checker cntr lst).1 v <
          Int.ofNat (id+1) := by
      intro v
      rcases H3 v with he | he
      · rw [he]
        exact Int.ofNat_lt.mpr (Nat.lt_succ_self id)
      · rw [he]
        exact lt_trans (h v) (by exact Int.ofNat_lt.mpr (Nat.lt_succ_self id))
    show (_reverse_connectivity_lst_loop idxa (id+1) rest
      (_reverse_connectivity_lst_row (Int.ofNat id) idxa row checker cntr lst).1
      (_reverse_connectivity_lst_row (Int.ofNat id) idxa row checker cntr lst).2.1
      (_reverse_connectivity_lst_row (Int.ofNat id) idxa row checker cntr lst).2.2).2.2 = _
    rw [ih (id+1) _ _ _ hbound, H1, H2, dedupEvents, fillLoop_append]

theorem dedupEvents_evRow (v : Nat) :
    ∀ (rows : List (List Nat)) (id : Nat),
      (∀ row ∈ rows, ∀ e ∈ row, 1 ≤ e) →
      evRow (dedupEvents id rows) v = revRowSpec v id rows := by
  intro rows
  induction rows with
  | nil => intro id _; rfl
  | cons row rest ih =>
    intro id hrows
    rw [dedupEvents, revRowSpec, evRow_append,
      ih (id+1) (fun r hr => hrows r (List.mem_cons_of_mem _ hr)),
      evRow_map_single v (Int.ofNat id) _ (rowDedup_nodup row [])]
    have hiff : v ∈ rowDedup [] row ↔ (v+1) ∈ row := by
      rw [rowDedup_mem_iff]
      simp only [List.not_mem_nil, not_false_iff, true_and]
      constructor
      · rintro ⟨x, hx, hxv⟩
        have h1 := hrows row (List.mem_cons_self _ _) x hx
        have hx1 : x = v + 1 := by omega
        exact hx1 ▸ hx
      · intro hm
        exact ⟨v+1, hm, rfl⟩
    by_cases hv : v ∈ rowDedup [] row
    · rw [if_pos hv, if_pos (hiff.mp hv)]
    · rw [if_neg hv, if_neg (fun hm => hv (hiff.mpr hm))]

theorem revRowSpec_count_lt (v : Nat) :
    ∀ (rows : List (List Nat)) (k s : Nat), s < k →
      List.count (Int.ofNat s) (revRowSpec v k rows) = 0 := by
  intro rows
  induction rows with
  | nil => intro k s _; rfl
  | cons row rest ih =>
    intro k s hs
    rw [revRowSpec, List.count_append, ih (k+1) s (by omega)]
    by_cases hm : (v+1) ∈ row
    · rw [if_pos hm]
      have hne : Int.ofNat s ≠ Int.ofNat k := by
        intro he
        have : s = k := Int.ofNat.inj he
        omega
      simp [List.count_singleton, hne]
      omega
    · rw [if_neg hm]
      rfl

theorem revRowSpec_count (v : Nat) :
    ∀ (rows : List (List Nat)) (k s : Nat), k ≤ s →
      List.count (Int.ofNat s) (revRowSpec v k rows) =
        if (v+1) ∈ rows.getD (s - k) [] then 1 else 0 := by
  intro rows
  induction rows with
  | nil =>
    intro k s _
    simp [revRowSpec]
  | cons row rest ih =>
    intro k s hks
    rw [revRowSpec, List.count_append]
    by_cases hsk : s = k
    · subst hsk
      rw [revRowSpec_count_lt v rest (s+1) s (by omega)]
      have hgd : (row :: rest).getD (s - s) [] = row := by
        simp [Nat.sub_self]
      rw [hgd]
      by_cases hm : (v+1) ∈ row
      · rw [if_pos hm, if_pos hm]
        simp [List.count_singleton]
      · rw [if_neg hm, if_neg hm]
        rfl
    · have hlt : k < s := by omega
      rw [ih (k+1) s (by omega)]
      have hne : Int.ofNat s ≠ Int.ofNat k := by
        intro he
        have : s = k := Int.ofNat.inj he
        omega
      have hhead : List.count (Int.ofNat s)
          (if (v+1) ∈ row then [Int.ofNat k] else []) = 0 := by
        by_cases hm : (v+1) ∈ row
        · rw [if_pos hm]
          simp [List.count_singleton, hne]
          omega
        · rw [if_neg hm]
          rfl
      rw [hhead]
      have hgd : (row :: rest).getD (s - k) [] = rest.getD (s - (k+1)) [] := by
        have h1 : s - k = (s - (k+1)) + 1 := by omega
        rw [h1]
        rfl
      rw [hgd]
      omega

/-- C4 (confirmed): for the halo connectivity reversal built by
`_reverse_connectivity_idx` (with prefix sums) and
`_reverse_connectivity_lst`: the reversed row of each vertex lists, in
ascending order, exactly the ghost cells whose forward row mentions the
vertex; in particular each forward (ghost cell, vertex) pair appears
exactly once in that vertex's reversed row — even when a forward row
repeats a vertex — and pairs absent from the forward adjacency never
appear (count 0). -/
theorem c4_reverse_connectivity (n_vertices : Nat) (gcell_vtx : List (List Nat))
    (hrows : ∀ row ∈ gcell_vtx, ∀ e ∈ row, 1 ≤ e ∧ e ≤ n_vertices)
    (v : Nat) (hv : v < n_vertices) (s : Nat) :
    rowOfCSR0 (_create_vtx_gcells_connect n_vertices gcell_vtx).1
        (_create_vtx_gcells_connect n_vertices gcell_vtx).2 v =
      revRowSpec v 0 gcell_vtx ∧
    List.count (Int.ofNat s)
        (rowOfCSR0 (_create_vtx_gcells_connect n_vertices gcell_vtx).1
          (_create_vtx_gcells_connect n_vertices gcell_vtx).2 v) =
      (if (v+1) ∈ gcell_vtx.getD s [] then 1 else 0) := by
  set evs := dedupEvents 0 gcell_vtx with hevs
  have hrowlt : ∀ ev ∈ evs, ev.1 < n_vertices :=
    fun ev hev => dedupEvents_row_lt n_vertices gcell_vtx hrows 0 ev (hevs ▸ hev)
  have hcnt0 : ∀ r, n_vertices ≤ r → evCount evs r = 0 :=
    fun r hr => evCount_zero_of_rows_lt n_vertices evs hrowlt r hr
  set A := (_reverse_connectivity_idx_loop 0 gcell_vtx
    (fun _ => -1) (fun _ => 0)).2 with hAdef
  set idx := prefixLoop n_vertices A with hidxdef
  have hfst : (_create_vtx_gcells_connect n_vertices gcell_vtx).1 = idx := by
    rw [hidxdef, hAdef]
    rfl
  have hAcount : A = countLoop evs (fun _ => 0) := by
    rw [hAdef, hevs]
    exact rev_idx_loop_spec gcell_vtx 0 (fun _ => -1) (fun _ => 0)
      (fun u => by show (-1 : Int) < Int.ofNat 0; decide)
  have hA0 : A 0 = 0 := by rw [hAcount, countLoop_zero]
  have hAs : ∀ r : Nat, A (r+1) = evCount evs r := by
    intro r
    rw [hAcount, countLoop_succ]
    show 0 + evCount evs r = evCount evs r
    omega
  have hsum : ∀ r : Nat, sumA A r = sumEv evs r := by
    intro r
    induction r with
    | zero =>
      show A 0 = sumEv evs 0
      rw [hA0]
      rfl
    | succ r ih =>
      show sumA A r + A (r+1) = sumEv evs (r+1)
      rw [ih, hAs r, sumEv_succ]
  have hidx : ∀ r, r ≤ n_vertices → idx r = sumEv evs r := by
    intro r hr
    rw [hidxdef, prefixLoop_le n_vertices A r hr, hsum r]
  have hsnd : (_create_vtx_gcells_connect n_vertices gcell_vtx).2 =
      (fillLoop (fun r k => idx r + k) evs (fun _ => 0) (fun _ => 0)).2 := by
    rw [hevs, hidxdef, hAdef]
    show (_reverse_connectivity_lst_loop
      (prefixLoop n_vertices (_reverse_connectivity_idx_loop 0 gcell_vtx
        (fun _ => -1) (fun _ => 0)).2)
      0 gcell_vtx (fun _ => -1) (fun _ => 0) (fun _ => 0)).2.2 = _
    exact rev_lst_loop_spec _ gcell_vtx 0 _ _ _ (fun u => by show (-1 : Int) < Int.ofNat 0; decide)
  have hinj : ∀ r j r' j', j < evCount evs r → j' < evCount evs r' →
      (fun r k => idx r + k) r j = (fun r k => idx r + k) r' j' →
      r = r' ∧ j = j' := by
    intro r j r' j' hj hj' heq
    have hrn : r < n_vertices := by
      by_contra hh
      rw [hcnt0 r (by omega)] at hj
      omega
    have hr'n : r' < n_vertices := by
      by_contra hh
      rw [hcnt0 r' (by omega)] at hj'
      omega
    have h1 := hidx r (by omega)
    have h2 := hidx r' (by omega)
    have heq2 : idx r + j = idx r' + j' := heq
    apply sumEv_inj evs r j r' j' hj hj'
    omega
  obtain ⟨F1, F2, F3⟩ := fillLoop_spec (fun r k => idx r + k)
    (evCount evs) hinj evs (fun _ => 0) (fun _ => 0)
    (fun r => by show 0 + evCount evs r ≤ evCount evs r; omega)
  have hrow : evRow evs v = revRowSpec v 0 gcell_vtx := by
    rw [hevs]
    exact dedupEvents_evRow v gcell_vtx 0 (fun r hr e he => (hrows r hr e he).1)
  have hlen : idx (v+1) - idx v = evCount evs v := by
    rw [hidx v (by omega), hidx (v+1) (by omega), sumEv_succ]
    omega
  have hroweq : rowOfCSR0 (_create_vtx_gcells_connect n_vertices gcell_vtx).1
      (_create_vtx_gcells_connect n_vertices gcell_vtx).2 v =
      revRowSpec v 0 gcell_vtx := by
    rw [hfst, hsnd, rowOfCSR0, hlen]
    have hpt : ∀ j ∈ List.range (evCount evs v),
        (fillLoop (fun r k => idx r + k) evs (fun _ => 0) (fun _ => 0)).2
          (idx v + j) = (evRow evs v).getD j 0 := by
      intro j hj
      rw [List.mem_range] at hj
      have hf := F2 v j hj
      have harg : idx v + j = idx v + (0 + j) := by omega
      rw [harg]
      exact hf
    rw [List.map_congr_left hpt, ← evRow_length evs v, map_getD_range]
    exact hrow
  refine ⟨hroweq, ?_⟩
  rw [hroweq]
  have hcnt := revRowSpec_count v gcell_vtx 0 s (by omega)
  rw [Nat.sub_zero] at hcnt
  exact hcnt

/-- C4 witness: two vertices, forward rows [[1,2,1],[2]] (ghost cell 0
lists vertex 1 twice); vertex 0's reversed row is [0] with each pair
appearing exactly once. -/
theorem c4_reverse_connectivity_witness :
    ((∀ row ∈ [[1, 2, 1], [2]], ∀ e ∈ row, 1 ≤ e ∧ e ≤ 2) ∧ 0 < 2) ∧
    (rowOfCSR0 (_create_vtx_gcells_connect 2 [[1, 2, 1], [2]]).1
        (_create_vtx_gcells_connect 2 [[1, 2, 1], [2]]).2 0 =
      revRowSpec 0 0 [[1, 2, 1], [2]] ∧
    List.count (Int.ofNat 0)
        (rowOfCSR0 (_create_vtx_gcells_connect 2 [[1, 2, 1], [2]]).1
          (_create_vtx_gcells_connect 2 [[1, 2, 1], [2]]).2 0) =
      (if (0+1) ∈ [[1, 2, 1], [2]].getD 0 [] then 1 else 0)) :=
  ⟨⟨by decide, by decide⟩,
    c4_reverse_connectivity 2 [[1, 2, 1], [2]] (by decide) 0 (by decide) 0⟩

/-! ## Claim C5: geometric admissibility filter of redvse -/

theorem tag_vtx_cells_other (ext : Int) (i : Nat) (cells : List Int) :
    ∀ (lst : Nat → Int) (j : Nat), j ≠ i →
      tag_entry_vtx_cells ext i cells lst j = lst j := by
  induction cells with
  | nil => intro lst j _; rfl
  | cons c rest ih =>
    intro lst j h
    rw [tag_entry_vtx_cells, ih _ j h]
    by_cases hc : c = ext ∧ 0 < lst i
    · rw [if_pos hc, updA_ne _ _ _ _ h]
    · rw [if_neg hc]

theorem tag_vtx_cells_nonpos (ext : Int) (i : Nat) (cells : List Int) :
    ∀ (lst : Nat → Int), ¬(0 < lst i) →
      tag_entry_vtx_cells ext i cells lst i = lst i := by
  induction cells with
  | nil => intro lst _; rfl
  | cons c rest ih =>
    intro lst h
    rw [tag_entry_vtx_cells, if_neg (fun hc => h hc.2)]
    exact ih lst h


theorem tag_vtx_cells_at (ext : Int) (i : Nat) (cells : List Int) :
    ∀ (lst : Nat → Int), 0 < ext → lst i = ext →
      tag_entry_vtx_cells ext i cells lst i =
        (if ext ∈ cells then -ext else ext) := by
  induction cells with
  | nil =>
    intro lst _ hv
    show lst i = if ext ∈ ([] : List Int) then -ext else ext
    rw [if_neg (List.not_mem_nil ext), hv]
  | cons c rest ih =>
    intro lst hpos hv
    rw [tag_entry_vtx_cells]
    by_cases hc : c = ext
    · have hcond : c = ext ∧ 0 < lst i := ⟨hc, hv ▸ hpos⟩
      rw [if_pos hcond]
      have hval : updA lst i (-(lst i)) i = -ext := by rw [updA_same, hv]
      have hres := tag_vtx_cells_nonpos ext i rest (updA lst i (-(lst i)))
        (by rw [hval]; omega)
      rw [hres, hval, if_pos (hc ▸ List.mem_cons_self c rest)]
    · rw [if_neg (fun hh => hc hh.1), ih lst hpos hv]
      by_cases hm : ext ∈ rest
      · rw [if_pos hm, if_pos (List.mem_cons_of_mem _ hm)]
      · rw [if_neg hm, if_neg (fun hh =>
          (List.mem_cons.mp hh).elim (fun he => hc he.symm) hm)]

theorem tag_vertices_other (vtx_cells : Nat → List Int) (ext : Int) (i : Nat)
    (vns : List Nat) :
    ∀ (lst : Nat → Int) (j : Nat), j ≠ i →
      tag_entry_vertices vtx_cells ext i vns lst j = lst j := by
  induction vns with
  | nil => intro lst j _; rfl
  | cons vn rest ih =>
    intro lst j h
    rw [tag_entry_vertices, ih _ j h, tag_vtx_cells_other ext i _ lst j h]

theorem tag_vertices_nonpos (vtx_cells : Nat → List Int) (ext : Int) (i : Nat)
    (vns : List Nat) :
    ∀ (lst : Nat → Int), ¬(0 < lst i) →
      tag_entry_vertices vtx_cells ext i vns lst i = lst i := by
  induction vns with
  | nil => intro lst _; rfl
  | cons vn rest ih =>
    intro lst h
    rw [tag_entry_vertices]
    have h1 := tag_vtx_cells_nonpos ext i (vtx_cells (vn - 1)) lst h
    rw [ih _ (by rw [h1]; exact h), h1]

theorem tag_vertices_at (vtx_cells : Nat → List Int) (ext : Int) (i : Nat)
    (vns : List Nat) :
    ∀ (lst : Nat → Int), 0 < ext → lst i = ext →
      tag_entry_vertices vtx_cells ext i vns lst i =
        (if matchVtxB vtx_cells vns ext = true then -ext else ext) := by
  induction vns with
  | nil =>
    intro lst _ hv
    show lst i = if matchVtxB vtx_cells [] ext = true then -ext else ext
    rw [hv]
    rfl
  | cons vn rest ih =>
    intro lst hpos hv
    rw [tag_entry_vertices]
    have hval := tag_vtx_cells_at ext i (vtx_cells (vn - 1)) lst hpos hv
    by_cases hm : ext ∈ vtx_cells (vn - 1)
    · rw [if_pos hm] at hval
      have hres := tag_vertices_nonpos vtx_cells ext i rest
        (tag_entry_vtx_cells ext i (vtx_cells (vn - 1)) lst)
        (by rw [hval]; omega)
      rw [hres, hval]
      have hmB : matchVtxB vtx_cells (vn :: rest) ext = true := by
        simp [matchVtxB]
        exact Or.inl hm
      rw [if_pos hmB]
    · rw [if_neg hm] at hval
      rw [ih _ hpos hval]
      have hmB : matchVtxB vtx_cells (vn :: rest) ext =
          matchVtxB vtx_cells rest ext := by
        simp [matchVtxB, hm]
      rw [hmB]

theorem tagStep_nonpos (vtx_cells : Nat → List Int) (fvtx : List Nat)
    (v : Int) (h : ¬(0 < v)) : tagStep vtx_cells fvtx v = v := by
  rw [tagStep, if_neg (fun hh => h hh.1)]

theorem tagStep_idem (vtx_cells : Nat → List Int) (fvtx : List Nat) (v : Int) :
    tagStep vtx_cells fvtx (tagStep vtx_cells fvtx v) =
      tagStep vtx_cells fvtx v := by
  by_cases h : 0 < v ∧ matchVtxB vtx_cells fvtx v = true
  · have h1 : tagStep vtx_cells fvtx v = -v := by rw [tagStep, if_pos h]
    have h2 : ¬(0 < -v) := by
      have := h.1
      omega
    rw [h1, tagStep_nonpos _ _ _ h2]
  · have h1 : tagStep vtx_cells fvtx v = v := by rw [tagStep, if_neg h]
    rw [h1, h1]

theorem tag_positions_spec (vtx_cells : Nat → List Int) (fvtx : List Nat) :
    ∀ (ps : List Nat) (lst : Nat → Int) (j : Nat),
      tag_cells_positions vtx_cells fvtx ps lst j =
        (if j ∈ ps then tagStep vtx_cells fvtx (lst j) else lst j) := by
  intro ps
  induction ps with
  | nil => intro lst j; simp [tag_cells_positions]
  | cons i rest ih =>
    intro lst j
    rw [tag_cells_positions]
    have hlst1_other : ∀ k, k ≠ i →
        (if 0 < lst i then tag_entry_vertices vtx_cells (lst i) i fvtx lst
          else lst) k = lst k := by
      intro k hk
      by_cases hp : 0 < lst i
      · rw [if_pos hp, tag_vertices_other vtx_cells (lst i) i fvtx lst k hk]
      · rw [if_neg hp]
    have hlst1_at :
        (if 0 < lst i then tag_entry_vertices vtx_cells (lst i) i fvtx lst
          else lst) i = tagStep vtx_cells fvtx (lst i) := by
      by_cases hp : 0 < lst i
      · rw [if_pos hp, tag_vertices_at vtx_cells (lst i) i fvtx lst hp rfl,
          tagStep]
        by_cases hm : matchVtxB vtx_cells fvtx (lst i) = true
        · rw [if_pos hm, if_pos ⟨hp, hm⟩]
        · rw [if_neg hm, if_neg (fun hh => hm hh.2)]
      · rw [if_neg hp, tagStep, if_neg (fun hh => hp hh.1)]
    rw [ih]
    by_cases hj : j ∈ i :: rest
    · rw [if_pos hj]
      by_cases hji : j = i
      · have hat : (if 0 < lst i then
            tag_entry_vertices vtx_cells (lst i) i fvtx lst else lst) j =
              tagStep vtx_cells fvtx (lst j) := by
          rw [hji]
          exact hlst1_at
        by_cases hir : j ∈ rest
        · rw [if_pos hir, hat, tagStep_idem]
        · rw [if_neg hir, hat]
      · have hjr : j ∈ rest := (List.mem_cons.mp hj).resolve_left hji
        rw [if_pos hjr, hlst1_other j hji]
    · have hji : j ≠ i := fun h => hj (h ▸ List.mem_cons_self _ _)
      have hjr : j ∉ rest := fun h => hj (List.mem_cons_of_mem _ h)
      rw [if_neg hj, if_neg hjr, hlst1_other j hji]

theorem tag_cells_spec (n_cells : Nat) (idx : Nat → Nat)
    (vtx_cells : Nat → List Int) (fvtx : List Nat) (cell_id : Nat)
    (lst : Nat → Int) (j : Nat) :
    _tag_cells n_cells idx vtx_cells fvtx cell_id lst j =
      (if cell_id < n_cells ∧ idx cell_id - 1 ≤ j ∧ j < idx (cell_id+1) - 1
        then tagStep vtx_cells fvtx (lst j) else lst j) := by
  rw [_tag_cells]
  by_cases hc : cell_id < n_cells
  · rw [if_pos hc, tag_positions_spec]
    have hmem : (j ∈ List.range' (idx cell_id - 1)
        ((idx (cell_id+1) - 1) - (idx cell_id - 1))) ↔
        (idx cell_id - 1 ≤ j ∧ j < idx (cell_id+1) - 1) := by
      rw [List.mem_range'_1]
      omega
    by_cases hin : idx cell_id - 1 ≤ j ∧ j < idx (cell_id+1) - 1
    · rw [if_pos (hmem.mpr hin), if_pos ⟨hc, hin.1, hin.2⟩]
    · rw [if_neg (fun hm => hin (hmem.mp hm)),
        if_neg (fun hh => hin ⟨hh.2.1, hh.2.2⟩)]
  · rw [if_neg hc, if_neg (fun hh => hc hh.1)]

theorem redvse_face_step (n_cells : Nat) (idx : Nat → Nat)
    (vtx_cells : Nat → List Int) (face : (Nat × Nat) × List Nat) (adm : Bool)
    (L : Nat → Int) (T : Nat → Bool) (lst : Nat → Int)
    (hT : ∀ j, T j = true → 0 < L j)
    (hrep : ∀ j, lst j = if T j = true then -(L j) else L j) :
    ∀ j, (if adm = true then
        _tag_cells n_cells idx vtx_cells face.2 (face.1.2 - 1)
          (_tag_cells n_cells idx vtx_cells face.2 (face.1.1 - 1) lst)
        else lst) j =
      (if (T j || (adm && face_confirms n_cells idx vtx_cells face j (L j)))
          = true
       then -(L j) else L j) := by
  intro j
  by_cases hadm : adm = true
  · rw [if_pos hadm, hadm, Bool.true_and, tag_cells_spec, tag_cells_spec,
      hrep j]
    by_cases hTj : T j = true
    · have hLj : 0 < L j := hT j hTj
      rw [hTj, Bool.true_or, if_pos rfl]
      have hneg : tagStep vtx_cells face.2 (-(L j)) = -(L j) :=
        tagStep_nonpos _ _ _ (by omega)
      by_cases hS1 : (face.1.1 - 1 < n_cells ∧
          idx (face.1.1 - 1) - 1 ≤ j ∧ j < idx (face.1.1 - 1 + 1) - 1)
      · rw [if_pos hS1, hneg]
        by_cases hS2 : (face.1.2 - 1 < n_cells ∧
            idx (face.1.2 - 1) - 1 ≤ j ∧ j < idx (face.1.2 - 1 + 1) - 1)
        · rw [if_pos hS2, hneg]
        · rw [if_neg hS2]
      · rw [if_neg hS1]
        by_cases hS2 : (face.1.2 - 1 < n_cells ∧
            idx (face.1.2 - 1) - 1 ≤ j ∧ j < idx (face.1.2 - 1 + 1) - 1)
        · rw [if_pos hS2, hneg]
        · rw [if_neg hS2]
    · have hTf : T j = false := Bool.eq_false_iff.mpr hTj
      rw [hTf, Bool.false_or, if_neg Bool.false_ne_true]
      by_cases hP : 0 < L j
      · by_cases hM : matchVtxB vtx_cells face.2 (L j) = true
        · have hts : tagStep vtx_cells face.2 (L j) = -(L j) := by
            rw [tagStep, if_pos ⟨hP, hM⟩]
          have hneg : tagStep vtx_cells face.2 (-(L j)) = -(L j) :=
            tagStep_nonpos _ _ _ (by omega)
          have hfc : face_confirms n_cells idx vtx_cells face j (L j) =
              ((decide (face.1.1 - 1 < n_cells) &&
                decide (idx (face.1.1 - 1) - 1 ≤ j) &&
                decide (j < idx (face.1.1 - 1 + 1) - 1)) ||
               (decide (face.1.2 - 1 < n_cells) &&
                decide (idx (face.1.2 - 1) - 1 ≤ j) &&
                decide (j < idx (face.1.2 - 1 + 1) - 1))) := by
            simp [face_confirms, hP, hM]
          have hchunk1 : (decide (face.1.1 - 1 < n_cells) &&
              decide (idx (face.1.1 - 1) - 1 ≤ j) &&
              decide (j < idx (face.1.1 - 1 + 1) - 1)) = true ↔
              (face.1.1 - 1 < n_cells ∧
                idx (face.1.1 - 1) - 1 ≤ j ∧ j < idx (face.1.1 - 1 + 1) - 1) := by
            simp [and_assoc]
          have hchunk2 : (decide (face.1.2 - 1 < n_cells) &&
              decide (idx (face.1.2 - 1) - 1 ≤ j) &&
              decide (j < idx (face.1.2 - 1 + 1) - 1)) = true ↔
              (face.1.2 - 1 < n_cells ∧
                idx (face.1.2 - 1) - 1 ≤ j ∧ j < idx (face.1.2 - 1 + 1) - 1) := by
            simp [and_assoc]
          rw [hfc]
          by_cases hS1 : (face.1.1 - 1 < n_cells ∧
              idx (face.1.1 - 1) - 1 ≤ j ∧ j < idx (face.1.1 - 1 + 1) - 1)
          · rw [if_pos hS1, hts, hneg, hchunk1.mpr hS1, Bool.true_or,
              if_pos rfl]
            by_cases hS2 : (face.1.2 - 1 < n_cells ∧
                idx (face.1.2 - 1) - 1 ≤ j ∧ j < idx (face.1.2 - 1 + 1) - 1)
            · rw [if_pos hS2]
            · rw [if_neg hS2]
          · rw [if_neg hS1,
              Bool.eq_false_iff.mpr (fun h => hS1 (hchunk1.mp h)),
              Bool.false_or]
            by_cases hS2 : (face.1.2 - 1 < n_cells ∧
                idx (face.1.2 - 1) - 1 ≤ j ∧ j < idx (face.1.2 - 1 + 1) - 1)
            · rw [if_pos hS2, hts, hchunk2.mpr hS2, if_pos rfl]
            · rw [if_neg hS2,
                Bool.eq_false_iff.mpr (fun h => hS2 (hchunk2.mp h)),
                if_neg Bool.false_ne_true]
        · have hts : tagStep vtx_cells face.2 (L j) = L j := by
            rw [tagStep, if_neg (fun hh => hM hh.2)]
          have hfc : face_confirms n_cells idx vtx_cells face j (L j) =
              false := by
            simp [face_confirms, hM]
          rw [hts, ite_self, hts, ite_self, hfc, if_neg Bool.false_ne_true]
      · have hts : tagStep vtx_cells face.2 (L j) = L j :=
          tagStep_nonpos _ _ _ hP
        have hfc : face_confirms n_cells idx vtx_cells face j (L j) =
            false := by
          simp [face_confirms, hP]
        rw [hts, ite_self, hts, ite_self, hfc, if_neg Bool.false_ne_true]
  · have haf : adm = false := Bool.eq_false_iff.mpr hadm
    rw [haf, if_neg Bool.false_ne_true, hrep j, Bool.false_and, Bool.or_false]

theorem redvse_tag_spec (n_cells : Nat) (idx : Nat → Nat)
    (vtx_cells : Nat → List Int) (admissible : Nat → Bool) :
    ∀ (faces : List ((Nat × Nat) × List Nat)) (f : Nat) (L : Nat → Int)
      (T : Nat → Bool) (lst : Nat → Int),
      (∀ j, T j = true → 0 < L j) →
      (∀ j, lst j = if T j = true then -(L j) else L j) →
      ∀ j, redvse_tag_faces n_cells idx vtx_cells admissible f faces lst j =
        (if (T j ||
            tagged_upto n_cells idx vtx_cells admissible f faces j (L j)) = true
         then -(L j) else L j) := by
  intro faces
  induction faces with
  | nil =>
    intro f L T lst hT hrep j
    rw [redvse_tag_faces, hrep j, tagged_upto, Bool.or_false]
  | cons face rest ih =>
    intro f L T lst hT hrep j
    rw [redvse_tag_faces]
    have hstep := redvse_face_step n_cells idx vtx_cells face (admissible f)
      L T lst hT hrep
    have hT1 : ∀ j', (T j' || (admissible f &&
        face_confirms n_cells idx vtx_cells face j' (L j'))) = true →
        0 < L j' := by
      intro j' hj
      by_cases hT' : T j' = true
      · exact hT j' hT'
      · have hTf' : T j' = false := Bool.eq_false_iff.mpr hT'
        rw [hTf', Bool.false_or] at hj
        simp only [face_confirms, Bool.and_eq_true, Bool.or_eq_true,
          decide_eq_true_eq] at hj
        exact hj.2.1.2
    have h2 := ih (f+1) L
      (fun j' => T j' || (admissible f &&
        face_confirms n_cells idx vtx_cells face j' (L j')))
      (if admissible f = true then
        _tag_cells n_cells idx vtx_cells face.2 (face.1.2 - 1)
          (_tag_cells n_cells idx vtx_cells face.2 (face.1.1 - 1) lst)
        else lst)
      hT1 hstep j
    rw [h2]
    show (if ((T j || (admissible f &&
        face_confirms n_cells idx vtx_cells face j (L j))) ||
        tagged_upto n_cells idx vtx_cells admissible (f+1) rest j (L j)) = true
      then -(L j) else L j) = _
    rw [tagged_upto, Bool.or_assoc]

theorem bool_eq_of_iff (a b : Bool) (h : a = true ↔ b = true) : a = b := by
  cases ha : a
  · cases hb : b
    · rfl
    · have h2 := h.mpr hb
      rw [ha] at h2
      exact absurd h2 Bool.false_ne_true
  · exact (h.mp ha).symm

theorem mono_chain (O : Nat → Nat) (lo hi : Nat)
    (h : ∀ m, lo ≤ m → m < hi → O m ≤ O (m+1)) :
    ∀ (d a : Nat), lo ≤ a → a + d ≤ hi → O a ≤ O (a + d) := by
  intro d
  induction d with
  | zero => intro a _ _; exact Nat.le_refl _
  | succ d ih =>
    intro a ha hb
    have h1 := ih a ha (by omega)
    have h2 := h (a + d) (by omega) (by omega)
    exact Nat.le_trans h1 h2

theorem tagged_confirms (n_cells : Nat) (idx : Nat → Nat)
    (vtx_cells : Nat → List Int) (admissible : Nat → Bool)
    (hmono : ∀ m, m < n_cells → idx m ≤ idx (m+1))
    (c : Nat) (hc : c < n_cells) (p : Nat)
    (hp1 : idx c - 1 ≤ p) (hp2 : p < idx (c+1) - 1) (v : Int) (hv : 0 < v) :
    ∀ (faces : List ((Nat × Nat) × List Nat)) (f : Nat),
      tagged_upto n_cells idx vtx_cells admissible f faces p v =
        confirmsB vtx_cells admissible c v f faces := by
  have hside : ∀ ci : Nat,
      (ci < n_cells ∧ idx ci - 1 ≤ p ∧ p < idx (ci+1) - 1) ↔ ci = c := by
    intro ci
    constructor
    · rintro ⟨hci, hlo, hhi⟩
      by_contra hne
      rcases Nat.lt_or_ge ci c with hlt | hge
      · have hch : idx (ci+1) ≤ idx c := by
          have hm := mono_chain idx 0 n_cells (fun m _ hm2 => hmono m hm2)
            (c - (ci+1)) (ci+1) (by omega) (by omega)
          have he : ci + 1 + (c - (ci+1)) = c := by omega
          rw [he] at hm
          exact hm
        omega
      · have hgt : c < ci := by omega
        have hch : idx (c+1) ≤ idx ci := by
          have hm := mono_chain idx 0 n_cells (fun m _ hm2 => hmono m hm2)
            (ci - (c+1)) (c+1) (by omega) (by omega)
          have he : c + 1 + (ci - (c+1)) = ci := by omega
          rw [he] at hm
          exact hm
        omega
    · rintro rfl
      exact ⟨hc, hp1, hp2⟩
  intro faces
  induction faces with
  | nil => intro f; rfl
  | cons face rest ih =>
    intro f
    rw [tagged_upto, confirmsB, ih (f+1)]
    congr 1
    have hd1 : (decide (face.1.1 - 1 < n_cells) &&
        decide (idx (face.1.1 - 1) - 1 ≤ p) &&
        decide (p < idx (face.1.1 - 1 + 1) - 1)) =
        decide (face.1.1 - 1 = c) := by
      apply bool_eq_of_iff
      simp only [Bool.and_eq_true, decide_eq_true_eq, and_assoc]
      exact hside (face.1.1 - 1)
    have hd2 : (decide (face.1.2 - 1 < n_cells) &&
        decide (idx (face.1.2 - 1) - 1 ≤ p) &&
        decide (p < idx (face.1.2 - 1 + 1) - 1)) =
        decide (face.1.2 - 1 = c) := by
      apply bool_eq_of_iff
      simp only [Bool.and_eq_true, decide_eq_true_eq, and_assoc]
      exact hside (face.1.2 - 1)
    have hfc : face_confirms n_cells idx vtx_cells face p v =
        ((decide (face.1.1 - 1 = c) || decide (face.1.2 - 1 = c)) &&
          matchVtxB vtx_cells face.2 v) := by
      simp only [face_confirms]
      rw [hd1, hd2, decide_eq_true hv, Bool.and_true]
    rw [hfc, Bool.and_assoc]

theorem filter_map_tag (lst2 L : Nat → Int) (g : Int → Bool) :
    ∀ ps : List Nat,
      (∀ p ∈ ps, 0 < L p ∧ lst2 p = if g (L p) = true then L p else -(L p)) →
      (ps.map lst2).filter (fun x => decide (0 < x)) = (ps.map L).filter g := by
  intro ps
  induction ps with
  | nil => intro _; rfl
  | cons p rest ih =>
    intro h
    have hp := h p (List.mem_cons_self _ _)
    have hrest := ih (fun q hq => h q (List.mem_cons_of_mem _ hq))
    rw [List.map_cons, List.map_cons, List.filter_cons, List.filter_cons]
    by_cases hg : g (L p) = true
    · have h1 : lst2 p = L p := by rw [hp.2, if_pos hg]
      rw [hg, h1, decide_eq_true hp.1, if_pos rfl, if_pos rfl, hrest]
    · have hgf : g (L p) = false := Bool.eq_false_iff.mpr hg
      have h1 : lst2 p = -(L p) := by rw [hp.2, if_neg hg]
      have hkf : decide (0 < lst2 p) = false := by
        rw [h1]
        apply decide_eq_false
        have := hp.1
        omega
      rw [hgf, hkf, if_neg Bool.false_ne_true, if_neg Bool.false_ne_true, hrest]

theorem compact_row_spec :
    ∀ (n a : Nat) (lst : Nat → Int) (w del : Nat), w ≤ a →
      ((compact_row (List.range' a n) lst w del).2.1 =
        w + (((List.range' a n).map lst).filter
          (fun x => decide (0 < x))).length) ∧
      ((compact_row (List.range' a n) lst w del).2.2 =
        del + (n - (((List.range' a n).map lst).filter
          (fun x => decide (0 < x))).length)) ∧
      (∀ j, j < (((List.range' a n).map lst).filter
          (fun x => decide (0 < x))).length →
        (compact_row (List.range' a n) lst w del).1 (w + j) =
          (((List.range' a n).map lst).filter
            (fun x => decide (0 < x))).getD j 0) ∧
      (∀ q, (q < w ∨ w + (((List.range' a n).map lst).filter
          (fun x => decide (0 < x))).length ≤ q) →
        (compact_row (List.range' a n) lst w del).1 q = lst q) := by
  intro n
  induction n with
  | zero =>
    intro a lst w del _
    have h0 : List.range' a 0 = ([] : List Nat) := rfl
    rw [h0]
    refine ⟨by simp [compact_row], by simp [compact_row], ?_, fun q _ => rfl⟩
    intro j hj
    simp at hj
  | succ n ih =>
    intro a lst w del hw
    rw [List.range'_succ, List.map_cons, List.filter_cons]
    have hlf : (((List.range' (a+1) n).map lst).filter
        (fun x => decide (0 < x))).length ≤ n := by
      have h1 := List.length_filter_le (fun x => decide (0 < x))
        ((List.range' (a+1) n).map lst)
      rw [List.length_map, List.length_range'] at h1
      exact h1
    by_cases hpa : 0 < lst a
    · have hkeep : decide (0 < lst a) = true := decide_eq_true hpa
      rw [hkeep, if_pos rfl]
      have hstep : compact_row (a :: List.range' (a+1) n) lst w del =
          compact_row (List.range' (a+1) n) (updA lst w (lst a)) (w+1) del := by
        rw [compact_row, if_pos hpa]
      rw [hstep]
      have hmapc : (List.range' (a+1) n).map (updA lst w (lst a)) =
          (List.range' (a+1) n).map lst := by
        apply List.map_congr_left
        intro p hp
        rw [List.mem_range'_1] at hp
        exact updA_ne _ _ _ _ (by omega)
      obtain ⟨C1, C2, C3, C4⟩ := ih (a+1) (updA lst w (lst a)) (w+1) del
        (by omega)
      rw [hmapc] at C1 C2 C3 C4
      refine ⟨?_, ?_, ?_, ?_⟩
      · rw [C1, List.length_cons]
        omega
      · rw [C2, List.length_cons]
        omega
      · intro j hj
        match j with
        | 0 =>
          have hq := C4 w (Or.inl (by omega))
          have hw0 : w + 0 = w := by omega
          rw [hw0, hq, updA_same]
          rfl
        | Nat.succ j' =>
          rw [List.length_cons] at hj
          have hj' : j' <
              (((List.range' (a+1) n).map lst).filter
                (fun x => decide (0 < x))).length := by omega
          have hv := C3 j' hj'
          have harg : w + (j' + 1) = (w + 1) + j' := by omega
          rw [harg, hv]
          rfl
      · intro q hq
        rw [List.length_cons] at hq
        have hq2 : q < w + 1 ∨ (w + 1) +
            (((List.range' (a+1) n).map lst).filter
              (fun x => decide (0 < x))).length ≤ q := by omega
        rw [C4 q hq2, updA_ne _ _ _ _ (by omega)]
    · have hkf : decide (0 < lst a) = false := decide_eq_false hpa
      rw [hkf, if_neg Bool.false_ne_true]
      have hstep : compact_row (a :: List.range' (a+1) n) lst w del =
          compact_row (List.range' (a+1) n) lst w (del+1) := by
        rw [compact_row, if_neg hpa]
      rw [hstep]
      obtain ⟨C1, C2, C3, C4⟩ := ih (a+1) lst w (del+1) (by omega)
      refine ⟨C1, ?_, C3, C4⟩
      rw [C2]
      omega

theorem compact_loop_spec (O : Nat → Nat) (N : Nat)
    (hOpos : ∀ m, m ≤ N → 1 ≤ O m) :
    ∀ (k c₀ : Nat) (idxa : Nat → Nat) (lst : Nat → Int) (w del : Nat),
      c₀ + k ≤ N →
      (∀ m, c₀ ≤ m → m < c₀ + k → O m ≤ O (m+1)) →
      idxa c₀ = O c₀ - del →
      (∀ m, c₀ < m → idxa m = O m) →
      del + 1 ≤ O c₀ →
      w = O c₀ - 1 - del →
      (∀ m, m ≤ c₀ ∨ c₀ + k < m →
        (compact_loop (List.range' c₀ k) lst idxa (O c₀ - 1) w del).2 m =
          idxa m) ∧
      (∀ c, c₀ ≤ c → c < c₀ + k →
        (compact_loop (List.range' c₀ k) lst idxa (O c₀ - 1) w del).2 (c+1) =
          (compact_loop (List.range' c₀ k) lst idxa (O c₀ - 1) w del).2 c +
          (((List.range' (O c - 1) ((O (c+1) - 1) - (O c - 1))).map lst).filter
            (fun x => decide (0 < x))).length) ∧
      (∀ c, c₀ ≤ c → c < c₀ + k → ∀ j,
        j < (((List.range' (O c - 1) ((O (c+1) - 1) - (O c - 1))).map lst).filter
          (fun x => decide (0 < x))).length →
        (compact_loop (List.range' c₀ k) lst idxa (O c₀ - 1) w del).1
          ((compact_loop (List.range' c₀ k) lst idxa (O c₀ - 1) w del).2 c
            - 1 + j) =
          (((List.range' (O c - 1) ((O (c+1) - 1) - (O c - 1))).map lst).filter
            (fun x => decide (0 < x))).getD j 0) ∧
      (∀ q, q < w →
        (compact_loop (List.range' c₀ k) lst idxa (O c₀ - 1) w del).1 q =
          lst q) := by
  intro k
  induction k with
  | zero =>
    intro c₀ idxa lst w del _ _ _ _ _ _
    exact ⟨fun m _ => rfl, fun c hc1 hc2 => by omega,
      fun c hc1 hc2 => by omega, fun q _ => rfl⟩
  | succ k ih =>
    intro c₀ idxa lst w del hNk hmono hA hB hdel hw
    have hOc1 : idxa (c₀+1) = O (c₀+1) := hB (c₀+1) (by omega)
    have hm0 : O c₀ ≤ O (c₀+1) := hmono c₀ (by omega) (by omega)
    have hO0 : 1 ≤ O c₀ := hOpos c₀ (by omega)
    have hO1 : 1 ≤ O (c₀+1) := hOpos (c₀+1) (by omega)
    obtain ⟨R1, R2, R3, R4⟩ := compact_row_spec
      ((O (c₀+1) - 1) - (O c₀ - 1)) (O c₀ - 1) lst w del (by omega)
    have hKlen : (((List.range' (O c₀ - 1)
        ((O (c₀+1) - 1) - (O c₀ - 1))).map lst).filter
        (fun x => decide (0 < x))).length ≤ (O (c₀+1) - 1) - (O c₀ - 1) := by
      have h1 := List.length_filter_le (fun x => decide (0 < x))
        ((List.range' (O c₀ - 1) ((O (c₀+1) - 1) - (O c₀ - 1))).map lst)
      rw [List.length_map, List.length_range'] at h1
      exact h1
    have hstep : compact_loop (List.range' c₀ (k+1)) lst idxa (O c₀ - 1) w del =
        compact_loop (List.range' (c₀+1) k)
          (compact_row (List.range' (O c₀ - 1)
            ((idxa (c₀+1) - 1) - (O c₀ - 1))) lst w del).1
          (updA idxa (c₀+1) (idxa (c₀+1) -
            (compact_row (List.range' (O c₀ - 1)
              ((idxa (c₀+1) - 1) - (O c₀ - 1))) lst w del).2.2))
          (idxa (c₀+1) - 1)
          (compact_row (List.range' (O c₀ - 1)
            ((idxa (c₀+1) - 1) - (O c₀ - 1))) lst w del).2.1
          (compact_row (List.range' (O c₀ - 1)
            ((idxa (c₀+1) - 1) - (O c₀ - 1))) lst w del).2.2 := by
      rw [List.range'_succ]
      rfl
    rw [hOc1] at hstep
    set t := compact_row (List.range' (O c₀ - 1)
      ((O (c₀+1) - 1) - (O c₀ - 1))) lst w del with ht
    have hdel' : t.2.2 + 1 ≤ O (c₀+1) := by rw [R2]; omega
    have hweq : t.2.1 = O (c₀+1) - 1 - t.2.2 := by rw [R1, R2]; omega
    have hA' : updA idxa (c₀+1) (O (c₀+1) - t.2.2) (c₀+1) =
        O (c₀+1) - t.2.2 := updA_same _ _ _
    have hB' : ∀ m, c₀+1 < m →
        updA idxa (c₀+1) (O (c₀+1) - t.2.2) m = O m := by
      intro m hm
      rw [updA_ne _ _ _ _ (by omega), hB m (by omega)]
    obtain ⟨I1, I2, I3, I4⟩ := ih (c₀+1)
      (updA idxa (c₀+1) (O (c₀+1) - t.2.2)) t.1 t.2.1 t.2.2
      (by omega)
      (fun m hm1 hm2 => hmono m (by omega) (by omega))
      hA' hB' hdel' hweq
    have hmapc : ∀ c, c₀+1 ≤ c → c < c₀ + (k+1) →
        (List.range' (O c - 1) ((O (c+1) - 1) - (O c - 1))).map t.1 =
        (List.range' (O c - 1) ((O (c+1) - 1) - (O c - 1))).map lst := by
      intro c hc1 hc2
      apply List.map_congr_left
      intro p hp
      rw [List.mem_range'_1] at hp
      have hOc : O (c₀+1) ≤ O c := by
        have hm := mono_chain O c₀ (c₀ + (k+1))
          (fun m hm1 hm2 => hmono m hm1 hm2) (c - (c₀+1)) (c₀+1)
          (by omega) (by omega)
        have he : c₀ + 1 + (c - (c₀+1)) = c := by omega
        rw [he] at hm
        exact hm
      apply R4
      right
      omega
    rw [hstep]
    refine ⟨?_, ?_, ?_, ?_⟩
    · intro m hm
      rcases hm with hm | hm
      · rw [I1 m (Or.inl (by omega)), updA_ne _ _ _ _ (by omega)]
      · rw [I1 m (Or.inr (by omega)), updA_ne _ _ _ _ (by omega)]
    · intro c hc1 hc2
      by_cases hcc : c = c₀
      · subst hcc
        rw [I1 (c+1) (Or.inl (by omega)), updA_same,
          I1 c (Or.inl (by omega)), updA_ne _ _ _ _ (by omega), hA, R2]
        omega
      · have hc1' : c₀ + 1 ≤ c := by omega
        rw [I2 c hc1' (by omega), hmapc c hc1' hc2]
    · intro c hc1 hc2 j hj
      by_cases hcc : c = c₀
      · subst hcc
        have h2c : (compact_loop (List.range' (c+1) k) t.1
            (updA idxa (c+1) (O (c+1) - t.2.2)) (O (c+1) - 1)
            t.2.1 t.2.2).2 c = O c - del := by
          rw [I1 c (Or.inl (by omega)), updA_ne _ _ _ _ (by omega), hA]
        rw [h2c]
        have hps : O c - del - 1 + j = w + j := by omega
        rw [hps]
        have hbound : w + j < t.2.1 := by rw [R1]; omega
        rw [I4 (w + j) hbound]
        exact R3 j hj
      · have hc1' : c₀ + 1 ≤ c := by omega
        rw [← hmapc c hc1' hc2] at hj
        have hv := I3 c hc1' (by omega) j hj
        rw [hmapc c hc1' hc2] at hv
        exact hv
    · intro q hq
      have hqb : q < t.2.1 := by rw [R1]; omega
      rw [I4 q hqb]
      apply R4
      left
      exact hq

/-- C5 (confirmed; the floating-point cosine test is abstracted as the
per-face boolean `admissible`): after the redvse filter phases (tagging
by admissible faces, global sign flip, in-place compaction), each local
cell c's row retains exactly those entries e — in their original
relative order — for which some admissible face has c among its two
adjoining cells and a vertex whose vertex→cells adjacency contains e,
and the index array is compacted to bracket exactly the retained
entries. -/
theorem c5_redvse_filter (n_cells : Nat) (faces : List ((Nat × Nat) × List Nat))
    (vtx_cells : Nat → List Int) (admissible : Nat → Bool)
    (idx : Nat → Nat) (L : Nat → Int)
    (hidx0 : idx 0 = 1)
    (hmono : ∀ m, m < n_cells → idx m ≤ idx (m+1))
    (hpos1 : ∀ m, m ≤ n_cells → 1 ≤ idx m)
    (hposL : ∀ p, p < idx n_cells - 1 → 0 < L p)
    (c : Nat) (hc : c < n_cells) :
    rowOfCSR1 (redvse_filter n_cells faces vtx_cells admissible idx L).1
        (redvse_filter n_cells faces vtx_cells admissible idx L).2 c =
      (rowOfCSR1 idx L c).filter
        (fun e => confirmsB vtx_cells admissible c e 0 faces) ∧
    (redvse_filter n_cells faces vtx_cells admissible idx L).1 (c+1) =
      (redvse_filter n_cells faces vtx_cells admissible idx L).1 c +
        ((rowOfCSR1 idx L c).filter
          (fun e => confirmsB vtx_cells admissible c e 0 faces)).length := by
  have htag : ∀ j, redvse_tag_faces n_cells idx vtx_cells admissible 0 faces L j =
      (if tagged_upto n_cells idx vtx_cells admissible 0 faces j (L j) = true
       then -(L j) else L j) := by
    intro j
    have h := redvse_tag_spec n_cells idx vtx_cells admissible faces 0 L
      (fun _ => false) L (fun j' hj' => absurd hj' Bool.false_ne_true)
      (fun j' => (if_neg Bool.false_ne_true).symm) j
    rw [h]
    show (if ((false : Bool) ||
        tagged_upto n_cells idx vtx_cells admissible 0 faces j (L j)) = true
      then -(L j) else L j) = _
    rw [Bool.false_or]
  have hflip : ∀ p, p < idx n_cells - 1 →
      flip_all (idx n_cells - 1)
        (redvse_tag_faces n_cells idx vtx_cells admissible 0 faces L) p =
      (if tagged_upto n_cells idx vtx_cells admissible 0 faces p (L p) = true
       then L p else -(L p)) := by
    intro p hp
    show (if p < idx n_cells - 1 then
        -(redvse_tag_faces n_cells idx vtx_cells admissible 0 faces L p)
      else redvse_tag_faces n_cells idx vtx_cells admissible 0 faces L p) = _
    rw [if_pos hp, htag p]
    by_cases ht : tagged_upto n_cells idx vtx_cells admissible 0 faces p (L p)
        = true
    · rw [if_pos ht, if_pos ht, neg_neg]
    · rw [if_neg ht, if_neg ht]
  have hrowsub : idx (c+1) - 1 ≤ idx n_cells - 1 := by
    have hm := mono_chain idx 0 n_cells (fun m _ hm2 => hmono m hm2)
      (n_cells - (c+1)) (c+1) (by omega) (by omega)
    have he : c + 1 + (n_cells - (c+1)) = n_cells := by omega
    rw [he] at hm
    omega
  have hrowchar : ∀ p, idx c - 1 ≤ p → p < idx (c+1) - 1 →
      0 < L p ∧
      flip_all (idx n_cells - 1)
        (redvse_tag_faces n_cells idx vtx_cells admissible 0 faces L) p =
      (if confirmsB vtx_cells admissible c (L p) 0 faces = true
       then L p else -(L p)) := by
    intro p hp1 hp2
    have hplt : p < idx n_cells - 1 := by omega
    have hLp : 0 < L p := hposL p hplt
    refine ⟨hLp, ?_⟩
    rw [hflip p hplt, tagged_confirms n_cells idx vtx_cells admissible hmono
      c hc p hp1 hp2 (L p) hLp faces 0]
  obtain ⟨A1, A2, A3, A4⟩ := compact_loop_spec idx n_cells hpos1 n_cells 0 idx
    (flip_all (idx n_cells - 1)
      (redvse_tag_faces n_cells idx vtx_cells admissible 0 faces L))
    0 0
    (by omega)
    (fun m hm1 hm2 => hmono m (by omega))
    (by omega)
    (fun m _ => rfl)
    (by omega)
    (by omega)
  rw [show idx 0 - 1 = 0 from by omega] at A1 A2 A3 A4
  rw [← List.range_eq_range'] at A1 A2 A3 A4
  have hfst : (redvse_filter n_cells faces vtx_cells admissible idx L).1 =
      (compact_loop (List.range n_cells)
        (flip_all (idx n_cells - 1)
          (redvse_tag_faces n_cells idx vtx_cells admissible 0 faces L))
        idx 0 0 0).2 := rfl
  have hsnd : (redvse_filter n_cells faces vtx_cells admissible idx L).2 =
      (compact_loop (List.range n_cells)
        (flip_all (idx n_cells - 1)
          (redvse_tag_faces n_cells idx vtx_cells admissible 0 faces L))
        idx 0 0 0).1 := rfl
  have hps : ∀ p ∈ List.range' (idx c - 1) ((idx (c+1) - 1) - (idx c - 1)),
      0 < L p ∧
      flip_all (idx n_cells - 1)
        (redvse_tag_faces n_cells idx vtx_cells admissible 0 faces L) p =
      (if (fun e => confirmsB vtx_cells admissible c e 0 faces) (L p) = true
       then L p else -(L p)) := by
    intro p hp
    rw [List.mem_range'_1] at hp
    have hm1 := hmono c hc
    exact hrowchar p hp.1 (by omega)
  have hK : ((List.range' (idx c - 1) ((idx (c+1) - 1) - (idx c - 1))).map
      (flip_all (idx n_cells - 1)
        (redvse_tag_faces n_cells idx vtx_cells admissible 0 faces L))).filter
      (fun x => decide (0 < x)) =
      (rowOfCSR1 idx L c).filter
        (fun e => confirmsB vtx_cells admissible c e 0 faces) := by
    rw [filter_map_tag _ L (fun e => confirmsB vtx_cells admissible c e 0 faces)
      _ hps]
    have hrow : (List.range' (idx c - 1) ((idx (c+1) - 1) - (idx c - 1))).map L
        = rowOfCSR1 idx L c := by
      have h1 : 1 ≤ idx c := hpos1 c (by omega)
      rw [rowOfCSR1, List.range'_eq_map_range, List.map_map,
        show (idx (c+1) - 1) - (idx c - 1) = idx (c+1) - idx c from by omega]
      apply List.map_congr_left
      intro j hj
      rfl
    rw [hrow]
  have hlen : (compact_loop (List.range n_cells)
      (flip_all (idx n_cells - 1)
        (redvse_tag_faces n_cells idx vtx_cells admissible 0 faces L))
      idx 0 0 0).2 (c+1) =
      (compact_loop (List.range n_cells)
        (flip_all (idx n_cells - 1)
          (redvse_tag_faces n_cells idx vtx_cells admissible 0 faces L))
        idx 0 0 0).2 c +
      ((rowOfCSR1 idx L c).filter
        (fun e => confirmsB vtx_cells admissible c e 0 faces)).length := by
    rw [A2 c (by omega) (by omega), hK]
  constructor
  · rw [hfst, hsnd, rowOfCSR1, hlen]
    rw [show (compact_loop (List.range n_cells)
        (flip_all (idx n_cells - 1)
          (redvse_tag_faces n_cells idx vtx_cells admissible 0 faces L))
        idx 0 0 0).2 c +
        ((rowOfCSR1 idx L c).filter
          (fun e => confirmsB vtx_cells admissible c e 0 faces)).length -
        (compact_loop (List.range n_cells)
          (flip_all (idx n_cells - 1)
            (redvse_tag_faces n_cells idx vtx_cells admissible 0 faces L))
          idx 0 0 0).2 c =
        ((rowOfCSR1 idx L c).filter
          (fun e => confirmsB vtx_cells admissible c e 0 faces)).length
      from by omega]
    have hpt : ∀ j ∈ List.range (((rowOfCSR1 idx L c).filter
        (fun e => confirmsB vtx_cells admissible c e 0 faces)).length),
        (compact_loop (List.range n_cells)
          (flip_all (idx n_cells - 1)
            (redvse_tag_faces n_cells idx vtx_cells admissible 0 faces L))
          idx 0 0 0).1
          ((compact_loop (List.range n_cells)
            (flip_all (idx n_cells - 1)
              (redvse_tag_faces n_cells idx vtx_cells admissible 0 faces L))
            idx 0 0 0).2 c - 1 + j) =
        ((rowOfCSR1 idx L c).filter
          (fun e => confirmsB vtx_cells admissible c e 0 faces)).getD j 0 := by
      intro j hj
      rw [List.mem_range] at hj
      rw [← hK] at hj
      have hv := A3 c (by omega) (by omega) j hj
      rw [hK] at hv
      exact hv
    rw [List.map_congr_left hpt]
    rw [map_getD_range]
  · rw [hfst, hlen]

/-- C5 witness: one local cell with extended-neighbour row [5, 5] (index
2m+1), one admissible face of that cell whose vertex 1 is adjacent to
cell 5: both entries are confirmed and retained, and the index slot
after the row keeps its compacted value. -/
theorem c5_redvse_filter_witness :
    ((fun m => 2*m+1) 0 = 1 ∧ 0 < 1) ∧
    (rowOfCSR1 (redvse_filter 1 [((1, 1), [1])] (fun _ => [5])
        (fun _ => true) (fun m => 2*m+1) (fun _ => 5)).1
        (redvse_filter 1 [((1, 1), [1])] (fun _ => [5])
          (fun _ => true) (fun m => 2*m+1) (fun _ => 5)).2 0 =
      (rowOfCSR1 (fun m => 2*m+1) (fun _ => 5) 0).filter
        (fun e => confirmsB (fun _ => [5]) (fun _ => true) 0 e 0
          [((1, 1), [1])]) ∧
    (redvse_filter 1 [((1, 1), [1])] (fun _ => [5])
        (fun _ => true) (fun m => 2*m+1) (fun _ => 5)).1 1 =
      (redvse_filter 1 [((1, 1), [1])] (fun _ => [5])
          (fun _ => true) (fun m => 2*m+1) (fun _ => 5)).1 0 +
        ((rowOfCSR1 (fun m => 2*m+1) (fun _ => 5) 0).filter
          (fun e => confirmsB (fun _ => [5]) (fun _ => true) 0 e 0
            [((1, 1), [1])])).length) :=
  ⟨⟨rfl, by decide⟩,
    c5_redvse_filter 1 [((1, 1), [1])] (fun _ => [5]) (fun _ => true)
      (fun m => 2*m+1) (fun _ => 5) rfl
      (fun m _ => by show 2*m+1 ≤ 2*(m+1)+1; omega)
      (fun m _ => by show 1 ≤ 2*m+1; omega)
      (fun p _ => by show (0:Int) < 5; decide)
      0 (by decide)⟩
